import Mathlib

/-! cpu-gpu-compute: kernels, host references, device selection and exit paths

A shallow embedding of the kernels and host helpers of the repository.

* `unsigned int` / `int` values are natural numbers below `2 ^ 32` (their bit
  patterns); every arithmetic operation the sources perform on them is
  followed by `u32`, reduction modulo `2 ^ 32`.
* `float` values are modelled by `Int`: exact arithmetic, no rounding; the
  tolerance test of vectoradd_cpu.cc is over `Rat`.
* Buffers are lists read through `List.get?`-style total indexing: an access
  outside the buffer yields `none`, and `none` propagates.
* Units of a dispatch run one after the other; the runs of a `main` take the
  answers of the OpenCL / SYCL runtime and of the file system as inputs.
-/

namespace CpuGpuCompute

/-! ## Machine integers -/

/-- Number of values of a 32-bit `unsigned int`. -/
def wordSize : Nat := 4294967296

/-- Reduction of a natural number to an `unsigned int` (wrap-around). -/
def u32 (x : Nat) : Nat := x % 4294967296

/-- Number of iterations of `for (int t = 0; t < n; ++t)` when the bound is the
`int` with bit pattern `n`: a bit pattern of `2 ^ 31` or more is a negative
`int`, and the loop body never runs. -/
def intLoopCount (n : Nat) : Nat := if n < 2147483648 then n else 0

/-! ## Tile count

`const int numTiles = (N + TILE - 1) / TILE;` (matrixmult.cc, line 68),
`int numTiles = (N + Tile - 1) / Tile;` (sycl_matrixmult.cc, line 261) and
`const unsigned int numTiles = (N + Tile - 1) / Tile;` (line 70): the operands
are `unsigned int`, so the sum and the difference wrap. -/

/-- Subtraction of one on an `unsigned int`: zero wraps to `2 ^ 32 - 1`. -/
def u32Pred (x : Nat) : Nat := if x = 0 then 4294967295 else x - 1

/-- Tile count as the sources compute it, on `unsigned int` operands:
`(N + T - 1) / T`, the sum and the difference being reduced modulo `2 ^ 32`. -/
def numTiles (N T : Nat) : Nat := u32Pred (u32 (N + T)) / T

/-- Mathematical `ceil (N / T)` for `T ≥ 1`, on unbounded naturals: the
quotient, plus one when the division leaves a remainder. -/
def ceilDiv (N T : Nat) : Nat := if N % T = 0 then N / T else N / T + 1

/-! ## Tiled kernel

`matrixmult` (LOCALMEM) of matrixmult.cc with `T = TILE`, the `FlatMatMul`
kernel of sycl_matrixmult.cc and the kernel lambda of sycl_matrix_simple.cc
with `T = Tile`.  A unit is identified by its group ids `g0 g1` and its local
ids `tx ty`. -/

/-- `const int row = get_group_id(0) * TILE + tx;`, narrowed to 32 bits. -/
def rowOf (T g0 tx : Nat) : Nat := u32 (g0 * T + tx)

/-- `const int col = get_group_id(1) * TILE + ty;`, narrowed to 32 bits. -/
def colOf (T g1 ty : Nat) : Nat := u32 (g1 * T + ty)

/-- `const int k = t * TILE;` -/
def tileBase (T t : Nat) : Nat := u32 (t * T)

/-- Index expression `row * N + (k + ty)` of the read of `A`. -/
def idxA (N row k ty : Nat) : Nat := u32 (u32 (row * N) + u32 (k + ty))

/-- Index expression `(k + tx) * N + col` of the read of `B`. -/
def idxB (N col k tx : Nat) : Nat := u32 (u32 (u32 (k + tx) * N) + col)

/-- Index expression `row * N + col` of the write of `C`. -/
def idxC (N row col : Nat) : Nat := u32 (u32 (row * N) + col)

/-- Value a unit stores into `Asub[tx][ty]`:
`if (row < N && (k + ty) < N) A[row * N + (k + ty)] else 0.0f`. -/
def loadA (A : List Int) (N row k ty : Nat) : Option Int :=
  if row < N ∧ u32 (k + ty) < N then A[idxA N row k ty]? else some 0

/-- Value a unit stores into `Bsub[tx][ty]`:
`if ((k + tx) < N && col < N) B[(k + tx) * N + col] else 0.0f`. -/
def loadB (B : List Int) (N col k tx : Nat) : Option Int :=
  if u32 (k + tx) < N ∧ col < N then B[idxB N col k tx]? else some 0

/-- A `T × T` staging buffer in local memory; a cell is `none` when the load
that should have filled it was out of range. -/
abbrev Staging := List (List (Option Int))

/-- Contents of `Asub` at the first barrier of tile step `t` in the group with
id `g0` along axis 0: cell `[tx][ty]` was stored by the unit with local id
`(tx, ty)`. -/
def stageA (A : List Int) (N T g0 t : Nat) : Staging :=
  (List.range T).map fun tx =>
    (List.range T).map fun ty => loadA A N (rowOf T g0 tx) (tileBase T t) ty

/-- Contents of `Bsub` at the first barrier of tile step `t` in the group with
id `g1` along axis 1. -/
def stageB (B : List Int) (N T g1 t : Nat) : Staging :=
  (List.range T).map fun tx =>
    (List.range T).map fun ty => loadB B N (colOf T g1 ty) (tileBase T t) tx

/-- Read of cell `[i][j]` of a staging buffer; `none` outside the buffer. -/
def tileAt (buf : Staging) (i j : Nat) : Option Int :=
  match buf[i]? with
  | none => none
  | some r =>
    match r[j]? with
    | none => none
    | some c => c

/-- One pass of the statement `sum += Asub[tx][k_local] * Bsub[k_local][ty];`. -/
def dotStep (Asub Bsub : Staging) (tx ty : Nat) (sum : Int) (kl : Nat) : Option Int :=
  match tileAt Asub tx kl, tileAt Bsub kl ty with
  | some a, some b => some (sum + a * b)
  | _, _ => none

/-- Loop `for (int k_local = 0; k_local < TILE; ++k_local)` between the two
barriers of a tile step. -/
def dotTile (Asub Bsub : Staging) (T tx ty : Nat) (sum : Int) : Option Int :=
  (List.range T).foldlM (dotStep Asub Bsub tx ty) sum

/-- Accumulator `sum` of the unit `(g0, g1, tx, ty)` after the loop
`for (int t = 0; t < numTiles; ++t)`. -/
def unitSum (A B : List Int) (N T g0 g1 tx ty : Nat) : Option Int :=
  (List.range (intLoopCount (numTiles N T))).foldlM
    (fun sum t => dotTile (stageA A N T g0 t) (stageB B N T g1 t) T tx ty sum) 0

/-- Store `C[i] = v` into a buffer of global memory. -/
def storeC (C : List Int) (i : Nat) (v : Int) : Option (List Int) :=
  if i < C.length then some (C.set i v) else none

/-- Result buffer after the unit `(g0, g1, tx, ty)` has run:
`if (row < N && col < N) C[row * N + col] = sum;`. -/
def runUnit (A B C : List Int) (N T g0 g1 tx ty : Nat) : Option (List Int) :=
  match unitSum A B N T g0 g1 tx ty with
  | none => none
  | some sum =>
    if rowOf T g0 tx < N ∧ colOf T g1 ty < N then
      storeC C (idxC N (rowOf T g0 tx) (colOf T g1 ty)) sum
    else some C

/-! ## Untiled kernel

`matrixmult` (SIMPLE) of matrixmult.cc; `row` and `col` are the global ids. -/

/-- One pass of `sum += A[row * N + k] * B[k * N + col];`. -/
def simpleStep (A B : List Int) (N row col : Nat) (sum : Int) (k : Nat) : Option Int :=
  match A[u32 (u32 (row * N) + k)]?, B[u32 (u32 (k * N) + col)]? with
  | some a, some b => some (sum + a * b)
  | _, _ => none

/-- Accumulator after `for (unsigned int k = 0; k < N; ++k)`. -/
def simpleSum (A B : List Int) (N row col : Nat) : Option Int :=
  (List.range N).foldlM (simpleStep A B N row col) 0

/-- Result buffer after the unit with global id `(row, col)` of the SIMPLE
kernel has run. -/
def runSimple (A B C : List Int) (N row col : Nat) : Option (List Int) :=
  if row < N ∧ col < N then
    match simpleSum A B N row col with
    | none => none
    | some sum => storeC C (idxC N row col) sum
  else some C

/-- Result buffer after the unit with id `(i, j)` of the `SimpleMatMul` kernel
of sycl_matrixmult.cc has run; the kernel has no guard, its range is
`N × N`. -/
def runSimpleSycl (A B C : List Int) (N i j : Nat) : Option (List Int) :=
  match simpleSum A B N i j with
  | none => none
  | some sum => storeC C (idxC N i j) sum

/-! ## Reference product, from the specification

`C[i][j] = Σ_k A[i][k] * B[k][j]` on flat row-major arrays, on unbounded
naturals. -/

/-- Entry `(i, j)` of the matrix product: the sum over `k` in `[0, N)` of
`A[i * N + k] * B[k * N + j]`. -/
def productEntry (A B : List Int) (N i j : Nat) : Int :=
  ((List.range N).map fun k => A.getD (i * N + k) 0 * B.getD (k * N + j) 0).sum

/-- Host initialisation of matrixmult.cc, lines 151-156:
`hostA[i * N + j] = static_cast<float>(i + j)`, rows in order. -/
def hostA (N : Nat) : List Int :=
  (List.range N).flatMap fun i => (List.range N).map fun j => ((u32 (i + j) : Nat) : Int)

/-- Host initialisation `hostB[i * N + j] = static_cast<float>(i * j + 1)`. -/
def hostB (N : Nat) : List Int :=
  (List.range N).flatMap fun i =>
    (List.range N).map fun j => ((u32 (u32 (i * j) + 1) : Nat) : Int)

/-! ## Quantities used to state the results -/

/-- Value staged into `Asub`, as a number: the read element, or the padding. -/
def stagedA (A : List Int) (N row k ty : Nat) : Int :=
  if row < N ∧ u32 (k + ty) < N then A.getD (idxA N row k ty) 0 else 0

/-- Value staged into `Bsub`, as a number: the read element, or the padding. -/
def stagedB (B : List Int) (N col k tx : Nat) : Int :=
  if u32 (k + tx) < N ∧ col < N then B.getD (idxB N col k tx) 0 else 0

/-- Term added to `sum` by local index `kl` of tile step `t`. -/
def tileTerm (A B : List Int) (N T g0 g1 tx ty t kl : Nat) : Int :=
  stagedA A N (rowOf T g0 tx) (tileBase T t) kl * stagedB B N (colOf T g1 ty) (tileBase T t) kl

/-- Term of the untiled kernel at inner index `k`, with the 32-bit index
expressions `row * N + k` and `k * N + col`. -/
def simpleTerm (A B : List Int) (N row col k : Nat) : Int :=
  A.getD (u32 (u32 (row * N) + k)) 0 * B.getD (u32 (u32 (k * N) + col)) 0

/-- Term of the reference product at inner index `k`. -/
def productTerm (A B : List Int) (N i j k : Nat) : Int :=
  A.getD (i * N + k) 0 * B.getD (k * N + j) 0

/-- The matrix product as the naive triple loop leaves it: row-major,
`C[i * N + j]` is the sum over `k` of `A[i * N + k] * B[k * N + j]`. -/
def naiveProduct (A B : List Int) (N : Nat) : List Int :=
  (List.range N).flatMap fun i => (List.range N).map fun j => productEntry A B N i j

/-! ## Host dispatch

`cl::NDRange globalSize(N, N); cl::NDRange localSize(16, 16);` (matrixmult.cc,
lines 183-184), `cl::NDRange globalSize(N, N); cl::NDRange
localSize(cfg.Tile, cfg.Tile);` (matrixmult_cpu_gpu.cc, lines 184-185) and
`sycl::nd_range<2> ndRange(sycl::range<2>(N, N), sycl::range<2>(Tile, Tile));`
(sycl_matrixmult.cc, line 242). -/

/-- Global extent the host submits, per axis. -/
def globalSize (N : Nat) : Nat × Nat := (N, N)

/-- Local (work-group) extent the host submits, per axis. -/
def localSize (T : Nat) : Nat × Nat := (T, T)

/-- Units of a dispatch with global extent `globalSize N` and local extent
`localSize T`: `N / T` groups per axis, each of `T × T` units, listed as
`(g0, g1, tx, ty)`. -/
def dispatchUnits (N T : Nat) : List (Nat × Nat × Nat × Nat) :=
  (List.range ((globalSize N).1 / (localSize T).1)).flatMap fun g0 =>
    (List.range ((globalSize N).2 / (localSize T).2)).flatMap fun g1 =>
      (List.range (localSize T).1).flatMap fun tx =>
        (List.range (localSize T).2).map fun ty => (g0, g1, tx, ty)

/-- Result buffer after every unit of the dispatch has run, one after the
other. -/
def runKernel (A B C : List Int) (N T : Nat) : Option (List Int) :=
  (dispatchUnits N T).foldlM
    (fun C u => runUnit A B C N T u.1 u.2.1 u.2.2.1 u.2.2.2) C

/-! ## Host reference `tiled_mult_cpu` (sycl_matrixmult.cc, lines 67-96)

All variables are `unsigned int`. -/

/-- Values taken by `x` in `for (unsigned int x = a; x < b; ++x)`. -/
def loopRange (a b : Nat) : List Nat := List.range' a (b - a)

/-- `for (unsigned int i = 0; i < N * N; ++i) C[i] = 0.0f;` -/
def cpuZero (C : List Int) (N : Nat) : Option (List Int) :=
  (List.range (u32 (N * N))).foldlM (fun C i => storeC C i 0) C

/-- Body of the `j` loop: `float sum = C[i * N + j];`, the `k` loop from
`kStart` to `kEnd`, and `C[i * N + j] = sum;`. -/
def cpuCell (A B : List Int) (N i j kStart kEnd : Nat) (C : List Int) : Option (List Int) :=
  match C[idxC N i j]? with
  | none => none
  | some sum0 =>
    match (loopRange kStart kEnd).foldlM (simpleStep A B N i j) sum0 with
    | none => none
    | some sum => storeC C (idxC N i j) sum

/-- Body of the `tk` loop: the bounds of the block and the `i`, `j` loops. -/
def cpuBlock (A B : List Int) (N T ti tj tk : Nat) (C : List Int) : Option (List Int) :=
  let iStart := u32 (ti * T)
  let jStart := u32 (tj * T)
  let kStart := u32 (tk * T)
  let iEnd := min (u32 (iStart + T)) N
  let jEnd := min (u32 (jStart + T)) N
  let kEnd := min (u32 (kStart + T)) N
  (loopRange iStart iEnd).foldlM
    (fun C i => (loopRange jStart jEnd).foldlM
      (fun C j => cpuCell A B N i j kStart kEnd C) C) C

/-- `tiled_mult_cpu(A, B, C, N, Tile)`: the result buffer, or `none` when an
access was out of range. -/
def tiled_mult_cpu (A B C : List Int) (N T : Nat) : Option (List Int) :=
  match cpuZero C N with
  | none => none
  | some C0 =>
    (List.range (numTiles N T)).foldlM
      (fun C ti => (List.range (numTiles N T)).foldlM
        (fun C tj => (List.range (numTiles N T)).foldlM
          (fun C tk => cpuBlock A B N T ti tj tk C) C) C) C0

/-! ## Device selection

`findDevice` of vectoradd_cpu.cc (lines 37-61) and the loops with a `found`
flag in the `main` functions. -/

/-- A device as the selection sees it. -/
structure Device where
  /-- Handle of the device, in the order of enumeration. -/
  handle : Nat
  /-- `CL_DEVICE_MAX_COMPUTE_UNITS` / `info::device::max_compute_units`. -/
  computeUnits : Nat
  /-- Answer of `is_gpu()`. -/
  isGpu : Bool
  deriving DecidableEq, Repr

/-- Outcome of `platform.getDevices(type, &devices)`: the devices of the
requested type, or a thrown `cl::Error` with its code. -/
inductive DeviceQuery where
  | devices (ds : List Device)
  | error (code : Int)
  deriving DecidableEq, Repr

/-- Error code `CL_DEVICE_NOT_FOUND` of the OpenCL headers. -/
def CL_DEVICE_NOT_FOUND : Int := -1

/-- Outcome of a device selection. -/
inductive Selection where
  /-- A device was returned. -/
  | found (d : Device)
  /-- `std::runtime_error("No OpenCL platforms found.")`. -/
  | noPlatforms
  /-- `std::runtime_error("No suitable ... device found.")`, or `found == false`. -/
  | noSuitable
  /-- A rethrown `cl::Error` with its code. -/
  | clError (code : Int)
  deriving DecidableEq, Repr

/-- Loop `for (auto& device : devices)`: the first device that reports more
than zero compute units. -/
def firstWithUnits : List Device → Option Device
  | [] => none
  | d :: ds => if d.computeUnits > 0 then some d else firstWithUnits ds

/-- Loop `for (auto& platform : platforms)` of `findDevice`, followed by the
final `throw`. -/
def findDeviceLoop : List DeviceQuery → Selection
  | [] => Selection.noSuitable
  | DeviceQuery.error code :: ps =>
    if code = CL_DEVICE_NOT_FOUND then findDeviceLoop ps else Selection.clError code
  | DeviceQuery.devices ds :: ps =>
    match firstWithUnits ds with
    | some d => Selection.found d
    | none => findDeviceLoop ps

/-- `findDevice(type, typeName)` on the platforms' answers to the query for
`type`. -/
def findDevice (platforms : List DeviceQuery) : Selection :=
  if platforms.isEmpty then Selection.noPlatforms else findDeviceLoop platforms

/-- State of the selection loop of the `main` functions: `selectedDevice`,
`found`, and a pending rethrown error. -/
structure SelectState where
  selected : Option Device
  found : Bool
  thrown : Option Int
  deriving DecidableEq, Repr

/-- Inner loop with `selectedDevice = device; found = true; break;`. -/
def scanDevices (st : SelectState) : List Device → SelectState
  | [] => st
  | d :: ds =>
    if d.computeUnits > 0 then { st with selected := some d, found := true }
    else scanDevices st ds

/-- One pass of the platform loop of matrixmult.cc (lines 114-132); nothing
runs once the loop was left by `break` or by the rethrown error. -/
def selectStep (st : SelectState) (q : DeviceQuery) : SelectState :=
  if st.found ∨ st.thrown.isSome then st
  else
    match q with
    | DeviceQuery.error code =>
      if code = CL_DEVICE_NOT_FOUND then st else { st with thrown := some code }
    | DeviceQuery.devices ds => scanDevices st ds

/-- Device selection of `main` in matrixmult.cc and matrixmult_cpu_gpu.cc. -/
def selectInline (platforms : List DeviceQuery) : Selection :=
  if platforms.isEmpty then Selection.noPlatforms
  else
    let st := platforms.foldl selectStep { selected := none, found := false, thrown := none }
    match st.thrown, st.selected with
    | some code, _ => Selection.clError code
    | none, some d => if st.found then Selection.found d else Selection.noSuitable
    | none, none => Selection.noSuitable

/-- Inner loop of the SYCL programs:
`if (device.is_gpu() && max_compute_units > 0) { ...; break; }`. -/
def firstGpuWithUnits : List Device → Option Device
  | [] => none
  | d :: ds => if d.isGpu ∧ d.computeUnits > 0 then some d else firstGpuWithUnits ds

/-- Device selection of `main` in sycl_matrix_simple.cc (lines 23-37) and
sycl_matrixmult.cc, on the device lists of the platforms. -/
def selectSycl : List (List Device) → Selection
  | [] => Selection.noSuitable
  | ds :: ps =>
    match firstGpuWithUnits ds with
    | some d => Selection.found d
    | none => selectSycl ps

/-- Outcome of a selection that found the device `o`, or none. -/
def selectionOf (o : Option Device) : Selection :=
  match o with
  | some d => Selection.found d
  | none => Selection.noSuitable

/-- Reading of the final state of the loop with a `found` flag. -/
def selectionOfState (st : SelectState) : Selection :=
  match st.thrown, st.selected with
  | some code, _ => Selection.clError code
  | none, some d => if st.found then Selection.found d else Selection.noSuitable
  | none, none => Selection.noSuitable

/-- Device selection of `main` in simplebuff.c (lines 45-71): a platform
whose query fails with any error code, or that has no device, is passed over;
the loop stops at the first selected device. -/
def selectSimplebuffC : List DeviceQuery → Option Device
  | [] => none
  | DeviceQuery.error _ :: ps => selectSimplebuffC ps
  | DeviceQuery.devices ds :: ps =>
    match firstWithUnits ds with
    | some d => some d
    | none => selectSimplebuffC ps

/-! ## Runs of the host programs

A run is described by what the environment answers (platform queries, a
failing OpenCL call, results read back); the model returns the exit status,
the device work that was performed and the diagnostic lines. -/

/-- Value of `EXIT_SUCCESS`. -/
def EXIT_SUCCESS : Nat := 0

/-- Value of `EXIT_FAILURE`. -/
def EXIT_FAILURE : Nat := 1

/-- End of a process: a `return` from `main` or `std::exit` with a status, or
`abort()`. -/
inductive Exit where
  | status (code : Nat)
  | aborted
  deriving DecidableEq, Repr

/-- Device work of a host program after the selection, in source order. -/
inductive Step where
  | createContext
  | createBuffers
  | buildProgram
  | submitKernel
  | readResult
  deriving DecidableEq, Repr

/-- Observable outcome of a run. -/
structure Run where
  exit : Exit
  steps : List Step
  stderr : List String
  deriving DecidableEq, Repr

/-- Execution of the device work `plan` inside the `try` block of `main`:
when the call `fail.1` throws `cl::Error` the handler prints and returns
`EXIT_FAILURE`; `done` are the steps already performed. -/
def runSteps (fail : Option (Step × Int)) : List Step → List Step → Run
  | [], done => { exit := Exit.status EXIT_SUCCESS, steps := done, stderr := [] }
  | s :: rest, done =>
    match fail with
    | some (f, _) =>
      if f = s then
        { exit := Exit.status EXIT_FAILURE, steps := done, stderr := ["OpenCL error"] }
      else runSteps fail rest (done ++ [s])
    | none => runSteps fail rest (done ++ [s])

/-- Device work of `main` in matrixmult.cc after the selection (lines
139-190). -/
def matrixmultPlan : List Step :=
  [Step.createContext, Step.createBuffers, Step.buildProgram, Step.submitKernel,
    Step.readResult]

/-- `main` of matrixmult.cc: `platforms` are the answers to the GPU query,
`fail` a later OpenCL call that throws. -/
def mainMatrixmult (platforms : List DeviceQuery) (fail : Option (Step × Int)) : Run :=
  match selectInline platforms with
  | Selection.noPlatforms =>
    { exit := Exit.status EXIT_FAILURE, steps := [], stderr := ["No OpenCL platform found."] }
  | Selection.noSuitable =>
    { exit := Exit.status EXIT_FAILURE, steps := [],
      stderr := ["No suitable GPU device found."] }
  | Selection.clError _ =>
    { exit := Exit.status EXIT_FAILURE, steps := [], stderr := ["OpenCL error"] }
  | Selection.found _ => runSteps fail matrixmultPlan []

/-- A platform that yields no device of the requested type with compute
units: its query reports `CL_DEVICE_NOT_FOUND`, or its devices (if any) all
report 0 compute units. -/
def yieldsNothing (q : DeviceQuery) : Prop :=
  q = DeviceQuery.error CL_DEVICE_NOT_FOUND ∨
    ∃ ds, q = DeviceQuery.devices ds ∧ ∀ x ∈ ds, x.computeUnits = 0

/-! ## Command line (`parseArgs`)

`std::from_chars` is modelled after the C++ standard: for an unsigned type it
reads the longest leading run of decimal digits (no sign, no white space); no
digit is `invalid_argument`, a value that does not fit is
`result_out_of_range`; what follows the digits is left unread and is not an
error. -/

/-- Outcome of `std::from_chars(first, last, value)` for an `unsigned int`:
the value and the unread rest, or one of the two error codes. -/
inductive FromChars where
  | ok (value : Nat) (rest : List Char)
  | invalidArgument
  | resultOutOfRange
  deriving DecidableEq, Repr

/-- Accumulation of the leading decimal digits of a text onto `acc`; returns
the value and the unread rest. -/
def readDigits : List Char → Nat → Nat × List Char
  | [], acc => (acc, [])
  | c :: cs, acc =>
    if c.isDigit then readDigits cs (acc * 10 + (c.toNat - 48)) else (acc, c :: cs)

/-- `std::from_chars` on the text `s`, for a 32-bit `unsigned int`. -/
def fromChars (s : List Char) : FromChars :=
  match s with
  | [] => FromChars.invalidArgument
  | c :: _ =>
    if c.isDigit then
      if (readDigits s 0).1 < 4294967296 then
        FromChars.ok (readDigits s 0).1 (readDigits s 0).2
      else FromChars.resultOutOfRange
    else FromChars.invalidArgument

/-- The text `-size=`. -/
def sizeFlag : List Char := ['-', 's', 'i', 'z', 'e', '=']

/-- The text `-tile=`. -/
def tileFlag : List Char := ['-', 't', 'i', 'l', 'e', '=']

/-- The text `-bins=`. -/
def binsFlag : List Char := ['-', 'b', 'i', 'n', 's', '=']

/-- The text `-kernel=`. -/
def kernelFlag : List Char := ['-', 'k', 'e', 'r', 'n', 'e', 'l', '=']

/-- `struct Config` of matrixmult_cpu_gpu.cc and sycl_matrixmult.cc (which
has no `kernelPath`). -/
structure Config where
  N : Nat
  Tile : Nat
  kernelPath : List Char
  deriving DecidableEq, Repr

/-- `struct Config` of histogram.cc. -/
structure HistConfig where
  N : Nat
  Bins : Nat
  kernelPath : List Char
  deriving DecidableEq, Repr

/-- Outcome of `parseArgs`: the configuration, or `std::exit(EXIT_FAILURE)`
after the message was printed to `std::cerr`. -/
inductive Parsed (α : Type) where
  | ok (cfg : α)
  | exit (message : String)
  deriving DecidableEq, Repr

/-- Loop `for (int i = 1; i < argc; ++i)` of `parseArgs`, with the body
`step`; the first failing argument ends the process. -/
def parseLoop {α : Type} (step : α → List Char → Parsed α) : α → List (List Char) → Parsed α
  | cfg, [] => Parsed.ok cfg
  | cfg, arg :: rest =>
    match step cfg arg with
    | Parsed.ok cfg' => parseLoop step cfg' rest
    | Parsed.exit message => Parsed.exit message

/-- One pass of the loop of `parseArgs` in matrixmult_cpu_gpu.cc (lines
42-65): the new configuration, or the message printed before
`std::exit(EXIT_FAILURE)`. -/
def parseArg (cfg : Config) (arg : List Char) : Parsed Config :=
  if sizeFlag.isPrefixOf arg then
    match fromChars (arg.drop 6) with
    | FromChars.ok v _ => Parsed.ok { cfg with N := v }
    | _ => Parsed.exit "Invalid -size value"
  else if tileFlag.isPrefixOf arg then
    match fromChars (arg.drop 6) with
    | FromChars.ok v _ => Parsed.ok { cfg with Tile := v }
    | _ => Parsed.exit "Invalid -tile value"
  else if kernelFlag.isPrefixOf arg then
    Parsed.ok { cfg with kernelPath := arg.drop 8 }
  else Parsed.exit ("Unknown option: " ++ String.mk arg)

/-- `parseArgs(argc, argv)` of matrixmult_cpu_gpu.cc on `argv[1 .. argc)`. -/
def parseArgs (args : List (List Char)) : Parsed Config :=
  parseLoop parseArg { N := 256, Tile := 16, kernelPath := [] } args

/-- One pass of the loop of `parseArgs` in sycl_matrixmult.cc (lines 36-56). -/
def parseArgSycl (cfg : Config) (arg : List Char) : Parsed Config :=
  if sizeFlag.isPrefixOf arg then
    match fromChars (arg.drop 6) with
    | FromChars.ok v _ => Parsed.ok { cfg with N := v }
    | _ => Parsed.exit "Invalid -size value"
  else if tileFlag.isPrefixOf arg then
    match fromChars (arg.drop 6) with
    | FromChars.ok v _ => Parsed.ok { cfg with Tile := v }
    | _ => Parsed.exit "Invalid -tile value"
  else Parsed.exit ("Unknown option: " ++ String.mk arg)

/-- `parseArgs(argc, argv)` of sycl_matrixmult.cc. -/
def parseArgsSycl (args : List (List Char)) : Parsed Config :=
  parseLoop parseArgSycl { N := 256, Tile := 16, kernelPath := [] } args

/-- One pass of the loop of `parseArgs` in histogram.cc (lines 41-64). -/
def parseArgHist (cfg : HistConfig) (arg : List Char) : Parsed HistConfig :=
  if sizeFlag.isPrefixOf arg then
    match fromChars (arg.drop 6) with
    | FromChars.ok v _ => Parsed.ok { cfg with N := v }
    | _ => Parsed.exit "Invalid -size value"
  else if binsFlag.isPrefixOf arg then
    match fromChars (arg.drop 6) with
    | FromChars.ok v _ => Parsed.ok { cfg with Bins := v }
    | _ => Parsed.exit "Invalid -bins value"
  else if kernelFlag.isPrefixOf arg then
    Parsed.ok { cfg with kernelPath := arg.drop 8 }
  else Parsed.exit ("Unknown option: " ++ String.mk arg)

/-- `parseArgs(argc, argv)` of histogram.cc. -/
def parseArgsHist (args : List (List Char)) : Parsed HistConfig :=
  parseLoop parseArgHist { N := 1048576, Bins := 256, kernelPath := [] } args

/-- Value of a text of decimal digits, most significant first. -/
def decimalValue (ds : List Char) : Nat :=
  ds.foldl (fun acc c => acc * 10 + (c.toNat - 48)) 0

/-- `const size_t matrixSize = N * N;` (matrixmult_cpu_gpu.cc, line 107;
sycl_matrixmult.cc, line 104): `N` is `unsigned int`, so the product is
formed in 32 bits before it is widened to `size_t`. -/
def matrixSize (N : Nat) : Nat := u32 (N * N)

/-- `std::to_string` of an `unsigned int`: its decimal digits. -/
def to_string (v : Nat) : List Char := Nat.toDigits 10 v

/-- `kernelSource = "#define TILE " + std::to_string(cfg.Tile) + "\n" +
kernelSource` (matrixmult_cpu_gpu.cc, lines 113-115), on the text `file` of
the kernel file. -/
def kernelSourceTile (tile : Nat) (file : List Char) : List Char :=
  ("#define TILE ".toList ++ to_string tile ++ "\n".toList) ++ file

/-- `kernelSource = "#define BINS " + std::to_string(Bins) + "\n" +
kernelSource` (histogram.cc, lines 106-108). -/
def kernelSourceBins (bins : Nat) (file : List Char) : List Char :=
  ("#define BINS ".toList ++ to_string bins ++ "\n".toList) ++ file

/-- `#define TILE 16` of the LOCALMEM kernel of matrixmult.cc, and
`constexpr unsigned int Tile = 16` of sycl_matrix_simple.cc. -/
def TILE : Nat := 16

/-- `constexpr unsigned int N = 256; // SIZE` of matrixmult.cc and
sycl_matrix_simple.cc. -/
def matrixmultN : Nat := 256

/-- `cl::NDRange localSize(16, 16);` of matrixmult.cc (line 184). -/
def matrixmultLocalSize : Nat × Nat := (16, 16)

/-- `sycl::range<2>(Tile, Tile)` of sycl_matrix_simple.cc (line 72). -/
def syclMatrixSimpleLocalSize : Nat × Nat := (TILE, TILE)

/-- `constexpr size_t N = 64; // MIN VALUE` of vectoradd.cc (line 77). -/
def vectoraddN : Nat := 64

/-- `cl::NDRange localSize(256);` of vectoradd.cc (line 113). -/
def vectoraddLocalSize : Nat := 256

/-- `constexpr size_t N = 2048;` of sycl_vectoradd.cc (line 16). -/
def syclVectoraddN : Nat := 2048

/-- `const size_t localSize = 512;` of sycl_vectoradd.cc (line 75). -/
def syclVectoraddLocalSize : Nat := 512

/-! ## Program order of a unit of the tiled kernel -/

/-- What a unit of the tiled kernel does, in program order. -/
inductive Event where
  /-- Stores into `Asub[tx][ty]` and `Bsub[tx][ty]`, with the stored values. -/
  | stage (a b : Option Int)
  /-- `barrier(CLK_LOCAL_MEM_FENCE)` / `item.barrier(...)`. -/
  | barrier
  /-- `sum += Asub[tx][k_local] * Bsub[k_local][ty]`. -/
  | accumulate (kl : Nat)
  /-- `C[row * N + col] = sum`, with the index. -/
  | store (i : Nat)
  deriving DecidableEq, Repr

/-- Events of one tile step `t` of the unit `(g0, g1, tx, ty)`. -/
def tileEvents (A B : List Int) (N T g0 g1 tx ty t : Nat) : List Event :=
  [Event.stage (loadA A N (rowOf T g0 tx) (tileBase T t) ty)
      (loadB B N (colOf T g1 ty) (tileBase T t) tx),
    Event.barrier]
  ++ (List.range T).map Event.accumulate
  ++ [Event.barrier]

/-- Events of the unit `(g0, g1, tx, ty)`: the tile loop, then the guarded
store. -/
def unitTrace (A B : List Int) (N T g0 g1 tx ty : Nat) : List Event :=
  (List.range (intLoopCount (numTiles N T))).flatMap (tileEvents A B N T g0 g1 tx ty)
  ++ (if rowOf T g0 tx < N ∧ colOf T g1 ty < N
      then [Event.store (idxC N (rowOf T g0 tx) (colOf T g1 ty))] else [])

/-- Number of barrier calls among the events. -/
def barrierCount (trace : List Event) : Nat := trace.count Event.barrier

/-! ## Vector addition kernel

`vector_add` of vectoradd.cc and vectoradd_cpu.cc; `id` is the value of
`unsigned int id = get_global_id(0)`. -/

/-- Result buffer after the work-item with id `id` has run:
`if (id < n) C[id] = A[id] + B[id];`. -/
def vector_add (A B C : List Int) (n id : Nat) : Option (List Int) :=
  if id < n then
    match A[id]?, B[id]? with
    | some a, some b => storeC C id (a + b)
    | _, _ => none
  else some C

/-- Result buffer after the work-items with ids `0 .. count - 1` have run, one
after the other. -/
def runVectorAdd (A B C : List Int) (n count : Nat) : Option (List Int) :=
  (List.range count).foldlM (fun C id => vector_add A B C n id) C

/-- Host data `hostA[i] = static_cast<float>(i)` of the vector programs. -/
def vectorHostA (N : Nat) : List Int := (List.range N).map fun (i : Nat) => (i : Int)

/-- Host data `hostB[i] = static_cast<float>(i * 2)` of the vector programs. -/
def vectorHostB (N : Nat) : List Int :=
  (List.range N).map fun (i : Nat) => ((i * 2 : Nat) : Int)

/-! ## Result checks and exit paths of the hosts -/

/-- End of a run with both text streams. -/
structure Report where
  exit : Exit
  stdout : List String
  stderr : List String
  deriving DecidableEq, Repr

/-- The test `std::abs(gpuResult[i] - cpuResult[i]) > 1e-4f` of
vectoradd_cpu.cc (line 147), in exact arithmetic. -/
def exceedsTolerance (g c : Rat) : Bool := decide (|g - c| > 1 / 10000)

/-- The comparison loop of vectoradd_cpu.cc (lines 145-151) over the indices
`is`: the value of `match` after the loop, `none` for an index outside a
vector. -/
def compareLoop (gpuResult cpuResult : List Rat) : List Nat → Option Bool
  | [] => some true
  | i :: rest =>
    match gpuResult[i]?, cpuResult[i]? with
    | some g, some c =>
      if exceedsTolerance g c then some false else compareLoop gpuResult cpuResult rest
    | _, _ => none

/-- Value of `match`:
`for (size_t i = 0; i < std::min(N, size_t(1000)); ++i)`. -/
def resultsMatch (gpuResult cpuResult : List Rat) (N : Nat) : Option Bool :=
  compareLoop gpuResult cpuResult (List.range (min N 1000))

/-- The warning of vectoradd_cpu.cc (line 153). -/
def mismatchWarning : String := "Warning: CPU and GPU results differ!\n"

/-- End of `main` in vectoradd_cpu.cc (lines 145-156), from the two results
on; the timing lines are left out. -/
def vectoraddCpuCheck (gpuResult cpuResult : List Rat) (N : Nat) : Option Report :=
  (resultsMatch gpuResult cpuResult N).map fun m =>
    { exit := Exit.status EXIT_SUCCESS, stdout := [],
      stderr := if m then [] else [mismatchWarning] }

/-- The loop of the correctness check of histogram.cc (lines 194-200) over
the bins `is`: the value of `correct`. -/
def histCompareLoop (hostHist_cpu hostHist_gpu : List Nat) : List Nat → Option Bool
  | [] => some true
  | i :: rest =>
    match hostHist_cpu[i]?, hostHist_gpu[i]? with
    | some c, some g =>
      if c ≠ g then some false else histCompareLoop hostHist_cpu hostHist_gpu rest
    | _, _ => none

/-- End of `main` in histogram.cc (lines 193-204), from the two histograms
on; the timing lines are left out. -/
def histogramCheck (hostHist_cpu hostHist_gpu : List Nat) (Bins : Nat) : Option Report :=
  (histCompareLoop hostHist_cpu hostHist_gpu (List.range Bins)).map fun correct =>
    { exit := Exit.status EXIT_SUCCESS,
      stdout := ["Result correctness: " ++ (if correct then "PASSED" else "FAILED") ++ "\n",
        "\ndone. Histogram computed.\n"],
      stderr := [] }

/-- Execution of the device work `plan` inside the `try` block of a SYCL
`main`: a throwing step ends in the handler of `sycl::exception`. -/
def runStepsSycl (fail : Option Step) : List Step → List Step → Run
  | [], done => { exit := Exit.status EXIT_SUCCESS, steps := done, stderr := [] }
  | s :: rest, done =>
    if fail = some s then
      { exit := Exit.status EXIT_FAILURE, steps := done, stderr := ["SYCL exception"] }
    else runStepsSycl fail rest (done ++ [s])

/-- The message of the PRIVATE build of sycl_matrixmult.cc (line 167). -/
def privateModeError : String := "Error: In PRIVATE mode, N must be divisible by Tile.\n"

/-- `sycl::range<2> numGroups(N / Tile, N / Tile);` (line 170). -/
def numGroups (N Tile : Nat) : Nat × Nat := (N / Tile, N / Tile)

/-- PRIVATE build of `main` in sycl_matrixmult.cc from the device selection on
(lines 117-313), for `Tile ≥ 1`: selection, buffers, the divisibility check,
then submission and read-back. -/
def mainSyclPrivate (N Tile : Nat) (platforms : List (List Device)) (fail : Option Step) :
    Run :=
  match selectSycl platforms with
  | Selection.found _ =>
    if fail = some Step.createBuffers then
      { exit := Exit.status EXIT_FAILURE, steps := [], stderr := ["SYCL exception"] }
    else if N % Tile ≠ 0 then
      { exit := Exit.status EXIT_FAILURE, steps := [Step.createBuffers],
        stderr := [privateModeError] }
    else runStepsSycl fail [Step.submitKernel, Step.readResult] [Step.createBuffers]
  | _ =>
    { exit := Exit.status EXIT_FAILURE, steps := [],
      stderr := ["No suitable GPU device found.\n"] }

/-! ## Host histogram reference (histogram.cc, lines 87-95)

Counters and data are `unsigned int`; buffers are lists with range-checked
access. -/

/-- `std::fill(hist, hist + bins, 0);`. -/
def fillZero (hist : List Nat) (bins : Nat) : Option (List Nat) :=
  if bins ≤ hist.length then some (List.replicate bins 0 ++ hist.drop bins) else none

/-- Body of the loop of `histogram_ref`:
`unsigned int val = data[i]; if (val < bins) hist[val]++;`. -/
def histStep (data : List Nat) (bins : Nat) (hist : List Nat) (i : Nat) : Option (List Nat) :=
  match data[i]? with
  | none => none
  | some val =>
    if val < bins then
      match hist[val]? with
      | some h => some (hist.set val (u32 (h + 1)))
      | none => none
    else some hist

/-- `histogram_ref(data, hist, N, bins)`: the content of `hist` afterwards. -/
def histogram_ref (data hist : List Nat) (N bins : Nat) : Option (List Nat) :=
  (fillZero hist bins).bind fun h0 => (List.range N).foldlM (histStep data bins) h0

/-- Closed form of the content of `hist` after `k` passes of the loop of `histogram_ref`. -/
def histAfter (data hist : List Nat) (bins k : Nat) : List Nat :=
  (List.range bins).map (fun b => (data.take k).count b) ++ hist.drop bins

/-- Result buffer after the units of `order` have run, one after the other. -/
def runUnits (A B C : List Int) (N T : Nat) (order : List (Nat × Nat × Nat × Nat)) :
    Option (List Int) :=
  order.foldlM (fun C u => runUnit A B C N T u.1 u.2.1 u.2.2.1 u.2.2.2) C

/-! ## Hierarchical kernel (PRIVATE build of sycl_matrixmult.cc, lines 176-215)

`HierarchicalMatMul` for the unit with group id `(g0, g1)` and local id
`(tx, ty)`; `row` and `col` are the global ids narrowed to `int`. The loads
and the store have no bounds test. -/

/-- `const int numTiles = N / Tile;` as the number of passes of
`for (int t = 0; t < numTiles; ++t)`. -/
def privateLoopCount (N T : Nat) : Nat := intLoopCount (N / T)

/-- Value stored by `Asub[tx][ty] = accA[row * N + (k + ty)];`. -/
def privateLoadA (A : List Int) (N row k ty : Nat) : Option Int := A[idxA N row k ty]?

/-- Value stored by `Bsub[tx][ty] = accB[(k + tx) * N + col];`. -/
def privateLoadB (B : List Int) (N col k tx : Nat) : Option Int := B[idxB N col k tx]?

/-- Contents of `Asub` after the first `parallel_for_work_item` of tile step
`t` in the group with id `g0` along axis 0. -/
def privateStageA (A : List Int) (N T g0 t : Nat) : Staging :=
  (List.range T).map fun tx =>
    (List.range T).map fun ty => privateLoadA A N (rowOf T g0 tx) (tileBase T t) ty

/-- Contents of `Bsub` after the first `parallel_for_work_item` of tile step
`t` in the group with id `g1` along axis 1. -/
def privateStageB (B : List Int) (N T g1 t : Nat) : Staging :=
  (List.range T).map fun tx =>
    (List.range T).map fun ty => privateLoadB B N (colOf T g1 ty) (tileBase T t) tx

/-- Private accumulator `sum(it)` of the unit after the tile loop. -/
def privateUnitSum (A B : List Int) (N T g0 g1 tx ty : Nat) : Option Int :=
  (List.range (privateLoopCount N T)).foldlM
    (fun sum t => dotTile (privateStageA A N T g0 t) (privateStageB B N T g1 t) T tx ty sum) 0

/-- Result buffer after the unit has run: `accC[row * N + col] = sum(it);`. -/
def privateRunUnit (A B C : List Int) (N T g0 g1 tx ty : Nat) : Option (List Int) :=
  match privateUnitSum A B N T g0 g1 tx ty with
  | none => none
  | some sum => storeC C (idxC N (rowOf T g0 tx) (colOf T g1 ty)) sum

/-- Term added to `sum(it)` by local index `kl` of tile step `t`. -/
def privateTerm (A B : List Int) (N T g0 g1 tx ty t kl : Nat) : Int :=
  A.getD (idxA N (rowOf T g0 tx) (tileBase T t) kl) 0
    * B.getD (idxB N (colOf T g1 ty) (tileBase T t) kl) 0

/-- An `N × N` operand of ones for `N = 2 ^ 31`. -/
def hugeOnes : List Int := List.replicate (2147483648 * 2147483648) 1

/-! ## Transposed host reference (matrixmult_cpu_gpu.cc, lines 88-102)

All index variables are `unsigned int`; `i * N + j` is `idxC N i j`. -/

/-- `std::vector<float> Bt(N * N);`: the element count is the 32-bit product. -/
def transposeAlloc (N : Nat) : List Int := List.replicate (u32 (N * N)) 0

/-- `Bt[j * N + i] = B[i * N + j];`. -/
def transposeCell (B : List Int) (N i : Nat) (Bt : List Int) (j : Nat) : Option (List Int) :=
  match B[idxC N i j]? with
  | some b => storeC Bt (idxC N j i) b
  | none => none

/-- The first loop nest of `transpose_mult_ref`: the content of `Bt`. -/
def transposeFill (B : List Int) (N : Nat) : Option (List Int) :=
  (List.range N).foldlM
    (fun Bt i => (List.range N).foldlM (transposeCell B N i) Bt) (transposeAlloc N)

/-- `sum += A[i * N + k] * Bt[j * N + k];`. -/
def refStep (A Bt : List Int) (N i j : Nat) (sum : Int) (k : Nat) : Option Int :=
  match A[idxC N i k]?, Bt[idxC N j k]? with
  | some a, some b => some (sum + a * b)
  | _, _ => none

/-- Body of the loop over `j`: the sum over `k`, then `C[i * N + j] = sum;`. -/
def refCell (A Bt : List Int) (N i : Nat) (C : List Int) (j : Nat) : Option (List Int) :=
  match (List.range N).foldlM (refStep A Bt N i j) 0 with
  | some sum => storeC C (idxC N i j) sum
  | none => none

/-- `transpose_mult_ref(A, B, C, N)`: the content of `C` afterwards. -/
def transpose_mult_ref (A B C : List Int) (N : Nat) : Option (List Int) :=
  match transposeFill B N with
  | none => none
  | some Bt =>
    (List.range N).foldlM (fun C i => (List.range N).foldlM (refCell A Bt N i) C) C

/-- The pairs `(i, j)` of two nested loops over `[0, N)`, in the order of
execution. -/
def indexPairs (N : Nat) : List (Nat × Nat) :=
  (List.range N).flatMap fun i => (List.range N).map fun j => (i, j)

/-- An operand of `65536 * 65536` zeros. -/
def wideZeros : List Int := List.replicate 4294967296 0

/-- Values of the row, column or inner index in block `t` of `tiled_mult_cpu`:
from `t * Tile` to `std::min(t * Tile + Tile, N)`. -/
def blockRange (N T t : Nat) : List Nat :=
  loopRange (u32 (t * T)) (min (u32 (u32 (t * T) + T)) N)

/-- The passes `(i, j, tk)` of the body of the `j` loop of `tiled_mult_cpu`,
in the order of execution. -/
def cpuOps (N T : Nat) : List (Nat × Nat × Nat) :=
  (List.range (numTiles N T)).flatMap fun ti =>
    (List.range (numTiles N T)).flatMap fun tj =>
      (List.range (numTiles N T)).flatMap fun tk =>
        (blockRange N T ti).flatMap fun i =>
          (blockRange N T tj).map fun j => (i, j, tk)

/-- Sum a pass `(i, j, tk)` adds to `C[i * N + j]`: the terms of block `tk`. -/
def blockSum (A B : List Int) (N T i j tk : Nat) : Int :=
  ((blockRange N T tk).map (simpleTerm A B N i j)).sum

/-- A result buffer of `65536 * 65536` sevens. -/
def wideSevens : List Int := List.replicate 4294967296 7

/-! ## Auxiliary lemmas -/

theorem u32_eq_self {x : Nat} (h : x < 4294967296) : u32 x = x :=
  Nat.mod_eq_of_lt h

theorem u32_le (x : Nat) : u32 x ≤ x := Nat.mod_le _ _

theorem u32_lt (x : Nat) : u32 x < 4294967296 := Nat.mod_lt _ (by decide)

/-- A loop in the `Option` monad whose every pass succeeds and adds a term to
the accumulator returns the accumulator plus the sum of the terms. -/
theorem foldlM_add_terms {α : Type} (f : Int → α → Option Int) (g : α → Int) :
    ∀ (l : List α) (s : Int), (∀ x ∈ l, ∀ r, f r x = some (r + g x)) →
      l.foldlM f s = some (s + (l.map g).sum) := by
  intro l
  induction l with
  | nil => intro s _; simp
  | cons a l ih =>
    intro s h
    have ha := h a (List.mem_cons_self a l) s
    have hl : ∀ x ∈ l, ∀ r, f r x = some (r + g x) :=
      fun x hx r => h x (List.mem_cons_of_mem a hx) r
    simp only [List.foldlM_cons, ha, List.map_cons, List.sum_cons]
    show l.foldlM f (s + g a) = _
    rw [ih (s + g a) hl, add_assoc]

/-- Sum of a family over the cells of `nt` consecutive tiles of width `T`. -/
theorem sum_tiles_flat (h : Nat → Int) (T : Nat) :
    ∀ nt : Nat, ((List.range nt).map fun t =>
        ((List.range T).map fun kl => h (t * T + kl)).sum).sum
      = ((List.range (nt * T)).map h).sum := by
  intro nt
  induction nt with
  | zero => simp
  | succ n ih =>
    rw [List.range_succ, List.map_append, List.sum_append, ih, Nat.succ_mul,
      List.range_add, List.map_append, List.sum_append]
    simp [List.map_map, Function.comp_def]

/-- A family that vanishes from `N` on sums over `[0, M)` as over `[0, N)`
when `N ≤ M`. -/
theorem sum_range_padded (h : Nat → Int) (N M : Nat) (hNM : N ≤ M) :
    ((List.range M).map fun i => if i < N then h i else 0).sum
      = ((List.range N).map h).sum := by
  obtain ⟨d, rfl⟩ := Nat.exists_eq_add_of_le hNM
  rw [List.range_add, List.map_append, List.sum_append]
  have h1 : ((List.range N).map fun i => if i < N then h i else 0) = (List.range N).map h := by
    apply List.map_congr_left
    intro i hi
    simp [List.mem_range.mp hi]
  have h2 : (((List.range d).map fun x => N + x).map fun i => if i < N then h i else 0).sum
      = 0 := by
    apply List.sum_eq_zero
    intro x hx
    simp only [List.map_map, List.mem_map, Function.comp] at hx
    obtain ⟨y, _, rfl⟩ := hx
    simp
  rw [h1, h2, add_zero]

/-- Zero-padded tiles cover `[0, N)`: the double sum over tile steps and local
indices equals the single sum over `k < N`. -/
theorem sum_tiles_padded (h : Nat → Int) (T nt N : Nat) (hcover : N ≤ nt * T) :
    ((List.range nt).map fun t =>
        ((List.range T).map fun kl =>
          if t * T + kl < N then h (t * T + kl) else 0).sum).sum
      = ((List.range N).map h).sum := by
  rw [sum_tiles_flat (fun i => if i < N then h i else 0) T nt]
  exact sum_range_padded h N (nt * T) hcover

/-! ## Accesses of the tiled kernel stay in range -/

theorem row_mul_add_lt {N row k : Nat} (hr : row < N) (hk : k < N) :
    row * N + k < N * N := by
  have h1 : (row + 1) * N ≤ N * N := Nat.mul_le_mul_right N hr
  have h2 : (row + 1) * N = row * N + N := Nat.succ_mul row N
  omega

theorem idxA_lt {N row k ty : Nat} (hr : row < N) (hk : u32 (k + ty) < N) :
    idxA N row k ty < N * N := by
  have h1 := u32_le (u32 (row * N) + u32 (k + ty))
  have h2 := u32_le (row * N)
  have h3 := row_mul_add_lt hr hk
  unfold idxA
  omega

theorem idxB_lt {N col k tx : Nat} (hk : u32 (k + tx) < N) (hc : col < N) :
    idxB N col k tx < N * N := by
  have h1 := u32_le (u32 (u32 (k + tx) * N) + col)
  have h2 := u32_le (u32 (k + tx) * N)
  have h3 := row_mul_add_lt hk hc
  unfold idxB
  omega

theorem idxC_lt {N row col : Nat} (hr : row < N) (hc : col < N) :
    idxC N row col < N * N := by
  have h1 := u32_le (u32 (row * N) + col)
  have h2 := u32_le (row * N)
  have h3 := row_mul_add_lt hr hc
  unfold idxC
  omega

theorem getElem?_eq_some_getD {l : List Int} {i : Nat} (h : i < l.length) :
    l[i]? = some (l.getD i 0) := by
  simp [List.getD, List.getElem?_eq_getElem h]

theorem loadA_eq_some (A : List Int) (N row k ty : Nat) (hA : A.length = N * N) :
    loadA A N row k ty = some (stagedA A N row k ty) := by
  unfold loadA stagedA
  split
  · next h => exact getElem?_eq_some_getD (hA ▸ idxA_lt h.1 h.2)
  · rfl

theorem loadB_eq_some (B : List Int) (N col k tx : Nat) (hB : B.length = N * N) :
    loadB B N col k tx = some (stagedB B N col k tx) := by
  unfold loadB stagedB
  split
  · next h => exact getElem?_eq_some_getD (hB ▸ idxB_lt h.1 h.2)
  · rfl

theorem tileAt_stageA (A : List Int) (N T g0 t : Nat) {i j : Nat} (hi : i < T) (hj : j < T) :
    tileAt (stageA A N T g0 t) i j = loadA A N (rowOf T g0 i) (tileBase T t) j := by
  simp [tileAt, stageA, List.getElem?_map, List.getElem?_range, hi, hj]

theorem tileAt_stageB (B : List Int) (N T g1 t : Nat) {i j : Nat} (hi : i < T) (hj : j < T) :
    tileAt (stageB B N T g1 t) i j = loadB B N (colOf T g1 j) (tileBase T t) i := by
  simp [tileAt, stageB, List.getElem?_map, List.getElem?_range, hi, hj]

theorem dotTile_eq (A B : List Int) (N T g0 g1 tx ty t : Nat) (sum : Int)
    (hA : A.length = N * N) (hB : B.length = N * N) (htx : tx < T) (hty : ty < T) :
    dotTile (stageA A N T g0 t) (stageB B N T g1 t) T tx ty sum
      = some (sum + ((List.range T).map (tileTerm A B N T g0 g1 tx ty t)).sum) := by
  unfold dotTile
  apply foldlM_add_terms
  intro kl hkl r
  have hk : kl < T := List.mem_range.mp hkl
  simp [dotStep, tileAt_stageA A N T g0 t htx hk, tileAt_stageB B N T g1 t hk hty,
    loadA_eq_some A N _ _ _ hA, loadB_eq_some B N _ _ _ hB, tileTerm]

/-- Closed form of the accumulator: with operands of length `N * N` no read
of the unit is out of range, and `sum` is the double sum of the staged
products. -/
theorem unitSum_eq (A B : List Int) (N T g0 g1 tx ty : Nat)
    (hA : A.length = N * N) (hB : B.length = N * N) (htx : tx < T) (hty : ty < T) :
    unitSum A B N T g0 g1 tx ty
      = some (((List.range (intLoopCount (numTiles N T))).map fun t =>
          ((List.range T).map (tileTerm A B N T g0 g1 tx ty t)).sum).sum) := by
  unfold unitSum
  rw [foldlM_add_terms _ (fun t => ((List.range T).map (tileTerm A B N T g0 g1 tx ty t)).sum)]
  · simp
  · intro t _ r
    exact dotTile_eq A B N T g0 g1 tx ty t r hA hB htx hty

/-! ## Tile count without overflow -/

theorem numTiles_eq_of_le {N T : Nat} (hT : 0 < T) (h : N + T ≤ 4294967296) :
    numTiles N T = (N + T - 1) / T := by
  have h1 : u32 (N + T) = N + T ∨ (N + T = 4294967296 ∧ u32 (N + T) = 0) := by
    unfold u32
    omega
  unfold numTiles u32Pred
  rcases h1 with h1 | ⟨h1, h2⟩
  · rw [h1, if_neg (by omega)]
  · rw [h2, if_pos rfl, h1]

theorem div_mul_ge {N T : Nat} (hT : 0 < T) : N ≤ (N + T - 1) / T * T := by
  have h1 := Nat.div_add_mod (N + T - 1) T
  have h2 := Nat.mod_lt (N + T - 1) hT
  have h3 : T * ((N + T - 1) / T) = (N + T - 1) / T * T := Nat.mul_comm _ _
  omega

theorem div_mul_le {N T : Nat} : (N + T - 1) / T * T ≤ N + T - 1 :=
  Nat.div_mul_le_self _ _

theorem intLoopCount_eq {n : Nat} (h : n < 2147483648) : intLoopCount n = n := by
  simp [intLoopCount, h]

theorem le_of_mul_self_le {N : Nat} (hNN : N * N ≤ 4294967296) : N ≤ 65536 := by
  rcases Nat.lt_or_ge 65536 N with h | h
  · have := Nat.mul_le_mul (Nat.succ_le_of_lt h) (Nat.succ_le_of_lt h)
    omega
  · exact h

theorem simpleTerm_eq_productTerm (A B : List Int) {N row col k : Nat}
    (hNN : N * N ≤ 4294967296) (hr : row < N) (hc : col < N) (hk : k < N) :
    simpleTerm A B N row col k = productTerm A B N row col k := by
  have ha := row_mul_add_lt hr hk
  have hb := row_mul_add_lt hk hc
  unfold simpleTerm productTerm
  rw [u32_eq_self (by omega : row * N < 4294967296), u32_eq_self (by omega : row * N + k < _),
    u32_eq_self (by omega : k * N < 4294967296), u32_eq_self (by omega : k * N + col < _)]

theorem tileTerm_eq (A B : List Int) (N T g0 g1 tx ty t kl : Nat)
    (hr : rowOf T g0 tx < N) (hc : colOf T g1 ty < N)
    (hbase : t * T < 4294967296) (hk : t * T + kl < 4294967296) :
    tileTerm A B N T g0 g1 tx ty t kl
      = if t * T + kl < N then simpleTerm A B N (rowOf T g0 tx) (colOf T g1 ty) (t * T + kl)
        else 0 := by
  have hb : tileBase T t = t * T := u32_eq_self hbase
  have hu : u32 (t * T + kl) = t * T + kl := u32_eq_self hk
  unfold tileTerm stagedA stagedB
  rw [hb, hu]
  by_cases hlt : t * T + kl < N
  · simp [hlt, hr, hc, idxA, idxB, hu, simpleTerm]
  · simp [hlt]

/-- When the tile arithmetic does not wrap, the accumulator of a unit whose
`(row, col)` is in bounds is the sum over `k < N` of the untiled terms. -/
theorem unitSum_eq_simple (A B : List Int) (N T g0 g1 tx ty : Nat)
    (hA : A.length = N * N) (hB : B.length = N * N) (hT : 0 < T)
    (hNT : N + T ≤ 2147483648)
    (htx : tx < T) (hty : ty < T) (hr : rowOf T g0 tx < N) (hc : colOf T g1 ty < N) :
    unitSum A B N T g0 g1 tx ty
      = some (((List.range N).map
          (simpleTerm A B N (rowOf T g0 tx) (colOf T g1 ty))).sum) := by
  have hnt : numTiles N T = (N + T - 1) / T := numTiles_eq_of_le hT (by omega)
  have hle : (N + T - 1) / T * T ≤ N + T - 1 := div_mul_le
  have hcnt : intLoopCount (numTiles N T) = (N + T - 1) / T := by
    rw [hnt]
    apply intLoopCount_eq
    have : (N + T - 1) / T ≤ N + T - 1 := Nat.div_le_self _ _
    omega
  rw [unitSum_eq A B N T g0 g1 tx ty hA hB htx hty, hcnt]
  have hterms : ((List.range ((N + T - 1) / T)).map fun t =>
        ((List.range T).map (tileTerm A B N T g0 g1 tx ty t)).sum)
      = ((List.range ((N + T - 1) / T)).map fun t =>
        ((List.range T).map fun kl =>
          if t * T + kl < N then
            simpleTerm A B N (rowOf T g0 tx) (colOf T g1 ty) (t * T + kl)
          else 0).sum) := by
    apply List.map_congr_left
    intro t ht
    congr 1
    apply List.map_congr_left
    intro kl hkl
    have ht' : t < (N + T - 1) / T := List.mem_range.mp ht
    have hkl' : kl < T := List.mem_range.mp hkl
    have h1 : (t + 1) * T ≤ (N + T - 1) / T * T := Nat.mul_le_mul_right T ht'
    have h2 : (t + 1) * T = t * T + T := Nat.succ_mul t T
    exact tileTerm_eq A B N T g0 g1 tx ty t kl hr hc (by omega) (by omega)
  rw [hterms, sum_tiles_padded (simpleTerm A B N (rowOf T g0 tx) (colOf T g1 ty)) T _ N
    (div_mul_ge hT)]

/-- In the range where no 32-bit quantity wraps, the accumulator of a unit
whose `(row, col)` is in bounds is the entry of the matrix product. -/
theorem unitSum_eq_product (A B : List Int) (N T g0 g1 tx ty : Nat)
    (hA : A.length = N * N) (hB : B.length = N * N) (hT : 0 < T)
    (hNN : N * N ≤ 4294967296) (hNT : N + T ≤ 2147483648)
    (htx : tx < T) (hty : ty < T) (hrow : g0 * T + tx < N) (hcol : g1 * T + ty < N) :
    unitSum A B N T g0 g1 tx ty
      = some (productEntry A B N (g0 * T + tx) (g1 * T + ty)) := by
  have hN := le_of_mul_self_le hNN
  have hr : rowOf T g0 tx = g0 * T + tx := u32_eq_self (by omega)
  have hc : colOf T g1 ty = g1 * T + ty := u32_eq_self (by omega)
  rw [unitSum_eq_simple A B N T g0 g1 tx ty hA hB hT hNT htx hty (hr ▸ hrow) (hc ▸ hcol),
    hr, hc]
  congr 2
  apply List.map_congr_left
  intro k hk
  exact simpleTerm_eq_productTerm A B hNN hrow hcol (List.mem_range.mp hk)

/-! ## The tiled kernel computes the product -/

theorem storeC_eq_some {C : List Int} {i : Nat} (v : Int) (h : i < C.length) :
    storeC C i v = some (C.set i v) := by
  simp [storeC, h]

theorem idxC_eq {N row col : Nat} (hNN : N * N ≤ 4294967296) (hr : row < N) (hc : col < N) :
    idxC N row col = row * N + col := by
  have h := row_mul_add_lt hr hc
  unfold idxC
  rw [u32_eq_self (by omega : row * N < 4294967296), u32_eq_self (by omega)]

/-- C1 (amended): when the index arithmetic fits 32 bits (`N * N ≤ 2 ^ 32`,
`N + T ≤ 2 ^ 31`), operands of length `N * N` and a unit of a `T × T` group
with `row = g0 * T + tx < N` and `col = g1 * T + ty < N`: the unit stores into
`C[row * N + col]` the sum over `k < N` of `A[row * N + k] * B[k * N + col]`,
whether or not `T` divides `N`. -/
theorem tiled_unit_writes_product (A B C : List Int) (N T g0 g1 tx ty : Nat)
    (hA : A.length = N * N) (hB : B.length = N * N) (hC : C.length = N * N)
    (hT : 0 < T) (hNN : N * N ≤ 4294967296) (hNT : N + T ≤ 2147483648)
    (htx : tx < T) (hty : ty < T) (hrow : g0 * T + tx < N) (hcol : g1 * T + ty < N) :
    runUnit A B C N T g0 g1 tx ty
      = some (C.set ((g0 * T + tx) * N + (g1 * T + ty))
          (productEntry A B N (g0 * T + tx) (g1 * T + ty))) := by
  have hN := le_of_mul_self_le hNN
  have hr : rowOf T g0 tx = g0 * T + tx := u32_eq_self (by omega)
  have hc : colOf T g1 ty = g1 * T + ty := u32_eq_self (by omega)
  have hi := row_mul_add_lt hrow hcol
  unfold runUnit
  rw [unitSum_eq_product A B N T g0 g1 tx ty hA hB hT hNN hNT htx hty hrow hcol, hr, hc]
  simp only [hrow, hcol, and_self, if_true, idxC_eq hNN hrow hcol]
  exact storeC_eq_some _ (hC ▸ hi)

/-- Witness of C1 (amended): `N = 10`, `T = 4`, the unit at row 9, column 7 of
the ragged last tile row. -/
theorem tiled_unit_writes_product_witness :
    runUnit (hostA 10) (hostB 10) (List.replicate 100 0) 10 4 2 1 1 3
      = some ((List.replicate 100 0).set ((2 * 4 + 1) * 10 + (1 * 4 + 3))
          (productEntry (hostA 10) (hostB 10) 10 (2 * 4 + 1) (1 * 4 + 3))) :=
  tiled_unit_writes_product (hostA 10) (hostB 10) (List.replicate 100 0) 10 4 2 1 1 3
    (by decide) (by decide) (by decide) (by decide) (by decide) (by decide)
    (by decide) (by decide) (by decide) (by decide)

/-- C1 as stated, for every `N ≥ 1` and `T ≥ 1`, fails: for `N = 2` and
`T = 4294967295` the tile count wraps to zero and the unit at `(0, 0)` stores
`0`, while the product entry is `2`. -/
theorem tiled_unit_product_fails_when_count_wraps :
    ¬ ∀ (A B C : List Int) (N T g0 g1 tx ty : Nat),
      1 ≤ N → 1 ≤ T → N < 4294967296 → T < 4294967296 →
      A.length = N * N → B.length = N * N → C.length = N * N →
      tx < T → ty < T → g0 * T + tx < N → g1 * T + ty < N →
      runUnit A B C N T g0 g1 tx ty
        = some (C.set ((g0 * T + tx) * N + (g1 * T + ty))
            (productEntry A B N (g0 * T + tx) (g1 * T + ty))) := by
  intro h
  have h1 := h [1, 1, 1, 1] [1, 1, 1, 1] [0, 0, 0, 0] 2 4294967295 0 0 0 0
    (by decide) (by decide) (by decide) (by decide) (by decide) (by decide)
    (by decide) (by decide) (by decide) (by decide) (by decide)
  revert h1
  decide

/-! ## Tile count -/

theorem add_pred_div_eq_ceilDiv (N T : Nat) (hT : 0 < T) :
    (N + T - 1) / T = ceilDiv N T := by
  unfold ceilDiv
  have hdm := Nat.div_add_mod N T
  have hlt := Nat.mod_lt N hT
  split
  · next h0 =>
    have e : N + T - 1 = T - 1 + T * (N / T) := by omega
    rw [e, Nat.add_mul_div_left _ _ hT, Nat.div_eq_of_lt (by omega)]
    omega
  · next h0 =>
    have e : N + T - 1 = (N % T - 1) + T * (N / T + 1) := by
      rw [Nat.mul_add]
      omega
    rw [e, Nat.add_mul_div_left _ _ hT, Nat.div_eq_of_lt (by omega)]
    omega

/-- Where the sum `N + T` does not wrap, the tile count of the sources is
`ceil (N / T)`, covers `N`, and is the least count that does. -/
theorem numTiles_spec_of_le (N T : Nat) (hN : 1 ≤ N) (hT : 1 ≤ T)
    (h : N + T ≤ 4294967296) :
    numTiles N T = ceilDiv N T ∧ N ≤ numTiles N T * T ∧ (numTiles N T - 1) * T < N := by
  have e := numTiles_eq_of_le hT h
  refine ⟨e.trans (add_pred_div_eq_ceilDiv N T hT), e ▸ div_mul_ge hT, ?_⟩
  rw [e]
  have h1 : (N + T - 1) / T * T ≤ N + T - 1 := div_mul_le
  have h2 : 1 ≤ (N + T - 1) / T := (Nat.one_le_div_iff hT).mpr (by omega)
  have h3 : ((N + T - 1) / T - 1) * T = (N + T - 1) / T * T - T := by
    rw [Nat.sub_mul, Nat.one_mul]
  have h4 : T ≤ (N + T - 1) / T * T := Nat.le_mul_of_pos_left T h2
  omega

/-- C2: on `unsigned int` operands the tile count the sources compute is not
`ceil (N / T)`: for `N = 2`, `T = 4294967295` and for `N = 4294967295`, `T = 2`
the sum `N + T - 1` wraps and the count is `0`, so that `tileCount * T ≥ N`
fails as well. -/
theorem numTiles_wraps_to_zero :
    numTiles 2 4294967295 = 0 ∧ ceilDiv 2 4294967295 = 1 ∧
    numTiles 4294967295 2 = 0 ∧ ceilDiv 4294967295 2 = 2147483648 ∧
    ¬ (2 ≤ numTiles 2 4294967295 * 4294967295) := by
  decide

/-! ## Global extent of the dispatch -/

/-- C3 as stated fails: for `N = 10`, `T = 4` the host submits the global
extent 10 per axis, not `tileCount * T = 12`. -/
theorem globalSize_not_rounded_up :
    globalSize 10 = (10, 10) ∧ numTiles 10 4 * 4 = 12 ∧
    (globalSize 10).1 ≠ numTiles 10 4 * 4 ∧ (globalSize 10).2 ≠ numTiles 10 4 * 4 := by
  decide

/-- C3 (amended): the global extent the host submits for the tiled kernel is
exactly `N` in each axis, for every `N` and `T`; it equals `tileCount * T`
precisely when `T` divides `N` (for `T ≥ 1` and `N + T ≤ 2 ^ 32`). -/
theorem globalSize_eq_problem_size (N T : Nat) (hT : 1 ≤ T) (h : N + T ≤ 4294967296) :
    globalSize N = (N, N) ∧
    ((globalSize N).1 = numTiles N T * T ↔ T ∣ N) ∧
    ((globalSize N).2 = numTiles N T * T ↔ T ∣ N) := by
  have e := numTiles_eq_of_le hT h
  have key : N = numTiles N T * T ↔ T ∣ N := by
    constructor
    · intro hN
      exact Dvd.intro_left _ hN.symm
    · rintro ⟨q, rfl⟩
      rw [e, add_pred_div_eq_ceilDiv _ _ hT]
      unfold ceilDiv
      simp [Nat.mul_div_cancel_left q hT, Nat.mul_comm]
  exact ⟨rfl, key, key⟩

/-- Witness of C3 (amended): `N = 10`, `T = 4`. -/
theorem globalSize_eq_problem_size_witness :
    globalSize 10 = (10, 10) ∧
    ((globalSize 10).1 = numTiles 10 4 * 4 ↔ 4 ∣ 10) ∧
    ((globalSize 10).2 = numTiles 10 4 * 4 ↔ 4 ∣ 10) :=
  globalSize_eq_problem_size 10 4 (by decide) (by decide)

/-! ## Staged values and zero padding -/

theorem tile_index_lt {N T t j : Nat} (ht : t < numTiles N T) (hj : j < T) :
    t * T + j < 4294967296 := by
  have h1 : (t + 1) * T ≤ numTiles N T * T := Nat.mul_le_mul_right T ht
  have h2 : (t + 1) * T = t * T + T := Nat.succ_mul t T
  have h3 : numTiles N T * T ≤ u32Pred (u32 (N + T)) := Nat.div_mul_le_self _ _
  have h4 : u32Pred (u32 (N + T)) < 4294967296 := by
    have := u32_lt (N + T)
    unfold u32Pred
    split <;> omega
  omega

/-- C4 (amended): for `N * N ≤ 2 ^ 32`, operands of length `N * N`, a tile
step `t < tileCount` and a unit with local id `(tx, ty)` in `[0, T)^2` whose
global ids `row = g0 * T + tx`, `col = g1 * T + ty` fit 32 bits: the unit
stages `A[row * N + t * T + ty]` into `Asub[tx][ty]` when `row < N` and
`t * T + ty < N` and exactly `0` otherwise, and `B[(t * T + tx) * N + col]`
into `Bsub[tx][ty]` when `t * T + tx < N` and `col < N` and exactly `0`
otherwise. -/
theorem staged_values_zero_padded (A B : List Int) (N T g0 g1 t tx ty : Nat)
    (hA : A.length = N * N) (hB : B.length = N * N) (hNN : N * N ≤ 4294967296)
    (ht : t < numTiles N T) (htx : tx < T) (hty : ty < T)
    (hrow : g0 * T + tx < 4294967296) (hcol : g1 * T + ty < 4294967296) :
    tileAt (stageA A N T g0 t) tx ty
        = some (if g0 * T + tx < N ∧ t * T + ty < N
            then A.getD ((g0 * T + tx) * N + (t * T + ty)) 0 else 0) ∧
    tileAt (stageB B N T g1 t) tx ty
        = some (if t * T + tx < N ∧ g1 * T + ty < N
            then B.getD ((t * T + tx) * N + (g1 * T + ty)) 0 else 0) := by
  have hr : rowOf T g0 tx = g0 * T + tx := u32_eq_self hrow
  have hc : colOf T g1 ty = g1 * T + ty := u32_eq_self hcol
  have hky := tile_index_lt ht hty
  have hkx := tile_index_lt ht htx
  have hb : tileBase T t = t * T := u32_eq_self (by omega)
  constructor
  · rw [tileAt_stageA A N T g0 t htx hty, loadA_eq_some A N _ _ _ hA, hr, hb]
    unfold stagedA
    rw [u32_eq_self hky]
    by_cases hg : g0 * T + tx < N ∧ t * T + ty < N
    · have h := row_mul_add_lt hg.1 hg.2
      have e : idxA N (g0 * T + tx) (t * T) ty = (g0 * T + tx) * N + (t * T + ty) := by
        unfold idxA
        rw [u32_eq_self hky,
          u32_eq_self (by omega : (g0 * T + tx) * N < 4294967296), u32_eq_self (by omega)]
      rw [if_pos hg, if_pos hg, e]
    · rw [if_neg hg, if_neg hg]
  · rw [tileAt_stageB B N T g1 t htx hty, loadB_eq_some B N _ _ _ hB, hc, hb]
    unfold stagedB
    rw [u32_eq_self hkx]
    by_cases hg : t * T + tx < N ∧ g1 * T + ty < N
    · have h := row_mul_add_lt hg.1 hg.2
      have e : idxB N (g1 * T + ty) (t * T) tx = (t * T + tx) * N + (g1 * T + ty) := by
        unfold idxB
        rw [u32_eq_self hkx,
          u32_eq_self (by omega : (t * T + tx) * N < 4294967296), u32_eq_self (by omega)]
      rw [if_pos hg, if_pos hg, e]
    · rw [if_neg hg, if_neg hg]

/-- Witness of C4 (amended): `N = 10`, `T = 4`, last tile step, the unit with
local id `(1, 3)` of group `(2, 2)`: both staged values are padding. -/
theorem staged_values_zero_padded_witness :
    tileAt (stageA (hostA 10) 10 4 2 2) 1 3
        = some (if 2 * 4 + 1 < 10 ∧ 2 * 4 + 3 < 10
            then (hostA 10).getD ((2 * 4 + 1) * 10 + (2 * 4 + 3)) 0 else 0) ∧
    tileAt (stageB (hostB 10) 10 4 2 2) 1 3
        = some (if 2 * 4 + 1 < 10 ∧ 2 * 4 + 3 < 10
            then (hostB 10).getD ((2 * 4 + 1) * 10 + (2 * 4 + 3)) 0 else 0) :=
  staged_values_zero_padded (hostA 10) (hostB 10) 10 4 2 2 2 1 3
    (by decide) (by decide) (by decide) (by decide) (by decide) (by decide)
    (by decide) (by decide)

/-- C4 as stated, for every `N`, fails: for `N = 65537`, `T = 1`, tile step 0
and the unit of row 65536 the index `row * N` wraps to 65536, so the unit
stages `A[65536]` (here 0) and not `A[row * N]` (here 1). -/
theorem staged_value_fails_when_index_wraps :
    ¬ ∀ (A : List Int) (N T g0 t tx ty : Nat),
      1 ≤ N → 1 ≤ T → N < 4294967296 → T < 4294967296 → A.length = N * N →
      t < numTiles N T → tx < T → ty < T →
      tileAt (stageA A N T g0 t) tx ty
        = some (if g0 * T + tx < N ∧ t * T + ty < N
            then A.getD ((g0 * T + tx) * N + (t * T + ty)) 0 else 0) := by
  intro h
  have h1 := h (List.replicate 4295032832 0 ++ List.replicate 65537 1) 65537 1 65536 0 0 0
    (by decide) (by decide) (by decide) (by decide)
    (by rw [List.length_append, List.length_replicate, List.length_replicate])
    (by decide) (by decide) (by decide)
  rw [tileAt_stageA _ _ _ _ _ (by decide) (by decide)] at h1
  have e1 : rowOf 1 65536 0 = 65536 := by decide
  have e2 : tileBase 1 0 = 0 := by decide
  have e3 : idxA 65537 65536 0 0 = 65536 := by decide
  have e4 : u32 (0 + 0) = 0 := by decide
  have c1 : (65536 : Nat) < 65537 ∧ (0 : Nat) < 65537 := by decide
  have c2 : 65536 * 1 + 0 < 65537 ∧ 0 * 1 + 0 < 65537 := by decide
  have e5 : (65536 * 1 + 0) * 65537 + (0 * 1 + 0) = 4295032832 := by decide
  rw [loadA, e1, e2, e4, if_pos c1, e3, if_pos c2, e5,
    List.getElem?_append_left (by rw [List.length_replicate]; decide),
    List.getElem?_replicate_of_lt (by decide), List.getD_eq_getElem?_getD,
    List.getElem?_append_right (by rw [List.length_replicate]),
    List.length_replicate, Nat.sub_self,
    List.getElem?_replicate_of_lt (by decide)] at h1
  exact absurd h1 (by decide)

/-! ## No access out of range -/

theorem stageA_shape (A : List Int) (N T g0 t : Nat) :
    (stageA A N T g0 t).length = T ∧ ∀ r ∈ stageA A N T g0 t, r.length = T := by
  constructor
  · simp [stageA]
  · intro r hr
    simp only [stageA, List.mem_map] at hr
    obtain ⟨_, _, rfl⟩ := hr
    simp

theorem stageB_shape (B : List Int) (N T g1 t : Nat) :
    (stageB B N T g1 t).length = T ∧ ∀ r ∈ stageB B N T g1 t, r.length = T := by
  constructor
  · simp [stageB]
  · intro r hr
    simp only [stageB, List.mem_map] at hr
    obtain ⟨_, _, rfl⟩ := hr
    simp

theorem runUnit_isSome (A B C : List Int) (N T g0 g1 tx ty : Nat)
    (hA : A.length = N * N) (hB : B.length = N * N) (hC : C.length = N * N)
    (htx : tx < T) (hty : ty < T) :
    ∃ C', runUnit A B C N T g0 g1 tx ty = some C' ∧ C'.length = N * N := by
  unfold runUnit
  rw [unitSum_eq A B N T g0 g1 tx ty hA hB htx hty]
  by_cases hg : rowOf T g0 tx < N ∧ colOf T g1 ty < N
  · simp only [if_pos hg]
    rw [storeC_eq_some _ (hC ▸ idxC_lt hg.1 hg.2)]
    exact ⟨_, rfl, by rw [List.length_set, hC]⟩
  · simp only [if_neg hg]
    exact ⟨C, rfl, hC⟩

/-- C5: for buffers of length `N * N`, every group `(g0, g1)` and every local
id `(tx, ty)` in `[0, T)^2`, whatever `N` and `T`: the unit runs to its end
without an out-of-range access (the result of the `Option` model is `some`);
at every tile step the indices at which it reads `A` and `B` under the guards
are below `N * N`, as is the index at which it writes `C`; the staging buffers
are `T × T` and the cells `[tx][ty]`, `[tx][k_local]` and `[k_local][ty]`
with `k_local < T` that the unit touches lie inside them. -/
theorem tiled_unit_accesses_in_range (A B C : List Int) (N T g0 g1 tx ty : Nat)
    (hA : A.length = N * N) (hB : B.length = N * N) (hC : C.length = N * N)
    (htx : tx < T) (hty : ty < T) :
    (∃ C', runUnit A B C N T g0 g1 tx ty = some C' ∧ C'.length = N * N) ∧
    (∀ t, rowOf T g0 tx < N ∧ u32 (tileBase T t + ty) < N →
      idxA N (rowOf T g0 tx) (tileBase T t) ty < A.length) ∧
    (∀ t, u32 (tileBase T t + tx) < N ∧ colOf T g1 ty < N →
      idxB N (colOf T g1 ty) (tileBase T t) tx < B.length) ∧
    (rowOf T g0 tx < N ∧ colOf T g1 ty < N →
      idxC N (rowOf T g0 tx) (colOf T g1 ty) < C.length) ∧
    (∀ t, (stageA A N T g0 t).length = T ∧ (∀ r ∈ stageA A N T g0 t, r.length = T) ∧
      (stageB B N T g1 t).length = T ∧ (∀ r ∈ stageB B N T g1 t, r.length = T)) ∧
    (∀ t kl, kl < T →
      (∃ a, tileAt (stageA A N T g0 t) tx kl = some a) ∧
      (∃ b, tileAt (stageB B N T g1 t) kl ty = some b)) := by
  refine ⟨runUnit_isSome A B C N T g0 g1 tx ty hA hB hC htx hty, ?_, ?_, ?_, ?_, ?_⟩
  · intro t h
    exact hA ▸ idxA_lt h.1 h.2
  · intro t h
    exact hB ▸ idxB_lt h.1 h.2
  · intro h
    exact hC ▸ idxC_lt h.1 h.2
  · intro t
    exact ⟨(stageA_shape A N T g0 t).1, (stageA_shape A N T g0 t).2,
      (stageB_shape B N T g1 t).1, (stageB_shape B N T g1 t).2⟩
  · intro t kl hkl
    exact ⟨⟨_, (tileAt_stageA A N T g0 t htx hkl).trans (loadA_eq_some A N _ _ _ hA)⟩,
      ⟨_, (tileAt_stageB B N T g1 t hkl hty).trans (loadB_eq_some B N _ _ _ hB)⟩⟩

/-- Witness of C5: `N = 10`, `T = 4`, the unit `(1, 3)` of the last group
`(2, 2)`, whose row is in bounds and whose column is not. -/
theorem tiled_unit_accesses_in_range_witness :
    (∃ C', runUnit (hostA 10) (hostB 10) (List.replicate 100 0) 10 4 2 2 1 3 = some C' ∧
      C'.length = 10 * 10) ∧
    (∀ t, rowOf 4 2 1 < 10 ∧ u32 (tileBase 4 t + 3) < 10 →
      idxA 10 (rowOf 4 2 1) (tileBase 4 t) 3 < (hostA 10).length) ∧
    (∀ t, u32 (tileBase 4 t + 1) < 10 ∧ colOf 4 2 3 < 10 →
      idxB 10 (colOf 4 2 3) (tileBase 4 t) 1 < (hostB 10).length) ∧
    (rowOf 4 2 1 < 10 ∧ colOf 4 2 3 < 10 →
      idxC 10 (rowOf 4 2 1) (colOf 4 2 3) < (List.replicate 100 (0 : Int)).length) ∧
    (∀ t, (stageA (hostA 10) 10 4 2 t).length = 4 ∧
      (∀ r ∈ stageA (hostA 10) 10 4 2 t, r.length = 4) ∧
      (stageB (hostB 10) 10 4 2 t).length = 4 ∧
      (∀ r ∈ stageB (hostB 10) 10 4 2 t, r.length = 4)) ∧
    (∀ t kl, kl < 4 →
      (∃ a, tileAt (stageA (hostA 10) 10 4 2 t) 1 kl = some a) ∧
      (∃ b, tileAt (stageB (hostB 10) 10 4 2 t) kl 3 = some b)) :=
  tiled_unit_accesses_in_range (hostA 10) (hostB 10) (List.replicate 100 0) 10 4 2 2 1 3
    (by decide) (by decide) (by decide) (by decide) (by decide)

/-! ## Writes of the tiled kernel -/

/-- C6 (amended): for `N * N ≤ 2 ^ 32`, buffers of length `N * N` and a unit
whose global ids `row = g0 * T + tx`, `col = g1 * T + ty` fit 32 bits: when
`row ≥ N` or `col ≥ N` the unit leaves `C` as it was; when `row < N` and
`col < N` the result is `C` with the single element `C[row * N + col]`
replaced, every other element being unchanged. -/
theorem tiled_unit_write_frame (A B C : List Int) (N T g0 g1 tx ty : Nat)
    (hA : A.length = N * N) (hB : B.length = N * N) (hC : C.length = N * N)
    (hNN : N * N ≤ 4294967296) (htx : tx < T) (hty : ty < T)
    (hrow : g0 * T + tx < 4294967296) (hcol : g1 * T + ty < 4294967296) :
    (N ≤ g0 * T + tx ∨ N ≤ g1 * T + ty → runUnit A B C N T g0 g1 tx ty = some C) ∧
    (g0 * T + tx < N → g1 * T + ty < N →
      ∃ v, runUnit A B C N T g0 g1 tx ty
          = some (C.set ((g0 * T + tx) * N + (g1 * T + ty)) v) ∧
        ∀ i, i ≠ (g0 * T + tx) * N + (g1 * T + ty) →
          (C.set ((g0 * T + tx) * N + (g1 * T + ty)) v)[i]? = C[i]?) := by
  have hr : rowOf T g0 tx = g0 * T + tx := u32_eq_self hrow
  have hc : colOf T g1 ty = g1 * T + ty := u32_eq_self hcol
  constructor
  · intro h
    unfold runUnit
    rw [unitSum_eq A B N T g0 g1 tx ty hA hB htx hty, hr, hc]
    have hg : ¬ (g0 * T + tx < N ∧ g1 * T + ty < N) := by omega
    simp only [if_neg hg]
  · intro h1 h2
    have hi := row_mul_add_lt h1 h2
    unfold runUnit
    rw [unitSum_eq A B N T g0 g1 tx ty hA hB htx hty, hr, hc]
    simp only [if_pos (And.intro h1 h2), idxC_eq hNN h1 h2]
    rw [storeC_eq_some _ (hC ▸ hi)]
    exact ⟨_, rfl, fun i hi => List.getElem?_set_ne (Ne.symm hi)⟩

/-- Witness of C6 (amended): `N = 10`, `T = 4`, the unit `(1, 3)` of the last
group `(2, 2)`, at row 9 and column 11. -/
theorem tiled_unit_write_frame_witness :
    (10 ≤ 2 * 4 + 1 ∨ 10 ≤ 2 * 4 + 3 →
      runUnit (hostA 10) (hostB 10) (List.replicate 100 7) 10 4 2 2 1 3
        = some (List.replicate 100 7)) ∧
    (2 * 4 + 1 < 10 → 2 * 4 + 3 < 10 →
      ∃ v, runUnit (hostA 10) (hostB 10) (List.replicate 100 7) 10 4 2 2 1 3
          = some ((List.replicate 100 7).set ((2 * 4 + 1) * 10 + (2 * 4 + 3)) v) ∧
        ∀ i, i ≠ (2 * 4 + 1) * 10 + (2 * 4 + 3) →
          ((List.replicate 100 7).set ((2 * 4 + 1) * 10 + (2 * 4 + 3)) v)[i]?
            = (List.replicate 100 (7 : Int))[i]?) :=
  tiled_unit_write_frame (hostA 10) (hostB 10) (List.replicate 100 7) 10 4 2 2 1 3
    (by decide) (by decide) (by decide) (by decide) (by decide) (by decide)
    (by decide) (by decide)

/-- C6 as stated, for every `N`, fails: for `N = 65537` the unit of row 65536
and column 0 (here with `T = 4294967295`, group 0) stores at the wrapped index
65536, an element other than `C[row * N + col]`. -/
theorem tiled_unit_write_elsewhere_when_index_wraps :
    ¬ ∀ (A B C : List Int) (N T g0 g1 tx ty : Nat),
      1 ≤ N → 1 ≤ T → N < 4294967296 → T < 4294967296 →
      A.length = N * N → B.length = N * N → C.length = N * N → tx < T → ty < T →
      g0 * T + tx < N → g1 * T + ty < N →
      ∃ v, runUnit A B C N T g0 g1 tx ty
        = some (C.set ((g0 * T + tx) * N + (g1 * T + ty)) v) := by
  intro h
  obtain ⟨v, hv⟩ := h (List.replicate 4295098369 0) (List.replicate 4295098369 0)
    (List.replicate 4295098369 5) 65537 4294967295 0 0 65536 0
    (by decide) (by decide) (by decide) (by decide)
    (by rw [List.length_replicate]) (by rw [List.length_replicate])
    (by rw [List.length_replicate]) (by decide) (by decide) (by decide) (by decide)
  have hs : unitSum (List.replicate 4295098369 0) (List.replicate 4295098369 0)
      65537 4294967295 0 0 65536 0 = some 0 := by
    have hz : intLoopCount (numTiles 65537 4294967295) = 0 := by decide
    unfold unitSum
    rw [hz]
    rfl
  have e1 : rowOf 4294967295 0 65536 = 65536 := by decide
  have e2 : colOf 4294967295 0 0 = 0 := by decide
  have e3 : idxC 65537 65536 0 = 65536 := by decide
  have c1 : (65536 : Nat) < 65537 ∧ (0 : Nat) < 65537 := by decide
  have e4 : (0 * 4294967295 + 65536) * 65537 + (0 * 4294967295 + 0) = 4295032832 := by
    decide
  unfold runUnit at hv
  rw [hs, e1, e2] at hv
  simp only [if_pos c1, e3, e4] at hv
  rw [storeC_eq_some _ (by rw [List.length_replicate]; decide)] at hv
  have h2 := congrArg (fun l : List Int => l[65536]?) (Option.some.inj hv)
  simp only at h2
  rw [List.getElem?_set_self (by rw [List.length_replicate]; decide),
    List.getElem?_set_ne (by decide),
    List.getElem?_replicate_of_lt (by decide)] at h2
  exact absurd h2 (by decide)

/-! ## Tiled kernel and untiled kernel -/

theorem simpleSum_eq (A B : List Int) (N row col : Nat)
    (hA : A.length = N * N) (hB : B.length = N * N) (hr : row < N) (hc : col < N) :
    simpleSum A B N row col
      = some (((List.range N).map (simpleTerm A B N row col)).sum) := by
  unfold simpleSum
  rw [foldlM_add_terms _ (simpleTerm A B N row col)]
  · simp
  · intro k hk r
    have hk' : k < N := List.mem_range.mp hk
    have ha : u32 (u32 (row * N) + k) < A.length := by
      have h1 := u32_le (u32 (row * N) + k)
      have h2 := u32_le (row * N)
      have h3 := row_mul_add_lt hr hk'
      omega
    have hb : u32 (u32 (k * N) + col) < B.length := by
      have h1 := u32_le (u32 (k * N) + col)
      have h2 := u32_le (k * N)
      have h3 := row_mul_add_lt hk' hc
      omega
    unfold simpleStep simpleTerm
    rw [getElem?_eq_some_getD ha, getElem?_eq_some_getD hb]

/-- C7 (amended): when the tile arithmetic fits (`N + T ≤ 2 ^ 31`), for
buffers of length `N * N` and every unit with `row = g0 * T + tx < N` and
`col = g1 * T + ty < N`, `T` dividing `N` or not: the tiled kernel, the SIMPLE
kernel and the `SimpleMatMul` kernel store the same value at the same element
of `C`, which is `C[row * N + col]` when `N * N ≤ 2 ^ 32`. -/
theorem tiled_eq_untiled (A B C : List Int) (N T g0 g1 tx ty : Nat)
    (hA : A.length = N * N) (hB : B.length = N * N) (hC : C.length = N * N)
    (hT : 0 < T) (hNT : N + T ≤ 2147483648)
    (htx : tx < T) (hty : ty < T) (hrow : g0 * T + tx < N) (hcol : g1 * T + ty < N) :
    ∃ v, runUnit A B C N T g0 g1 tx ty
          = some (C.set (idxC N (g0 * T + tx) (g1 * T + ty)) v) ∧
      runSimple A B C N (g0 * T + tx) (g1 * T + ty)
          = some (C.set (idxC N (g0 * T + tx) (g1 * T + ty)) v) ∧
      runSimpleSycl A B C N (g0 * T + tx) (g1 * T + ty)
          = some (C.set (idxC N (g0 * T + tx) (g1 * T + ty)) v) ∧
      (N * N ≤ 4294967296 →
        idxC N (g0 * T + tx) (g1 * T + ty) = (g0 * T + tx) * N + (g1 * T + ty)) := by
  have hr : rowOf T g0 tx = g0 * T + tx := u32_eq_self (by omega)
  have hc : colOf T g1 ty = g1 * T + ty := u32_eq_self (by omega)
  have hi : idxC N (g0 * T + tx) (g1 * T + ty) < C.length := hC ▸ idxC_lt hrow hcol
  refine ⟨((List.range N).map (simpleTerm A B N (g0 * T + tx) (g1 * T + ty))).sum,
    ?_, ?_, ?_, fun hNN => idxC_eq hNN hrow hcol⟩
  · unfold runUnit
    rw [unitSum_eq_simple A B N T g0 g1 tx ty hA hB hT hNT htx hty (hr ▸ hrow) (hc ▸ hcol),
      hr, hc]
    simp only [if_pos (And.intro hrow hcol)]
    exact storeC_eq_some _ hi
  · unfold runSimple
    rw [simpleSum_eq A B N _ _ hA hB hrow hcol]
    simp only [if_pos (And.intro hrow hcol)]
    exact storeC_eq_some _ hi
  · unfold runSimpleSycl
    rw [simpleSum_eq A B N _ _ hA hB hrow hcol]
    exact storeC_eq_some _ hi

/-- Witness of C7 (amended): `N = 10`, `T = 4`, the unit at row 9, column 7. -/
theorem tiled_eq_untiled_witness :
    ∃ v, runUnit (hostA 10) (hostB 10) (List.replicate 100 0) 10 4 2 1 1 3
          = some ((List.replicate 100 0).set (idxC 10 (2 * 4 + 1) (1 * 4 + 3)) v) ∧
      runSimple (hostA 10) (hostB 10) (List.replicate 100 0) 10 (2 * 4 + 1) (1 * 4 + 3)
          = some ((List.replicate 100 0).set (idxC 10 (2 * 4 + 1) (1 * 4 + 3)) v) ∧
      runSimpleSycl (hostA 10) (hostB 10) (List.replicate 100 0) 10 (2 * 4 + 1) (1 * 4 + 3)
          = some ((List.replicate 100 0).set (idxC 10 (2 * 4 + 1) (1 * 4 + 3)) v) ∧
      (10 * 10 ≤ 4294967296 →
        idxC 10 (2 * 4 + 1) (1 * 4 + 3) = (2 * 4 + 1) * 10 + (1 * 4 + 3)) :=
  tiled_eq_untiled (hostA 10) (hostB 10) (List.replicate 100 0) 10 4 2 1 1 3
    (by decide) (by decide) (by decide) (by decide) (by decide) (by decide)
    (by decide) (by decide) (by decide)

/-- C7 as stated, for every `N ≥ 1` and `T ≥ 1`, fails: for `N = 2` and
`T = 4294967295` the tile count of the tiled kernel wraps to zero and its
unit at `(0, 0)` stores `0`, while the SIMPLE kernel stores `2`. -/
theorem tiled_ne_untiled_when_count_wraps :
    ¬ ∀ (A B C : List Int) (N T g0 g1 tx ty : Nat),
      1 ≤ N → 1 ≤ T → N < 4294967296 → T < 4294967296 →
      A.length = N * N → B.length = N * N → C.length = N * N →
      tx < T → ty < T → g0 * T + tx < N → g1 * T + ty < N →
      runUnit A B C N T g0 g1 tx ty = runSimple A B C N (g0 * T + tx) (g1 * T + ty) := by
  intro h
  have h1 := h [1, 1, 1, 1] [1, 1, 1, 1] [0, 0, 0, 0] 2 4294967295 0 0 0 0
    (by decide) (by decide) (by decide) (by decide) (by decide) (by decide)
    (by decide) (by decide) (by decide) (by decide) (by decide)
  revert h1
  decide

/-! ## Scenario `N = 4`, `T = 2` -/

/-- C8: with `N = 4`, `T = 2`, `A[i * N + j] = i + j` and
`B[i * N + j] = i * j + 1`, running every unit of the dispatch of the tiled
kernel on a zeroed result buffer gives `C[0][0] = 0*1 + 1*1 + 2*1 + 3*1 = 6`
and the whole `4 × 4` result is the naive triple-loop product. -/
theorem scenario_four_by_four :
    runKernel (hostA 4) (hostB 4) (List.replicate 16 0) 4 2
        = some (naiveProduct (hostA 4) (hostB 4) 4) ∧
    (naiveProduct (hostA 4) (hostB 4) 4)[0]? = some 6 ∧
    (0 * 1 + 1 * 1 + 2 * 1 + 3 * 1 : Int) = 6 ∧
    naiveProduct (hostA 4) (hostB 4) 4
      = [6, 20, 34, 48, 10, 30, 50, 70, 14, 40, 66, 92, 18, 50, 82, 114] := by
  decide

/-! ## Device selection: first match -/

theorem firstWithUnits_eq_find (ds : List Device) :
    firstWithUnits ds = ds.find? (fun d => decide (0 < d.computeUnits)) := by
  induction ds with
  | nil => rfl
  | cons d ds ih =>
    by_cases h : 0 < d.computeUnits
    · simp [firstWithUnits, h]
    · simp [firstWithUnits, h, ih]

theorem findDeviceLoop_devices (pls : List (List Device)) :
    findDeviceLoop (pls.map DeviceQuery.devices)
      = selectionOf (pls.flatten.find? (fun d => decide (0 < d.computeUnits))) := by
  induction pls with
  | nil => rfl
  | cons ds ps ih =>
    simp only [List.map_cons, findDeviceLoop, List.flatten_cons, List.find?_append,
      firstWithUnits_eq_find]
    cases h : ds.find? (fun d => decide (0 < d.computeUnits)) with
    | none => simpa using ih
    | some d => simp [selectionOf]

theorem foldl_selectStep_done (qs : List DeviceQuery) (st : SelectState)
    (h : st.found = true ∨ st.thrown.isSome = true) : qs.foldl selectStep st = st := by
  induction qs with
  | nil => rfl
  | cons q qs ih =>
    have e : selectStep st q = st := by
      unfold selectStep
      rw [if_pos h]
    rw [List.foldl_cons, e, ih]

theorem scanDevices_eq (st : SelectState) (ds : List Device) :
    scanDevices st ds
      = match firstWithUnits ds with
        | some d => { st with selected := some d, found := true }
        | none => st := by
  induction ds with
  | nil => rfl
  | cons d ds ih =>
    by_cases h : d.computeUnits > 0
    · simp [scanDevices, firstWithUnits, h]
    · simp [scanDevices, firstWithUnits, h, ih]

theorem foldl_selectStep_eq (qs : List DeviceQuery) :
    selectionOfState
        (qs.foldl selectStep { selected := none, found := false, thrown := none })
      = findDeviceLoop qs := by
  induction qs with
  | nil => rfl
  | cons q qs ih =>
    rw [List.foldl_cons]
    cases q with
    | error code =>
      by_cases hc : code = CL_DEVICE_NOT_FOUND
      · have e : selectStep { selected := none, found := false, thrown := none }
            (DeviceQuery.error code) = { selected := none, found := false, thrown := none } := by
          simp [selectStep, hc]
        rw [e, ih]
        simp [findDeviceLoop, hc]
      · have e : selectStep { selected := none, found := false, thrown := none }
            (DeviceQuery.error code)
            = { selected := none, found := false, thrown := some code } := by
          simp [selectStep, hc]
        rw [e, foldl_selectStep_done qs { selected := none, found := false, thrown := some code }
          (Or.inr rfl)]
        simp [findDeviceLoop, hc, selectionOfState]
    | devices ds =>
      have e : selectStep { selected := none, found := false, thrown := none }
          (DeviceQuery.devices ds)
          = scanDevices { selected := none, found := false, thrown := none } ds := by
        simp [selectStep]
      rw [e, scanDevices_eq]
      cases h : firstWithUnits ds with
      | none =>
        simp only [findDeviceLoop, h]
        exact ih
      | some d =>
        simp only [findDeviceLoop, h]
        rw [foldl_selectStep_done qs { selected := some d, found := true, thrown := none }
          (Or.inl rfl)]
        rfl

/-- The loop with the `found` flag of the `main` functions selects as
`findDevice` does, errors included. -/
theorem selectInline_eq_findDevice (qs : List DeviceQuery) :
    selectInline qs = findDevice qs := by
  unfold selectInline findDevice
  split
  · rfl
  · exact foldl_selectStep_eq qs

theorem firstGpuWithUnits_eq (ds : List Device) (h : ∀ x ∈ ds, x.isGpu = true) :
    firstGpuWithUnits ds = firstWithUnits ds := by
  induction ds with
  | nil => rfl
  | cons d ds ih =>
    have hd : d.isGpu = true := h d (List.mem_cons_self d ds)
    have ht : ∀ x ∈ ds, x.isGpu = true := fun x hx => h x (List.mem_cons_of_mem d hx)
    simp [firstGpuWithUnits, firstWithUnits, hd, ih ht]

theorem selectSycl_eq (pls : List (List Device)) (h : ∀ ds ∈ pls, ∀ x ∈ ds, x.isGpu = true) :
    selectSycl pls = findDeviceLoop (pls.map DeviceQuery.devices) := by
  induction pls with
  | nil => rfl
  | cons ds ps ih =>
    have hd := h ds (List.mem_cons_self ds ps)
    have ht : ∀ l ∈ ps, ∀ x ∈ l, x.isGpu = true :=
      fun l hl => h l (List.mem_cons_of_mem ds hl)
    simp only [selectSycl, List.map_cons, findDeviceLoop, firstGpuWithUnits_eq ds hd, ih ht]

theorem find_units_eq_some_iff (l : List Device) (d : Device) :
    l.find? (fun d => decide (0 < d.computeUnits)) = some d ↔
      ∃ pre post, l = pre ++ d :: post ∧ (∀ x ∈ pre, x.computeUnits = 0) ∧
        0 < d.computeUnits := by
  rw [List.find?_eq_some]
  constructor
  · rintro ⟨hd, pre, post, hl, hpre⟩
    refine ⟨pre, post, hl, fun x hx => ?_, by simpa using hd⟩
    have := hpre x hx
    simpa using this
  · rintro ⟨pre, post, hl, hpre, hd⟩
    refine ⟨by simpa using hd, pre, post, hl, fun x hx => ?_⟩
    simp [hpre x hx]

/-- C10: for platforms that each answer the query with a list of devices of
the requested type, `findDevice` returns `d` exactly when `d` reports more
than 0 compute units and every device before it in enumeration order (all
devices of earlier platforms, then the earlier devices of its own platform)
reports 0; it returns a device whenever some device reports more than 0
units; the loops with a `found` flag and the SYCL loop select the same
device. -/
theorem findDevice_returns_first_match (pls : List (List Device)) (d : Device)
    (hgpu : ∀ ds ∈ pls, ∀ x ∈ ds, x.isGpu = true) :
    (findDevice (pls.map DeviceQuery.devices) = Selection.found d ↔
      ∃ pre post, pls.flatten = pre ++ d :: post ∧
        (∀ x ∈ pre, x.computeUnits = 0) ∧ 0 < d.computeUnits) ∧
    ((∃ x ∈ pls.flatten, 0 < x.computeUnits) →
      ∃ d', findDevice (pls.map DeviceQuery.devices) = Selection.found d') ∧
    selectInline (pls.map DeviceQuery.devices) = findDevice (pls.map DeviceQuery.devices) ∧
    (selectSycl pls = Selection.found d ↔
      findDevice (pls.map DeviceQuery.devices) = Selection.found d) := by
  have hloop := findDeviceLoop_devices pls
  have hfd : ∀ d', findDevice (pls.map DeviceQuery.devices) = Selection.found d' ↔
      pls.flatten.find? (fun d => decide (0 < d.computeUnits)) = some d' := by
    intro d'
    unfold findDevice
    cases pls with
    | nil => simp
    | cons ds ps =>
      rw [if_neg (by simp), hloop]
      cases pls_find : (ds :: ps).flatten.find? (fun d => decide (0 < d.computeUnits)) with
      | none => simp [selectionOf]
      | some x => simp [selectionOf]
  refine ⟨(hfd d).trans (find_units_eq_some_iff _ d), ?_, selectInline_eq_findDevice _, ?_⟩
  · rintro ⟨x, hx, hpos⟩
    have hsome : (pls.flatten.find? (fun d => decide (0 < d.computeUnits))).isSome = true :=
      List.find?_isSome.mpr ⟨x, hx, by simpa using hpos⟩
    obtain ⟨d', hd'⟩ := Option.isSome_iff_exists.mp hsome
    exact ⟨d', (hfd d').mpr hd'⟩
  · rw [selectSycl_eq pls hgpu, hfd d, hloop]
    cases pls.flatten.find? (fun d => decide (0 < d.computeUnits)) with
    | none => simp [selectionOf]
    | some x => simp [selectionOf]

/-- Witness of C10: three platforms; the first device with compute units is
the second device of the third platform. -/
theorem findDevice_returns_first_match_witness :
    (findDevice ([[⟨0, 0, true⟩], [], [⟨1, 0, true⟩, ⟨2, 4, true⟩, ⟨3, 8, true⟩]].map
        DeviceQuery.devices) = Selection.found ⟨2, 4, true⟩ ↔
      ∃ pre post,
        ([[⟨0, 0, true⟩], [], [⟨1, 0, true⟩, ⟨2, 4, true⟩, ⟨3, 8, true⟩]] :
          List (List Device)).flatten = pre ++ (⟨2, 4, true⟩ : Device) :: post ∧
        (∀ x ∈ pre, x.computeUnits = 0) ∧ 0 < (⟨2, 4, true⟩ : Device).computeUnits) ∧
    ((∃ x ∈ ([[⟨0, 0, true⟩], [], [⟨1, 0, true⟩, ⟨2, 4, true⟩, ⟨3, 8, true⟩]] :
          List (List Device)).flatten, 0 < x.computeUnits) →
      ∃ d', findDevice ([[⟨0, 0, true⟩], [], [⟨1, 0, true⟩, ⟨2, 4, true⟩, ⟨3, 8, true⟩]].map
        DeviceQuery.devices) = Selection.found d') ∧
    selectInline ([[⟨0, 0, true⟩], [], [⟨1, 0, true⟩, ⟨2, 4, true⟩, ⟨3, 8, true⟩]].map
        DeviceQuery.devices)
      = findDevice ([[⟨0, 0, true⟩], [], [⟨1, 0, true⟩, ⟨2, 4, true⟩, ⟨3, 8, true⟩]].map
        DeviceQuery.devices) ∧
    (selectSycl [[⟨0, 0, true⟩], [], [⟨1, 0, true⟩, ⟨2, 4, true⟩, ⟨3, 8, true⟩]]
        = Selection.found ⟨2, 4, true⟩ ↔
      findDevice ([[⟨0, 0, true⟩], [], [⟨1, 0, true⟩, ⟨2, 4, true⟩, ⟨3, 8, true⟩]].map
        DeviceQuery.devices) = Selection.found ⟨2, 4, true⟩) :=
  findDevice_returns_first_match
    [[⟨0, 0, true⟩], [], [⟨1, 0, true⟩, ⟨2, 4, true⟩, ⟨3, 8, true⟩]] ⟨2, 4, true⟩
    (by decide)

/-! ## Device selection: platforms without devices -/

theorem findDeviceLoop_skip (pre post : List DeviceQuery) :
    findDeviceLoop (pre ++ DeviceQuery.error CL_DEVICE_NOT_FOUND :: post)
      = findDeviceLoop (pre ++ post) := by
  induction pre with
  | nil => simp [findDeviceLoop]
  | cons q pre ih =>
    have ih' : findDeviceLoop (pre.append (DeviceQuery.error CL_DEVICE_NOT_FOUND :: post))
        = findDeviceLoop (pre.append post) := ih
    cases q with
    | error code =>
      simp only [List.cons_append, findDeviceLoop, ih']
    | devices ds =>
      simp only [List.cons_append, findDeviceLoop, ih']

theorem selectSimplebuffC_skip (pre post : List DeviceQuery) (code : Int) :
    selectSimplebuffC (pre ++ DeviceQuery.error code :: post)
      = selectSimplebuffC (pre ++ post) := by
  induction pre with
  | nil => simp [selectSimplebuffC]
  | cons q pre ih =>
    have ih' : selectSimplebuffC (pre.append (DeviceQuery.error code :: post))
        = selectSimplebuffC (pre.append post) := ih
    cases q with
    | error c => simp only [List.cons_append, selectSimplebuffC, ih']
    | devices ds => simp only [List.cons_append, selectSimplebuffC, ih']

/-- C11 (amended): a platform whose device query fails with
`CL_DEVICE_NOT_FOUND` does not end the selection, and when another platform
remains in the list `findDevice` and the loops with a `found` flag return
what they return on the list without that platform (the same device, the same
failure); the platform loop itself and the loop of simplebuff.c do so for
every list. -/
theorem findDevice_skips_not_found (pre post : List DeviceQuery)
    (hrest : pre ++ post ≠ []) :
    findDevice (pre ++ DeviceQuery.error CL_DEVICE_NOT_FOUND :: post)
        = findDevice (pre ++ post) ∧
    selectInline (pre ++ DeviceQuery.error CL_DEVICE_NOT_FOUND :: post)
        = selectInline (pre ++ post) ∧
    findDeviceLoop (pre ++ DeviceQuery.error CL_DEVICE_NOT_FOUND :: post)
        = findDeviceLoop (pre ++ post) ∧
    selectSimplebuffC (pre ++ DeviceQuery.error CL_DEVICE_NOT_FOUND :: post)
        = selectSimplebuffC (pre ++ post) := by
  have h1 : findDevice (pre ++ DeviceQuery.error CL_DEVICE_NOT_FOUND :: post)
      = findDevice (pre ++ post) := by
    unfold findDevice
    rw [if_neg (by simp), if_neg (by simpa using hrest), findDeviceLoop_skip]
  refine ⟨h1, ?_, findDeviceLoop_skip pre post, selectSimplebuffC_skip pre post _⟩
  rw [selectInline_eq_findDevice, selectInline_eq_findDevice, h1]

/-- Witness of C11 (amended): a platform without GPU between two platforms
with devices. -/
theorem findDevice_skips_not_found_witness :
    findDevice ([DeviceQuery.devices [⟨0, 0, true⟩]]
          ++ DeviceQuery.error CL_DEVICE_NOT_FOUND :: [DeviceQuery.devices [⟨1, 2, true⟩]])
        = findDevice ([DeviceQuery.devices [⟨0, 0, true⟩]]
            ++ [DeviceQuery.devices [⟨1, 2, true⟩]]) ∧
    selectInline ([DeviceQuery.devices [⟨0, 0, true⟩]]
          ++ DeviceQuery.error CL_DEVICE_NOT_FOUND :: [DeviceQuery.devices [⟨1, 2, true⟩]])
        = selectInline ([DeviceQuery.devices [⟨0, 0, true⟩]]
            ++ [DeviceQuery.devices [⟨1, 2, true⟩]]) ∧
    findDeviceLoop ([DeviceQuery.devices [⟨0, 0, true⟩]]
          ++ DeviceQuery.error CL_DEVICE_NOT_FOUND :: [DeviceQuery.devices [⟨1, 2, true⟩]])
        = findDeviceLoop ([DeviceQuery.devices [⟨0, 0, true⟩]]
            ++ [DeviceQuery.devices [⟨1, 2, true⟩]]) ∧
    selectSimplebuffC ([DeviceQuery.devices [⟨0, 0, true⟩]]
          ++ DeviceQuery.error CL_DEVICE_NOT_FOUND :: [DeviceQuery.devices [⟨1, 2, true⟩]])
        = selectSimplebuffC ([DeviceQuery.devices [⟨0, 0, true⟩]]
            ++ [DeviceQuery.devices [⟨1, 2, true⟩]]) :=
  findDevice_skips_not_found [DeviceQuery.devices [⟨0, 0, true⟩]]
    [DeviceQuery.devices [⟨1, 2, true⟩]] (by decide)

/-- C11 as stated, for every platform list, fails when the platform without
devices is the only one: with it `findDevice` throws "No suitable ... device
found.", without it the list is empty and `findDevice` throws "No OpenCL
platforms found.". -/
theorem findDevice_only_platform_not_found :
    findDevice ([] ++ DeviceQuery.error CL_DEVICE_NOT_FOUND :: []) = Selection.noSuitable ∧
    findDevice ([] ++ []) = Selection.noPlatforms ∧
    findDevice ([] ++ DeviceQuery.error CL_DEVICE_NOT_FOUND :: []) ≠ findDevice ([] ++ []) := by
  decide

/-! ## Device selection: no suitable device, and other errors -/

theorem firstWithUnits_eq_none {ds : List Device} (h : ∀ x ∈ ds, x.computeUnits = 0) :
    firstWithUnits ds = none := by
  rw [firstWithUnits_eq_find, List.find?_eq_none]
  intro x hx
  simp [h x hx]

theorem findDeviceLoop_of_yieldsNothing (pre rest : List DeviceQuery)
    (h : ∀ q ∈ pre, yieldsNothing q) :
    findDeviceLoop (pre ++ rest) = findDeviceLoop rest := by
  induction pre with
  | nil => rfl
  | cons q pre ih =>
    have ih' : findDeviceLoop (pre.append rest) = findDeviceLoop rest :=
      ih (fun x hx => h x (List.mem_cons_of_mem q hx))
    rcases h q (List.mem_cons_self q pre) with hq | ⟨ds, hq, hz⟩
    · subst hq
      simp only [List.cons_append, findDeviceLoop, if_true, ih']
    · subst hq
      simp only [List.cons_append, findDeviceLoop, firstWithUnits_eq_none hz, ih']

/-! ## Command line -/

theorem parseLoop_append {α : Type} (step : α → List Char → Parsed α) (pre rest : List (List Char)) :
    ∀ cfg, parseLoop step cfg (pre ++ rest)
      = match parseLoop step cfg pre with
        | Parsed.ok c => parseLoop step c rest
        | Parsed.exit m => Parsed.exit m := by
  induction pre with
  | nil => intro cfg; rfl
  | cons a pre ih =>
    intro cfg
    show parseLoop step cfg (a :: (pre ++ rest)) = _
    simp only [parseLoop]
    cases step cfg a with
    | ok c => exact ih c
    | exit m => rfl

theorem parseLoop_unknown {α : Type} (step : α → List Char → Parsed α)
    (pre post : List (List Char)) (u : List Char) (init : α) (m : String)
    (hu : ∀ cfg, step cfg u = Parsed.exit m)
    (hpre : ∃ c, parseLoop step init pre = Parsed.ok c) :
    parseLoop step init (pre ++ u :: post) = Parsed.exit m := by
  obtain ⟨c, hc⟩ := hpre
  rw [parseLoop_append, hc]
  simp only [parseLoop, hu c]

theorem parseLoop_ok_all {α : Type} (step : α → List Char → Parsed α) (P : List Char → Prop)
    (hstep : ∀ cfg a c, step cfg a = Parsed.ok c → P a) :
    ∀ (args : List (List Char)) (init cfg : α),
      parseLoop step init args = Parsed.ok cfg → ∀ a ∈ args, P a := by
  intro args
  induction args with
  | nil => intro _ _ _ a ha; cases ha
  | cons b args ih =>
    intro init cfg h a ha
    simp only [parseLoop] at h
    cases hb : step init b with
    | exit m => rw [hb] at h; cases h
    | ok c =>
      rw [hb] at h
      rcases List.mem_cons.mp ha with rfl | ha'
      · exact hstep init a c hb
      · exact ih c cfg h a ha'

theorem parseArg_unknown (cfg : Config) (u : List Char)
    (hs : sizeFlag.isPrefixOf u = false) (ht : tileFlag.isPrefixOf u = false)
    (hk : kernelFlag.isPrefixOf u = false) :
    parseArg cfg u = Parsed.exit ("Unknown option: " ++ String.mk u) := by
  simp [parseArg, hs, ht, hk]

theorem parseArgSycl_unknown (cfg : Config) (u : List Char)
    (hs : sizeFlag.isPrefixOf u = false) (ht : tileFlag.isPrefixOf u = false) :
    parseArgSycl cfg u = Parsed.exit ("Unknown option: " ++ String.mk u) := by
  simp [parseArgSycl, hs, ht]

theorem parseArgHist_unknown (cfg : HistConfig) (u : List Char)
    (hs : sizeFlag.isPrefixOf u = false) (hb : binsFlag.isPrefixOf u = false)
    (hk : kernelFlag.isPrefixOf u = false) :
    parseArgHist cfg u = Parsed.exit ("Unknown option: " ++ String.mk u) := by
  simp [parseArgHist, hs, hb, hk]

theorem parseArg_ok_recognised (cfg : Config) (a : List Char) (c : Config)
    (h : parseArg cfg a = Parsed.ok c) :
    sizeFlag.isPrefixOf a = true ∨ tileFlag.isPrefixOf a = true ∨
      kernelFlag.isPrefixOf a = true := by
  by_cases hs : sizeFlag.isPrefixOf a = true
  · exact Or.inl hs
  · by_cases ht : tileFlag.isPrefixOf a = true
    · exact Or.inr (Or.inl ht)
    · by_cases hk : kernelFlag.isPrefixOf a = true
      · exact Or.inr (Or.inr hk)
      · simp [parseArg, hs, ht, hk] at h

theorem parseArgSycl_ok_recognised (cfg : Config) (a : List Char) (c : Config)
    (h : parseArgSycl cfg a = Parsed.ok c) :
    sizeFlag.isPrefixOf a = true ∨ tileFlag.isPrefixOf a = true := by
  by_cases hs : sizeFlag.isPrefixOf a = true
  · exact Or.inl hs
  · by_cases ht : tileFlag.isPrefixOf a = true
    · exact Or.inr ht
    · simp [parseArgSycl, hs, ht] at h

theorem parseArgHist_ok_recognised (cfg : HistConfig) (a : List Char) (c : HistConfig)
    (h : parseArgHist cfg a = Parsed.ok c) :
    sizeFlag.isPrefixOf a = true ∨ binsFlag.isPrefixOf a = true ∨
      kernelFlag.isPrefixOf a = true := by
  by_cases hs : sizeFlag.isPrefixOf a = true
  · exact Or.inl hs
  · by_cases hb : binsFlag.isPrefixOf a = true
    · exact Or.inr (Or.inl hb)
    · by_cases hk : kernelFlag.isPrefixOf a = true
      · exact Or.inr (Or.inr hk)
      · simp [parseArgHist, hs, hb, hk] at h

/-- C14: an argument `u` that begins with none of the recognised texts ends
`parseArgs` with "Unknown option: u" and failure, at that argument, whenever
the arguments before it were accepted and whatever follows it, in
matrixmult_cpu_gpu, sycl_matrixmult (where `-kernel=` is unknown too) and
histogram; and `parseArgs` returns a `Config` only when every argument begins
with a recognised text. -/
theorem parseArgs_rejects_unknown (pre post : List (List Char)) (u : List Char)
    (hs : sizeFlag.isPrefixOf u = false) :
    (tileFlag.isPrefixOf u = false → kernelFlag.isPrefixOf u = false →
      (∃ c, parseArgs pre = Parsed.ok c) →
      parseArgs (pre ++ u :: post) = Parsed.exit ("Unknown option: " ++ String.mk u)) ∧
    (tileFlag.isPrefixOf u = false → (∃ c, parseArgsSycl pre = Parsed.ok c) →
      parseArgsSycl (pre ++ u :: post) = Parsed.exit ("Unknown option: " ++ String.mk u)) ∧
    (binsFlag.isPrefixOf u = false → kernelFlag.isPrefixOf u = false →
      (∃ c, parseArgsHist pre = Parsed.ok c) →
      parseArgsHist (pre ++ u :: post) = Parsed.exit ("Unknown option: " ++ String.mk u)) ∧
    (∀ args cfg, parseArgs args = Parsed.ok cfg → ∀ a ∈ args,
      sizeFlag.isPrefixOf a = true ∨ tileFlag.isPrefixOf a = true ∨
        kernelFlag.isPrefixOf a = true) ∧
    (∀ args cfg, parseArgsSycl args = Parsed.ok cfg → ∀ a ∈ args,
      sizeFlag.isPrefixOf a = true ∨ tileFlag.isPrefixOf a = true) ∧
    (∀ args cfg, parseArgsHist args = Parsed.ok cfg → ∀ a ∈ args,
      sizeFlag.isPrefixOf a = true ∨ binsFlag.isPrefixOf a = true ∨
        kernelFlag.isPrefixOf a = true) := by
  refine ⟨?_, ?_, ?_, ?_, ?_, ?_⟩
  · intro ht hk hpre
    exact parseLoop_unknown parseArg pre post u _ _ (fun cfg => parseArg_unknown cfg u hs ht hk)
      hpre
  · intro ht hpre
    exact parseLoop_unknown parseArgSycl pre post u _ _
      (fun cfg => parseArgSycl_unknown cfg u hs ht) hpre
  · intro hb hk hpre
    exact parseLoop_unknown parseArgHist pre post u _ _
      (fun cfg => parseArgHist_unknown cfg u hs hb hk) hpre
  · intro args cfg h
    exact parseLoop_ok_all parseArg _ parseArg_ok_recognised args _ cfg h
  · intro args cfg h
    exact parseLoop_ok_all parseArgSycl _ parseArgSycl_ok_recognised args _ cfg h
  · intro args cfg h
    exact parseLoop_ok_all parseArgHist _ parseArgHist_ok_recognised args _ cfg h

/-- Witness of C14: `-x` between `-size=7` and `-tile=2` (and, for histogram,
`-bins=2`). -/
theorem parseArgs_rejects_unknown_witness :
    parseArgs (["-size=7".toList] ++ "-x".toList :: ["-tile=2".toList])
        = Parsed.exit "Unknown option: -x" ∧
    parseArgsSycl (["-size=7".toList] ++ "-x".toList :: ["-tile=2".toList])
        = Parsed.exit "Unknown option: -x" ∧
    parseArgsHist (["-size=7".toList] ++ "-x".toList :: ["-bins=2".toList])
        = Parsed.exit "Unknown option: -x" :=
  ⟨(parseArgs_rejects_unknown ["-size=7".toList] ["-tile=2".toList] "-x".toList
      (by decide)).1 (by decide) (by decide)
      ⟨{ N := 7, Tile := 16, kernelPath := [] }, by decide⟩,
    (parseArgs_rejects_unknown ["-size=7".toList] ["-tile=2".toList] "-x".toList
      (by decide)).2.1 (by decide) ⟨{ N := 7, Tile := 16, kernelPath := [] }, by decide⟩,
    (parseArgs_rejects_unknown ["-size=7".toList] ["-bins=2".toList] "-x".toList
      (by decide)).2.2.1 (by decide) (by decide)
      ⟨{ N := 7, Bins := 256, kernelPath := [] }, by decide⟩⟩

theorem readDigits_append (rest : List Char)
    (hrest : rest = [] ∨ ∃ c cs, rest = c :: cs ∧ c.isDigit = false) :
    ∀ (ds : List Char) (acc : Nat), (∀ c ∈ ds, c.isDigit = true) →
      readDigits (ds ++ rest) acc
        = (ds.foldl (fun a c => a * 10 + (c.toNat - 48)) acc, rest) := by
  intro ds
  induction ds with
  | nil =>
    intro acc _
    rcases hrest with rfl | ⟨c, cs, rfl, hc⟩
    · rfl
    · simp [readDigits, hc]
  | cons d ds ih =>
    intro acc h
    have hd : d.isDigit = true := h d (List.mem_cons_self d ds)
    have ht : ∀ c ∈ ds, c.isDigit = true := fun c hc => h c (List.mem_cons_of_mem d hc)
    simp only [List.cons_append, readDigits, hd, if_true, List.foldl_cons]
    exact ih _ ht

theorem fromChars_digits (ds rest : List Char) (hne : ds ≠ [])
    (hds : ∀ c ∈ ds, c.isDigit = true)
    (hrest : rest = [] ∨ ∃ c cs, rest = c :: cs ∧ c.isDigit = false) :
    fromChars (ds ++ rest)
      = if decimalValue ds < 4294967296 then FromChars.ok (decimalValue ds) rest
        else FromChars.resultOutOfRange := by
  cases ds with
  | nil => exact absurd rfl hne
  | cons d ds =>
    have hd : d.isDigit = true := hds d (List.mem_cons_self d ds)
    have e := readDigits_append rest hrest (d :: ds) 0 hds
    simp only [List.cons_append] at e
    simp only [fromChars, List.cons_append, hd, if_true, e, decimalValue]

theorem fromChars_no_digit (s : List Char)
    (h : s = [] ∨ ∃ c cs, s = c :: cs ∧ c.isDigit = false) :
    fromChars s = FromChars.invalidArgument := by
  rcases h with rfl | ⟨c, cs, rfl, hc⟩
  · rfl
  · simp [fromChars, hc]

theorem parseArg_size (cfg : Config) (s : List Char) :
    parseArg cfg (sizeFlag ++ s)
      = match fromChars s with
        | FromChars.ok v _ => Parsed.ok { cfg with N := v }
        | _ => Parsed.exit "Invalid -size value" := by
  have e1 : sizeFlag.isPrefixOf (sizeFlag ++ s) = true := by simp [sizeFlag]
  have e2 : (sizeFlag ++ s).drop 6 = s := rfl
  simp only [parseArg, e1, if_true, e2]

theorem parseArgSycl_size (cfg : Config) (s : List Char) :
    parseArgSycl cfg (sizeFlag ++ s)
      = match fromChars s with
        | FromChars.ok v _ => Parsed.ok { cfg with N := v }
        | _ => Parsed.exit "Invalid -size value" := by
  have e1 : sizeFlag.isPrefixOf (sizeFlag ++ s) = true := by simp [sizeFlag]
  have e2 : (sizeFlag ++ s).drop 6 = s := rfl
  simp only [parseArgSycl, e1, if_true, e2]

theorem parseArgHist_size (cfg : HistConfig) (s : List Char) :
    parseArgHist cfg (sizeFlag ++ s)
      = match fromChars s with
        | FromChars.ok v _ => Parsed.ok { cfg with N := v }
        | _ => Parsed.exit "Invalid -size value" := by
  have e1 : sizeFlag.isPrefixOf (sizeFlag ++ s) = true := by simp [sizeFlag]
  have e2 : (sizeFlag ++ s).drop 6 = s := rfl
  simp only [parseArgHist, e1, if_true, e2]

/-- C13 (amended): for an argument `-size=s`, `parseArgs` (in the three
programs) sets `N` to what `std::from_chars` reads from `s` and fails with
"Invalid -size value" only when `from_chars` reports an error: when `s` starts
with a run of decimal digits followed by the end or by a non-digit, `N`
becomes the value of that run if it is below `2 ^ 32` (the characters after
it are ignored) and the run is out of range otherwise; when `s` is empty or
starts with a character that is not a digit (a sign, a letter) the argument
is invalid. -/
theorem size_argument_parsed (s : List Char) :
    parseArgs [sizeFlag ++ s]
      = (match fromChars s with
        | FromChars.ok v _ => Parsed.ok { N := v, Tile := 16, kernelPath := [] }
        | _ => Parsed.exit "Invalid -size value") ∧
    parseArgsSycl [sizeFlag ++ s]
      = (match fromChars s with
        | FromChars.ok v _ => Parsed.ok { N := v, Tile := 16, kernelPath := [] }
        | _ => Parsed.exit "Invalid -size value") ∧
    parseArgsHist [sizeFlag ++ s]
      = (match fromChars s with
        | FromChars.ok v _ => Parsed.ok { N := v, Bins := 256, kernelPath := [] }
        | _ => Parsed.exit "Invalid -size value") ∧
    (∀ ds rest, s = ds ++ rest → ds ≠ [] → (∀ c ∈ ds, c.isDigit = true) →
      (rest = [] ∨ ∃ c cs, rest = c :: cs ∧ c.isDigit = false) →
      fromChars s = if decimalValue ds < 4294967296
        then FromChars.ok (decimalValue ds) rest else FromChars.resultOutOfRange) ∧
    ((s = [] ∨ ∃ c cs, s = c :: cs ∧ c.isDigit = false) →
      fromChars s = FromChars.invalidArgument) := by
  refine ⟨?_, ?_, ?_, ?_, fromChars_no_digit s⟩
  · simp only [parseArgs, parseLoop, parseArg_size]
    cases fromChars s <;> rfl
  · simp only [parseArgsSycl, parseLoop, parseArgSycl_size]
    cases fromChars s <;> rfl
  · simp only [parseArgsHist, parseLoop, parseArgHist_size]
    cases fromChars s <;> rfl
  · rintro ds rest rfl hne hds hrest
    exact fromChars_digits ds rest hne hds hrest

/-- Witness of C13 (amended): `-size=12abc` sets `N = 12`. -/
theorem size_argument_parsed_witness :
    fromChars "12abc".toList = FromChars.ok 12 "abc".toList ∧
    parseArgs [sizeFlag ++ "12abc".toList]
      = (match fromChars "12abc".toList with
        | FromChars.ok v _ => Parsed.ok { N := v, Tile := 16, kernelPath := [] }
        | _ => Parsed.exit "Invalid -size value") :=
  ⟨by decide, (size_argument_parsed "12abc".toList).1⟩

/-- C13 as stated fails for a value with trailing characters: `-size=12abc`
is accepted with `N = 12` by the three programs, and no message is printed. -/
theorem size_with_trailing_text_accepted :
    parseArgs ["-size=12abc".toList] = Parsed.ok { N := 12, Tile := 16, kernelPath := [] } ∧
    parseArgsSycl ["-size=12abc".toList]
      = Parsed.ok { N := 12, Tile := 16, kernelPath := [] } ∧
    parseArgsHist ["-size=12abc".toList]
      = Parsed.ok { N := 12, Bins := 256, kernelPath := [] } := by
  decide

/-! ## Tile size from the command line -/

/-- C28: in the OpenCL C++ selection, when no earlier platform yielded a
device and a platform's query fails with a code other than
`CL_DEVICE_NOT_FOUND`, the error leaves the selection: `findDevice` and the
loops with a `found` flag end with that `cl::Error`, no device is selected,
whatever the later platforms would have provided, and `main` returns
`EXIT_FAILURE` without any device work. -/
theorem other_errors_propagate (pre post : List DeviceQuery) (code : Int)
    (fail : Option (Step × Int)) (hc : code ≠ CL_DEVICE_NOT_FOUND)
    (hpre : ∀ q ∈ pre, yieldsNothing q) :
    findDevice (pre ++ DeviceQuery.error code :: post) = Selection.clError code ∧
    selectInline (pre ++ DeviceQuery.error code :: post) = Selection.clError code ∧
    (∀ d, findDevice (pre ++ DeviceQuery.error code :: post) ≠ Selection.found d) ∧
    (mainMatrixmult (pre ++ DeviceQuery.error code :: post) fail).exit
      = Exit.status EXIT_FAILURE ∧
    (mainMatrixmult (pre ++ DeviceQuery.error code :: post) fail).steps = [] := by
  have h1 : findDevice (pre ++ DeviceQuery.error code :: post) = Selection.clError code := by
    unfold findDevice
    rw [if_neg (by simp), findDeviceLoop_of_yieldsNothing pre _ hpre]
    simp only [findDeviceLoop, if_neg hc]
  have h2 : selectInline (pre ++ DeviceQuery.error code :: post) = Selection.clError code := by
    rw [selectInline_eq_findDevice, h1]
  refine ⟨h1, h2, ?_, ?_, ?_⟩
  · intro d hd
    rw [h1] at hd
    cases hd
  · unfold mainMatrixmult
    rw [h2]
  · unfold mainMatrixmult
    rw [h2]

/-- Witness of C28: a platform without GPU, then a platform whose query fails
with `CL_INVALID_VALUE` (-30), then a platform with a suitable device. -/
theorem other_errors_propagate_witness :
    findDevice ([DeviceQuery.error CL_DEVICE_NOT_FOUND] ++ DeviceQuery.error (-30) ::
        [DeviceQuery.devices [⟨0, 4, true⟩]]) = Selection.clError (-30) ∧
    selectInline ([DeviceQuery.error CL_DEVICE_NOT_FOUND] ++ DeviceQuery.error (-30) ::
        [DeviceQuery.devices [⟨0, 4, true⟩]]) = Selection.clError (-30) :=
  have h := other_errors_propagate [DeviceQuery.error CL_DEVICE_NOT_FOUND]
    [DeviceQuery.devices [⟨0, 4, true⟩]] (-30) none (by decide)
    (by
      intro q hq
      simp only [List.mem_singleton] at hq
      exact Or.inl hq)
  ⟨h.1, h.2.1⟩

/-! ## Decimal text of a number -/

theorem digitChar_digit (k : Nat) (hk : k < 10) :
    (Nat.digitChar k).isDigit = true ∧ (Nat.digitChar k).toNat - 48 = k := by
  interval_cases k <;> decide

theorem toDigitsCore_isDigit :
    ∀ (fuel n : Nat) (ds : List Char), (∀ c ∈ ds, c.isDigit = true) →
      ∀ c ∈ Nat.toDigitsCore 10 fuel n ds, c.isDigit = true := by
  intro fuel
  induction fuel with
  | zero => intro n ds h c hc; exact h c hc
  | succ fuel ih =>
    intro n ds h c hc
    have hd := (digitChar_digit (n % 10) (Nat.mod_lt n (by decide))).1
    have hds : ∀ x ∈ Nat.digitChar (n % 10) :: ds, x.isDigit = true := by
      intro x hx
      rcases List.mem_cons.mp hx with rfl | hx'
      · exact hd
      · exact h x hx'
    simp only [Nat.toDigitsCore] at hc
    split at hc
    · exact hds c hc
    · exact ih (n / 10) _ hds c hc

theorem toDigitsCore_value :
    ∀ (fuel n : Nat) (ds : List Char), n < fuel →
      (Nat.toDigitsCore 10 fuel n ds).foldl (fun a c => a * 10 + (c.toNat - 48)) 0
        = ds.foldl (fun a c => a * 10 + (c.toNat - 48)) n := by
  intro fuel
  induction fuel with
  | zero => intro n ds h; exact absurd h (Nat.not_lt_zero n)
  | succ fuel ih =>
    intro n ds h
    have hv := (digitChar_digit (n % 10) (Nat.mod_lt n (by decide))).2
    have hdm := Nat.div_add_mod n 10
    simp only [Nat.toDigitsCore]
    split
    · next h0 =>
      simp only [List.foldl_cons, hv]
      congr 1
      omega
    · next h0 =>
      rw [ih (n / 10) _ (by omega)]
      simp only [List.foldl_cons, hv]
      congr 1
      omega

theorem to_string_isDigit (v : Nat) : ∀ c ∈ to_string v, c.isDigit = true :=
  toDigitsCore_isDigit (v + 1) v [] (fun _ h => by cases h)

theorem to_string_value (v : Nat) : decimalValue (to_string v) = v := by
  unfold decimalValue to_string Nat.toDigits
  rw [toDigitsCore_value (v + 1) v [] (Nat.lt_succ_self v)]
  rfl

theorem to_string_ne_nil (v : Nat) : to_string v ≠ [] := by
  unfold to_string Nat.toDigits
  simp only [Nat.toDigitsCore]
  split
  · exact List.cons_ne_nil _ _
  · intro h
    have hlen := Nat.toDigitsCore_lens_eq 10 v (v / 10) (Nat.digitChar (v % 10)) []
    rw [h] at hlen
    simp at hlen

/-- The define line injected in front of a kernel file is read back by
`fromChars` as the injected number, with the rest of the line and the file
left over. -/
theorem fromChars_to_string (v : Nat) (hv : v < 4294967296) (file : List Char) :
    fromChars (to_string v ++ '\n' :: file) = FromChars.ok v ('\n' :: file) := by
  rw [fromChars_digits (to_string v) ('\n' :: file) (to_string_ne_nil v)
    (to_string_isDigit v) (Or.inr ⟨'\n', file, rfl, by decide⟩), to_string_value, if_pos hv]

/-! ## Kernel source injection -/

theorem takeWhile_dropWhile_line (F : List Char) :
    ∀ l : List Char, (∀ c ∈ l, c ≠ '\n') →
      (l ++ '\n' :: F).takeWhile (fun c => c != '\n') = l ∧
      (l ++ '\n' :: F).dropWhile (fun c => c != '\n') = '\n' :: F := by
  intro l
  induction l with
  | nil => intro _; simp [List.takeWhile, List.dropWhile]
  | cons a l ih =>
    intro h
    have ha : a ≠ '\n' := h a (List.mem_cons_self a l)
    have ht := ih (fun c hc => h c (List.mem_cons_of_mem a hc))
    have hb : (a != '\n') = true := by simpa using ha
    simp only [List.cons_append, List.takeWhile, List.dropWhile, hb]
    exact ⟨congrArg (List.cons a) ht.1, ht.2⟩

theorem define_line_no_newline (name : List Char) (hname : ∀ c ∈ name, c ≠ '\n') (v : Nat) :
    ∀ c ∈ name ++ to_string v, c ≠ '\n' := by
  intro c hc
  rcases List.mem_append.mp hc with h | h
  · exact hname c h
  · intro e
    have := to_string_isDigit v c h
    rw [e] at this
    exact absurd this (by decide)

/-- C18: the source handed to the device compiler is exactly
`"#define TILE " ++ decimal(v) ++ "\n" ++ F` in matrixmult_cpu_gpu and
`"#define BINS " ++ decimal(v) ++ "\n" ++ F` in histogram: its first line is
the define with the decimal digits of `v` (whose value is `v`), and what
follows the first newline is the unmodified file text `F`. -/
theorem kernel_source_injection (v : Nat) (F : List Char) :
    kernelSourceTile v F = "#define TILE ".toList ++ to_string v ++ "\n".toList ++ F ∧
    kernelSourceBins v F = "#define BINS ".toList ++ to_string v ++ "\n".toList ++ F ∧
    decimalValue (to_string v) = v ∧
    (kernelSourceTile v F).takeWhile (fun c => c != '\n')
      = "#define TILE ".toList ++ to_string v ∧
    ((kernelSourceTile v F).dropWhile (fun c => c != '\n')).drop 1 = F ∧
    (kernelSourceBins v F).takeWhile (fun c => c != '\n')
      = "#define BINS ".toList ++ to_string v ∧
    ((kernelSourceBins v F).dropWhile (fun c => c != '\n')).drop 1 = F := by
  have ht := takeWhile_dropWhile_line F ("#define TILE ".toList ++ to_string v)
    (define_line_no_newline _ (by decide) v)
  have hb := takeWhile_dropWhile_line F ("#define BINS ".toList ++ to_string v)
    (define_line_no_newline _ (by decide) v)
  have et : kernelSourceTile v F = ("#define TILE ".toList ++ to_string v) ++ '\n' :: F := by
    simp [kernelSourceTile]
  have eb : kernelSourceBins v F = ("#define BINS ".toList ++ to_string v) ++ '\n' :: F := by
    simp [kernelSourceBins]
  refine ⟨rfl, rfl, to_string_value v, ?_, ?_, ?_, ?_⟩
  · rw [et, ht.1]
  · rw [et, ht.2]; rfl
  · rw [eb, hb.1]
  · rw [eb, hb.2]; rfl

/-! ## Local extent and tile size -/

theorem mem_dispatchUnits_local {N T : Nat} {u : Nat × Nat × Nat × Nat}
    (h : u ∈ dispatchUnits N T) :
    u.1 < N / T ∧ u.2.1 < N / T ∧ u.2.2.1 < T ∧ u.2.2.2 < T := by
  simp only [dispatchUnits, globalSize, localSize, List.mem_flatMap, List.mem_map,
    List.mem_range] at h
  obtain ⟨g0, h0, g1, h1, tx, h2, ty, h3, rfl⟩ := h
  exact ⟨h0, h1, h2, h3⟩

/-- C21: the local extent the host submits equals, in each axis, the tile
size of the kernel: `(16, 16)` and `TILE = 16` in matrixmult.cc, `(Tile,
Tile)` in the SYCL programs, where every unit of the dispatch has local ids
below `T`; in matrixmult_cpu_gpu.cc the local extent is `(cfg.Tile,
cfg.Tile)` and the number that follows `#define TILE ` in the source handed
to the compiler reads back as `cfg.Tile`. -/
theorem local_extent_eq_tile (N T : Nat) (file : List Char) (hT : T < 4294967296) :
    matrixmultLocalSize = (TILE, TILE) ∧
    syclMatrixSimpleLocalSize = (TILE, TILE) ∧
    localSize T = (T, T) ∧
    (∀ u ∈ dispatchUnits N T, u.2.2.1 < (localSize T).1 ∧ u.2.2.2 < (localSize T).2) ∧
    ("#define TILE ".toList).isPrefixOf (kernelSourceTile T file) = true ∧
    fromChars ((kernelSourceTile T file).drop 13) = FromChars.ok T ('\n' :: file) := by
  refine ⟨rfl, rfl, rfl, ?_, ?_, ?_⟩
  · intro u hu
    exact ⟨(mem_dispatchUnits_local hu).2.2.1, (mem_dispatchUnits_local hu).2.2.2⟩
  · simp [kernelSourceTile]
  · have e : (kernelSourceTile T file).drop 13 = to_string T ++ '\n' :: file := by
      simp [kernelSourceTile]
    rw [e, fromChars_to_string T hT file]

/-- Witness of C21: `-tile=8`, `N = 32`. -/
theorem local_extent_eq_tile_witness :
    localSize 8 = (8, 8) ∧
    fromChars ((kernelSourceTile 8 "kernel".toList).drop 13)
      = FromChars.ok 8 ('\n' :: "kernel".toList) :=
  have h := local_extent_eq_tile 32 8 "kernel".toList (by decide)
  ⟨h.2.2.1, h.2.2.2.2.2⟩

/-! ## Matrix storage size -/

theorem matrixSize_eq {N : Nat} (h : N * N < 4294967296) : matrixSize N = N * N :=
  u32_eq_self h

/-- C22: `matrixSize` is not `N * N` for every accepted `N`: the product is
formed on `unsigned int`, so for `N = 65536` it is 0 and for `N = 65537` it is
131073, and the flat index of the last element is outside the allocation. -/
theorem matrixSize_wraps :
    matrixSize 65536 = 0 ∧ 65536 * 65536 = 4294967296 ∧
    matrixSize 65537 = 131073 ∧ ¬ (65536 * 65537 + 65536 < matrixSize 65537) ∧
    parseArgs ["-size=65536".toList] = Parsed.ok { N := 65536, Tile := 16, kernelPath := [] } := by
  decide

/-! ## Work-group sizes of the fixed-size examples -/

/-- C25: the local size divides the global size in sycl_vectoradd (2048 by
512), matrixmult.cc and sycl_matrix_simple.cc (256 by 16 per axis), but not in
vectoradd.cc, where the global size is 64 and the local size 256. -/
theorem local_size_divides_except_vectoradd :
    syclVectoraddLocalSize ∣ syclVectoraddN ∧
    matrixmultLocalSize.1 ∣ (globalSize matrixmultN).1 ∧
    matrixmultLocalSize.2 ∣ (globalSize matrixmultN).2 ∧
    syclMatrixSimpleLocalSize.1 ∣ (globalSize matrixmultN).1 ∧
    syclMatrixSimpleLocalSize.2 ∣ (globalSize matrixmultN).2 ∧
    ¬ (vectoraddLocalSize ∣ vectoraddN) ∧
    vectoraddN % vectoraddLocalSize = 64 ∧ vectoraddN < vectoraddLocalSize := by
  decide

/-! ## Barriers -/

theorem count_barrier_tileEvents (A B : List Int) (N T g0 g1 tx ty t : Nat) :
    (tileEvents A B N T g0 g1 tx ty t).count Event.barrier = 2 := by
  have h : ((List.range T).map Event.accumulate).count Event.barrier = 0 := by
    rw [List.count_eq_zero]
    intro hm
    simp only [List.mem_map] at hm
    obtain ⟨_, _, h⟩ := hm
    cases h
  simp [tileEvents, List.count_append, h, List.count_cons]

theorem count_flatMap_const {α β : Type} [DecidableEq β] (l : List α) (f : α → List β)
    (b : β) (c : Nat) (h : ∀ x ∈ l, (f x).count b = c) :
    (l.flatMap f).count b = l.length * c := by
  induction l with
  | nil => simp
  | cons a l ih =>
    rw [List.flatMap_cons, List.count_append, h a (List.mem_cons_self a l),
      ih (fun x hx => h x (List.mem_cons_of_mem a hx)), List.length_cons, Nat.succ_mul,
      Nat.add_comm]

theorem barrierCount_unitTrace (A B : List Int) (N T g0 g1 tx ty : Nat) :
    barrierCount (unitTrace A B N T g0 g1 tx ty) = 2 * intLoopCount (numTiles N T) := by
  unfold barrierCount unitTrace
  rw [List.count_append,
    count_flatMap_const _ _ Event.barrier 2
      (fun t _ => count_barrier_tileEvents A B N T g0 g1 tx ty t),
    List.length_range]
  have h : (if rowOf T g0 tx < N ∧ colOf T g1 ty < N
      then [Event.store (idxC N (rowOf T g0 tx) (colOf T g1 ty))] else []).count
        Event.barrier = 0 := by
    split <;> simp [List.count_cons]
  rw [h]
  omega

/-- C20 (amended): for every `N` and `T` and all operand data, the number of
barrier calls of a unit of the tiled kernel is twice the number of tile steps
its loop runs, a function of `N` and `T` only: it is the same for every unit
(any group and local ids, `(row, col)` in bounds or not) and for every content
of `A` and `B`. It is exactly `2 * tileCount` when the tile count fits the
kernel's `int` (`tileCount < 2 ^ 31`); a count of `2 ^ 31` or more is a
negative `int`, the loop is skipped and the unit executes no barrier. -/
theorem barrier_count_uniform (A B A' B' : List Int)
    (N T g0 g1 tx ty g0' g1' tx' ty' : Nat) :
    barrierCount (unitTrace A B N T g0 g1 tx ty) = 2 * intLoopCount (numTiles N T) ∧
    barrierCount (unitTrace A B N T g0 g1 tx ty)
      = barrierCount (unitTrace A' B' N T g0' g1' tx' ty') ∧
    (numTiles N T < 2147483648 →
      barrierCount (unitTrace A B N T g0 g1 tx ty) = 2 * numTiles N T) ∧
    (2147483648 ≤ numTiles N T → barrierCount (unitTrace A B N T g0 g1 tx ty) = 0) := by
  refine ⟨barrierCount_unitTrace A B N T g0 g1 tx ty, ?_, ?_, ?_⟩
  · rw [barrierCount_unitTrace, barrierCount_unitTrace]
  · intro hfit
    rw [barrierCount_unitTrace, intLoopCount_eq hfit]
  · intro hbig
    rw [barrierCount_unitTrace]
    unfold intLoopCount
    rw [if_neg (Nat.not_lt.mpr hbig)]

/-- Witness of C20 (amended): `N = 10`, `T = 4`: 3 tile steps, 6 barriers,
for a unit in bounds and a unit out of bounds, on different data. -/
theorem barrier_count_uniform_witness :
    barrierCount (unitTrace (hostA 10) (hostB 10) 10 4 0 0 0 0)
      = 2 * intLoopCount (numTiles 10 4) ∧
    barrierCount (unitTrace (hostA 10) (hostB 10) 10 4 0 0 0 0)
      = barrierCount (unitTrace (hostB 10) (hostA 10) 10 4 2 2 3 3) ∧
    (numTiles 10 4 < 2147483648 →
      barrierCount (unitTrace (hostA 10) (hostB 10) 10 4 0 0 0 0) = 2 * numTiles 10 4) ∧
    (2147483648 ≤ numTiles 10 4 →
      barrierCount (unitTrace (hostA 10) (hostB 10) 10 4 0 0 0 0) = 0) :=
  barrier_count_uniform (hostA 10) (hostB 10) (hostB 10) (hostA 10) 10 4 0 0 0 0 2 2 3 3

/-- C20 as stated, for every `N` and `T ≥ 1`, fails where the tile count does
not fit an `int`: for `N = 2147483648`, `T = 1` the count `2147483648` is a
negative `int`, the loop `for (int t = 0; t < numTiles; ++t)` does not run and
the unit executes no barrier, on operands of `N * N` ones. -/
theorem barrier_count_zero_when_count_negative :
    hugeOnes.length = 2147483648 * 2147483648 ∧
    numTiles 2147483648 1 = 2147483648 ∧
    barrierCount (unitTrace hugeOnes hugeOnes 2147483648 1 0 0 0 0) = 0 ∧
    barrierCount (unitTrace hugeOnes hugeOnes 2147483648 1 0 0 0 0)
      ≠ 2 * numTiles 2147483648 1 := by
  have hlen : hugeOnes.length = 2147483648 * 2147483648 := by
    unfold hugeOnes
    rw [List.length_replicate]
  have hc : 2 * intLoopCount (numTiles 2147483648 1) = 0 := by decide
  have h := barrierCount_unitTrace hugeOnes hugeOnes 2147483648 1 0 0 0 0
  rw [hc] at h
  refine ⟨hlen, by decide, h, ?_⟩
  rw [h]
  decide

/-! ## Vector addition -/

theorem foldlM_option_congr {σ α : Type} (f g : σ → α → Option σ) (l : List α)
    (h : ∀ x ∈ l, ∀ s, f s x = g s x) (s : σ) : l.foldlM f s = l.foldlM g s := by
  induction l generalizing s with
  | nil => rfl
  | cons a l ih =>
    simp only [List.foldlM_cons]
    rw [h a (List.mem_cons_self a l) s]
    cases g s a with
    | none => rfl
    | some s1 => exact ih (fun x hx => h x (List.mem_cons_of_mem a hx)) s1

theorem fold_store_range (f : Nat → Int) (C0 : List Int) (k : Nat) (hk : k ≤ C0.length) :
    (List.range k).foldlM (fun C i => storeC C i (f i)) C0
      = some ((List.range k).map f ++ C0.drop k) := by
  induction k with
  | zero => simp
  | succ k ih =>
    have hlt : k < C0.length := hk
    rw [List.range_succ, List.foldlM_append, ih (Nat.le_of_lt hlt)]
    have hlen : k < ((List.range k).map f ++ C0.drop k).length := by
      simp only [List.length_append, List.length_map, List.length_range, List.length_drop]
      omega
    simp only [Option.bind_eq_bind, Option.some_bind, List.foldlM_cons, List.foldlM_nil,
      storeC, hlen, if_true, Option.pure_def, Option.bind_some]
    congr 1
    have hd : C0.drop k = C0[k] :: C0.drop (k + 1) := List.drop_eq_getElem_cons hlt
    rw [hd, List.map_append, List.map_singleton, List.append_assoc, List.singleton_append]
    have hl : ((List.range k).map f).length = k := by simp
    rw [List.set_append_right _ _ (by rw [hl]), hl, Nat.sub_self, List.set_cons_zero]

theorem vector_add_eq_store (A B C : List Int) (n id : Nat) (hA : n ≤ A.length)
    (hB : n ≤ B.length) (hid : id < n) :
    vector_add A B C n id = storeC C id (A.getD id 0 + B.getD id 0) := by
  unfold vector_add
  rw [if_pos hid, getElem?_eq_some_getD (Nat.lt_of_lt_of_le hid hA),
    getElem?_eq_some_getD (Nat.lt_of_lt_of_le hid hB)]

theorem vectorHost_sum (N i : Nat) (hi : i < N) :
    (vectorHostA N).getD i 0 + (vectorHostB N).getD i 0 = 3 * (i : Int) := by
  unfold vectorHostA vectorHostB
  rw [List.getD_eq_getElem?_getD, List.getD_eq_getElem?_getD]
  simp only [List.getElem?_map, List.getElem?_range hi, Option.map_some', Option.getD_some]
  push_cast
  ring

/-- C26: the `vector_add` kernel, on arrays of at least `n` elements: a
work-item with `id < n` stores `A[id] + B[id]` in `C[id]` and changes no other
element, a work-item with `id ≥ n` changes nothing; with the host data
`A[i] = i`, `B[i] = 2 * i`, running it for every id in `[0, N)` leaves
`C[i] = 3 * i` for all `i < N`, whatever `C` held before. -/
theorem vector_add_spec (A B C C0 : List Int) (n id N : Nat) (hA : n ≤ A.length)
    (hB : n ≤ B.length) (hC : n ≤ C.length) (hC0 : C0.length = N) :
    (id < n → ∃ a b C1, A[id]? = some a ∧ B[id]? = some b ∧
      vector_add A B C n id = some C1 ∧ C1.length = C.length ∧ C1[id]? = some (a + b) ∧
      ∀ j, j ≠ id → C1[j]? = C[j]?) ∧
    (n ≤ id → vector_add A B C n id = some C) ∧
    runVectorAdd (vectorHostA N) (vectorHostB N) C0 N N
      = some ((List.range N).map fun (i : Nat) => 3 * (i : Int)) := by
  refine ⟨?_, ?_, ?_⟩
  · intro hid
    have hidC : id < C.length := Nat.lt_of_lt_of_le hid hC
    refine ⟨A.getD id 0, B.getD id 0, C.set id (A.getD id 0 + B.getD id 0),
      getElem?_eq_some_getD (Nat.lt_of_lt_of_le hid hA),
      getElem?_eq_some_getD (Nat.lt_of_lt_of_le hid hB), ?_, List.length_set _ _ _, ?_, ?_⟩
    · rw [vector_add_eq_store A B C n id hA hB hid, storeC, if_pos hidC]
    · exact List.getElem?_set_self hidC
    · intro j hj
      exact List.getElem?_set_ne (Ne.symm hj)
  · intro hid
    unfold vector_add
    rw [if_neg (Nat.not_lt.mpr hid)]
  · unfold runVectorAdd
    have hlenA : N ≤ (vectorHostA N).length := by simp [vectorHostA]
    have hlenB : N ≤ (vectorHostB N).length := by simp [vectorHostB]
    rw [foldlM_option_congr _
      (fun C i => storeC C i ((fun (i : Nat) => 3 * (i : Int)) i)) (List.range N)
      (fun x hx s => by
        rw [vector_add_eq_store _ _ s N x hlenA hlenB (List.mem_range.mp hx),
          vectorHost_sum N x (List.mem_range.mp hx)]),
      fold_store_range _ C0 N (Nat.le_of_eq hC0.symm), ← hC0, List.drop_length,
      List.append_nil]

/-- Witness of C26: `n = 4` on arrays of four elements, id `2`; the run of
vectoradd.cc with `N = 64`. -/
theorem vector_add_spec_witness :
    (2 < 4 → ∃ (a b : Int) (C1 : List Int),
      [1, 2, 3, (4 : Int)][2]? = some a ∧ [10, 20, 30, (40 : Int)][2]? = some b ∧
      vector_add [1, 2, 3, 4] [10, 20, 30, 40] [7, 7, 7, 7] 4 2 = some C1 ∧
      C1.length = [7, 7, 7, (7 : Int)].length ∧ C1[2]? = some (a + b) ∧
      ∀ j, j ≠ 2 → C1[j]? = [7, 7, 7, (7 : Int)][j]?) ∧
    (4 ≤ 2 → vector_add [1, 2, 3, 4] [10, 20, 30, 40] [7, 7, 7, 7] 4 2
      = some [7, 7, 7, 7]) ∧
    runVectorAdd (vectorHostA vectoraddN) (vectorHostB vectoraddN)
        (List.replicate vectoraddN 0) vectoraddN vectoraddN
      = some ((List.range vectoraddN).map fun (i : Nat) => 3 * (i : Int)) :=
  vector_add_spec [1, 2, 3, 4] [10, 20, 30, 40] [7, 7, 7, 7] (List.replicate vectoraddN 0)
    4 2 vectoraddN (by decide) (by decide) (by decide) (by decide)

/-! ## Result checks -/

theorem getElem?_eq_some_getD_of_lt {α : Type} {l : List α} {i : Nat} (d : α)
    (h : i < l.length) : l[i]? = some (l.getD i d) := by
  simp [List.getD, List.getElem?_eq_getElem h]

theorem compareLoop_eq (gpuResult cpuResult : List Rat) (l : List Nat)
    (h : ∀ i ∈ l, i < gpuResult.length ∧ i < cpuResult.length) :
    compareLoop gpuResult cpuResult l
      = some (l.all fun i => !exceedsTolerance (gpuResult.getD i 0) (cpuResult.getD i 0)) := by
  induction l with
  | nil => rfl
  | cons a l ih =>
    have ha := h a (List.mem_cons_self a l)
    unfold compareLoop
    rw [getElem?_eq_some_getD_of_lt 0 ha.1, getElem?_eq_some_getD_of_lt 0 ha.2]
    simp only [List.all_cons]
    cases hex : exceedsTolerance (gpuResult.getD a 0) (cpuResult.getD a 0)
    · simp only [Bool.false_eq_true, if_false, Bool.not_false, Bool.true_and]
      exact ih (fun i hi => h i (List.mem_cons_of_mem a hi))
    · simp

theorem histCompareLoop_eq (hostHist_cpu hostHist_gpu : List Nat) (l : List Nat)
    (h : ∀ i ∈ l, i < hostHist_cpu.length ∧ i < hostHist_gpu.length) :
    histCompareLoop hostHist_cpu hostHist_gpu l
      = some (l.all fun i => decide (hostHist_cpu.getD i 0 = hostHist_gpu.getD i 0)) := by
  induction l with
  | nil => rfl
  | cons a l ih =>
    have ha := h a (List.mem_cons_self a l)
    unfold histCompareLoop
    rw [getElem?_eq_some_getD_of_lt 0 ha.1, getElem?_eq_some_getD_of_lt 0 ha.2]
    simp only [List.all_cons]
    by_cases hex : hostHist_cpu.getD a 0 = hostHist_gpu.getD a 0
    · simp only [hex, ne_eq, not_true_eq_false, if_false, decide_True, Bool.true_and]
      exact ih (fun i hi => h i (List.mem_cons_of_mem a hi))
    · simp only [ne_eq, hex, not_false_eq_true, if_true, decide_False, Bool.false_and]

theorem resultsMatch_eq (gpuResult cpuResult : List Rat) (N : Nat)
    (hg : gpuResult.length = N) (hc : cpuResult.length = N) :
    resultsMatch gpuResult cpuResult N
      = some ((List.range (min N 1000)).all fun i =>
          !exceedsTolerance (gpuResult.getD i 0) (cpuResult.getD i 0)) := by
  unfold resultsMatch
  apply compareLoop_eq
  intro i hi
  have hi' : i < min N 1000 := List.mem_range.mp hi
  have : i < N := Nat.lt_of_lt_of_le hi' (Nat.min_le_left _ _)
  omega

/-- C16: a result mismatch is informational only. For all device and
reference results of the lengths the programs give them, vectoradd_cpu and
histogram end with `EXIT_SUCCESS`, whatever the comparison finds; the
comparison decides only whether vectoradd_cpu has the warning on the error
stream and whether histogram prints PASSED or FAILED. -/
theorem mismatch_is_informational (gpuResult cpuResult : List Rat) (N : Nat)
    (hostHist_cpu hostHist_gpu : List Nat) (Bins : Nat)
    (hg : gpuResult.length = N) (hc : cpuResult.length = N)
    (hhc : hostHist_cpu.length = Bins) (hhg : hostHist_gpu.length = Bins) :
    (∃ m, resultsMatch gpuResult cpuResult N = some m ∧
      vectoraddCpuCheck gpuResult cpuResult N
        = some { exit := Exit.status EXIT_SUCCESS, stdout := [],
                 stderr := if m then [] else [mismatchWarning] }) ∧
    (∃ correct, histCompareLoop hostHist_cpu hostHist_gpu (List.range Bins) = some correct ∧
      histogramCheck hostHist_cpu hostHist_gpu Bins
        = some { exit := Exit.status EXIT_SUCCESS,
                 stdout := ["Result correctness: " ++ (if correct then "PASSED" else "FAILED")
                              ++ "\n",
                            "\ndone. Histogram computed.\n"],
                 stderr := [] }) := by
  constructor
  · refine ⟨_, resultsMatch_eq gpuResult cpuResult N hg hc, ?_⟩
    unfold vectoraddCpuCheck
    rw [resultsMatch_eq gpuResult cpuResult N hg hc]
    rfl
  · have h := histCompareLoop_eq hostHist_cpu hostHist_gpu (List.range Bins)
      (fun i hi => by
        have := List.mem_range.mp hi
        omega)
    refine ⟨_, h, ?_⟩
    unfold histogramCheck
    rw [h]
    rfl

/-- Witness of C16: a mismatching pair for each program. -/
theorem mismatch_is_informational_witness :
    (∃ m, resultsMatch [0, 3, 6] [0, 3, 7] 3 = some m ∧
      vectoraddCpuCheck [0, 3, 6] [0, 3, 7] 3
        = some { exit := Exit.status EXIT_SUCCESS, stdout := [],
                 stderr := if m then [] else [mismatchWarning] }) ∧
    (∃ correct, histCompareLoop [2, 1] [2, 0] (List.range 2) = some correct ∧
      histogramCheck [2, 1] [2, 0] 2
        = some { exit := Exit.status EXIT_SUCCESS,
                 stdout := ["Result correctness: " ++ (if correct then "PASSED" else "FAILED")
                              ++ "\n",
                            "\ndone. Histogram computed.\n"],
                 stderr := [] }) :=
  mismatch_is_informational [0, 3, 6] [0, 3, 7] 3 [2, 1] [2, 0] 2 rfl rfl rfl rfl

/-- C24: PRIVATE build of sycl_matrixmult, for `Tile ≥ 1`, once a device is
selected and the buffers exist: when `Tile` does not divide `N` the program
prints "Error: In PRIVATE mode, N must be divisible by Tile." and returns
`EXIT_FAILURE` without submitting a kernel; when `Tile` divides `N` the number
of groups per axis `g = N / Tile` satisfies `g * Tile = N`. -/
theorem private_mode_divisibility (N Tile : Nat) (platforms : List (List Device))
    (fail : Option Step) (d : Device) (_hT : 1 ≤ Tile)
    (hsel : selectSycl platforms = Selection.found d)
    (hbuf : fail ≠ some Step.createBuffers) :
    (N % Tile ≠ 0 →
      mainSyclPrivate N Tile platforms fail
        = { exit := Exit.status EXIT_FAILURE, steps := [Step.createBuffers],
            stderr := [privateModeError] } ∧
      Step.submitKernel ∉ (mainSyclPrivate N Tile platforms fail).steps) ∧
    (N % Tile = 0 → (numGroups N Tile).1 * Tile = N ∧ (numGroups N Tile).2 * Tile = N) := by
  constructor
  · intro hdiv
    have h : mainSyclPrivate N Tile platforms fail
        = { exit := Exit.status EXIT_FAILURE, steps := [Step.createBuffers],
            stderr := [privateModeError] } := by
      unfold mainSyclPrivate
      rw [hsel]
      simp only [if_neg hbuf, if_pos hdiv]
    refine ⟨h, ?_⟩
    rw [h]
    decide
  · intro hdiv
    unfold numGroups
    exact ⟨Nat.div_mul_cancel (Nat.dvd_of_mod_eq_zero hdiv),
      Nat.div_mul_cancel (Nat.dvd_of_mod_eq_zero hdiv)⟩

/-- Witness of C24: `N = 10`, `Tile = 4` on one platform with one GPU. -/
theorem private_mode_divisibility_witness :
    (10 % 4 ≠ 0 →
      mainSyclPrivate 10 4 [[{ handle := 1, computeUnits := 8, isGpu := true }]] none
        = { exit := Exit.status EXIT_FAILURE, steps := [Step.createBuffers],
            stderr := [privateModeError] } ∧
      Step.submitKernel ∉
        (mainSyclPrivate 10 4 [[{ handle := 1, computeUnits := 8, isGpu := true }]] none).steps) ∧
    (10 % 4 = 0 → (numGroups 10 4).1 * 4 = 10 ∧ (numGroups 10 4).2 * 4 = 10) :=
  private_mode_divisibility 10 4 [[{ handle := 1, computeUnits := 8, isGpu := true }]] none
    { handle := 1, computeUnits := 8, isGpu := true } (by decide) (by decide) (by decide)

/-! ## Host histogram reference -/

theorem histAfter_getElem? (data hist : List Nat) (bins k j : Nat) :
    (histAfter data hist bins k)[j]?
      = if j < bins then some ((data.take k).count j) else (hist.drop bins)[j - bins]? := by
  unfold histAfter
  by_cases hj : j < bins
  · rw [if_pos hj, List.getElem?_append_left (by simpa using hj), List.getElem?_map,
      List.getElem?_range hj]
    rfl
  · rw [if_neg hj, List.getElem?_append_right (by simpa using Nat.le_of_not_lt hj)]
    simp

theorem histAfter_length (data hist : List Nat) (bins k : Nat) (hb : bins ≤ hist.length) :
    (histAfter data hist bins k).length = hist.length := by
  unfold histAfter
  simp only [List.length_append, List.length_map, List.length_range, List.length_drop]
  omega

theorem count_take_succ (data : List Nat) (k b : Nat) (hk : k < data.length) :
    (data.take (k + 1)).count b = (data.take k).count b + if data[k] = b then 1 else 0 := by
  rw [List.take_succ, List.getElem?_eq_getElem hk, List.count_append]
  simp only [Option.toList_some, List.count_cons, List.count_nil, Nat.zero_add, beq_iff_eq]

theorem count_take_le (data : List Nat) (k b : Nat) : (data.take k).count b ≤ k :=
  Nat.le_trans (List.count_le_length b (data.take k))
    (by rw [List.length_take]; exact Nat.min_le_left _ _)

theorem histStep_histAfter (data hist : List Nat) (N bins k : Nat) (hN : N < 4294967296)
    (hdata : data.length = N) (hb : bins ≤ hist.length) (hk : k < N) :
    histStep data bins (histAfter data hist bins k) k
      = some (histAfter data hist bins (k + 1)) := by
  have hkd : k < data.length := by omega
  unfold histStep
  rw [List.getElem?_eq_getElem hkd]
  simp only
  by_cases hv : data[k] < bins
  · rw [if_pos hv, histAfter_getElem?, if_pos hv]
    simp only
    have hle := count_take_le data k data[k]
    rw [u32_eq_self (by omega)]
    congr 1
    apply List.ext_getElem?
    intro j
    by_cases hj : j = data[k]
    · subst hj
      rw [List.getElem?_set_self (by rw [histAfter_length _ _ _ _ hb]; omega),
        histAfter_getElem?, if_pos hv, count_take_succ _ _ _ hkd, if_pos rfl]
    · rw [List.getElem?_set_ne (Ne.symm hj), histAfter_getElem?, histAfter_getElem?]
      by_cases hjb : j < bins
      · rw [if_pos hjb, if_pos hjb, count_take_succ _ _ _ hkd, if_neg (Ne.symm hj)]
        rfl
      · rw [if_neg hjb, if_neg hjb]
  · rw [if_neg hv]
    congr 1
    apply List.ext_getElem?
    intro j
    rw [histAfter_getElem?, histAfter_getElem?]
    by_cases hjb : j < bins
    · have hne : ¬ data[k] = j := by omega
      rw [if_pos hjb, if_pos hjb, count_take_succ _ _ _ hkd, if_neg hne]
      rfl
    · rw [if_neg hjb, if_neg hjb]

theorem fold_histStep (data hist : List Nat) (N bins k : Nat) (hN : N < 4294967296)
    (hdata : data.length = N) (hb : bins ≤ hist.length) (hk : k ≤ N) :
    (List.range k).foldlM (histStep data bins) (histAfter data hist bins 0)
      = some (histAfter data hist bins k) := by
  induction k with
  | zero => rfl
  | succ k ih =>
    rw [List.range_succ, List.foldlM_append, ih (Nat.le_of_lt hk)]
    simp only [Option.bind_eq_bind, Option.some_bind, List.foldlM_cons, List.foldlM_nil]
    rw [histStep_histAfter data hist N bins k hN hdata hb hk]
    rfl

theorem sum_indicator_range (a n : Nat) :
    ((List.range n).map fun b => if a = b then 1 else 0).sum = if a < n then 1 else 0 := by
  induction n with
  | zero => simp
  | succ n ih =>
    rw [List.range_succ, List.map_append, List.sum_append, ih]
    simp only [List.map_cons, List.map_nil, List.sum_cons, List.sum_nil, Nat.add_zero]
    by_cases h1 : a < n
    · have h2 : ¬ a = n := by omega
      have h3 : a < n + 1 := by omega
      rw [if_pos h1, if_neg h2, if_pos h3]
    · by_cases h2 : a = n
      · have h3 : a < n + 1 := by omega
        rw [if_neg h1, if_pos h2, if_pos h3]
      · have h3 : ¬ a < n + 1 := by omega
        rw [if_neg h1, if_neg h2, if_neg h3]

theorem sum_counts_range (data : List Nat) (bins : Nat) :
    ((List.range bins).map fun b => data.count b).sum = data.countP (fun v => decide (v < bins)) := by
  induction data with
  | nil => simp
  | cons a data ih =>
    have h : ((List.range bins).map fun b => (a :: data).count b)
        = (List.range bins).map fun b => data.count b + if a = b then 1 else 0 := by
      apply List.map_congr_left
      intro b _
      simp only [List.count_cons, beq_iff_eq]
    rw [h, List.sum_map_add, ih, sum_indicator_range, List.countP_cons]
    simp only [decide_eq_true_eq]

/-- C27: the host histogram reference. For every `N` (an `unsigned int`),
every `bins`, every `data` of length `N` and every prior content of `hist`
(at least `bins` elements), `histogram_ref` returns, each `hist[b]` with
`b < bins` is then the number of indices `i < N` with `data[i] = b`, values
`data[i] ≥ bins` are ignored, so the sum of the bins is the number of `i < N`
with `data[i] < bins` (`N` when every value is below `bins`); the elements of
`hist` from `bins` on are unchanged. -/
theorem histogram_ref_counts (data hist : List Nat) (N bins : Nat) (hN : N < 4294967296)
    (hdata : data.length = N) (hb : bins ≤ hist.length) :
    ∃ h, histogram_ref data hist N bins = some h ∧ h.length = hist.length ∧
      (∀ b, b < bins → h[b]? = some (data.count b)) ∧
      (h.take bins).sum = data.countP (fun v => decide (v < bins)) ∧
      ((∀ v ∈ data, v < bins) → (h.take bins).sum = N) ∧
      h.drop bins = hist.drop bins := by
  have hrun : histogram_ref data hist N bins = some (histAfter data hist bins N) := by
    unfold histogram_ref fillZero
    rw [if_pos hb]
    have h0 : List.replicate bins 0 ++ hist.drop bins = histAfter data hist bins 0 := by
      unfold histAfter
      congr 1
      apply List.ext_getElem?
      intro j
      by_cases hj : j < bins
      · rw [List.getElem?_replicate_of_lt hj, List.getElem?_map, List.getElem?_range hj]
        simp
      · rw [List.getElem?_eq_none (by simpa using Nat.le_of_not_lt hj),
          List.getElem?_eq_none (by simpa using Nat.le_of_not_lt hj)]
    rw [Option.some_bind, h0]
    exact fold_histStep data hist N bins N hN hdata hb (Nat.le_refl N)
  have htake : data.take N = data := by
    rw [← hdata]
    exact List.take_length data
  have hlen : ((List.range bins).map fun b => (data.take N).count b).length = bins := by simp
  have hsum : ((histAfter data hist bins N).take bins).sum
      = data.countP (fun v => decide (v < bins)) := by
    unfold histAfter
    rw [List.take_left' hlen, htake]
    exact sum_counts_range data bins
  refine ⟨_, hrun, histAfter_length data hist bins N hb, ?_, hsum, ?_, ?_⟩
  · intro b hbb
    rw [histAfter_getElem?, if_pos hbb, htake]
  · intro hall
    rw [hsum, ← hdata]
    rw [List.countP_eq_length]
    intro v hv
    simpa using hall v hv
  · unfold histAfter
    rw [List.drop_left' hlen]

/-- Witness of C27: six values over four bins, one value (9) outside. -/
theorem histogram_ref_counts_witness :
    ∃ h, histogram_ref [1, 3, 1, 9, 0, 1] [7, 7, 7, 7, 7] 6 4 = some h ∧
      h.length = [7, 7, 7, 7, 7].length ∧
      (∀ b, b < 4 → h[b]? = some ([1, 3, 1, 9, 0, 1].count b)) ∧
      (h.take 4).sum = [1, 3, 1, 9, 0, 1].countP (fun v => decide (v < 4)) ∧
      ((∀ v ∈ [1, 3, 1, 9, 0, 1], v < 4) → (h.take 4).sum = 6) ∧
      h.drop 4 = [7, 7, 7, 7, 7].drop 4 :=
  histogram_ref_counts [1, 3, 1, 9, 0, 1] [7, 7, 7, 7, 7] 6 4 (by decide) rfl (by decide)

/-! ## One writer per element -/

theorem mem_dispatchUnits_iff {N T : Nat} {u : Nat × Nat × Nat × Nat} :
    u ∈ dispatchUnits N T ↔ u.1 < N / T ∧ u.2.1 < N / T ∧ u.2.2.1 < T ∧ u.2.2.2 < T := by
  constructor
  · exact mem_dispatchUnits_local
  · rintro ⟨h0, h1, h2, h3⟩
    simp only [dispatchUnits, globalSize, localSize, List.mem_flatMap, List.mem_map,
      List.mem_range]
    exact ⟨u.1, h0, u.2.1, h1, u.2.2.1, h2, u.2.2.2, h3, rfl⟩

theorem group_coord_lt {N T g t : Nat} (hg : g < N / T) (ht : t < T) : g * T + t < N := by
  have h1 : N / T * T ≤ N := Nat.div_mul_le_self N T
  have h2 : (g + 1) * T ≤ N / T * T := Nat.mul_le_mul_right T hg
  have h3 : (g + 1) * T = g * T + T := Nat.succ_mul g T
  omega

theorem group_coord_inj {T g t g' t' : Nat} (ht : t < T) (ht' : t' < T)
    (h : g * T + t = g' * T + t') : g = g' ∧ t = t' := by
  have hT : 0 < T := Nat.lt_of_le_of_lt (Nat.zero_le t) ht
  have hd : ∀ g t, t < T → (g * T + t) / T = g := by
    intro g t ht
    rw [Nat.add_comm, Nat.add_mul_div_right _ _ hT, Nat.div_eq_of_lt ht, Nat.zero_add]
  have hm : ∀ g t, t < T → (g * T + t) % T = t := by
    intro g t ht
    rw [Nat.add_comm, Nat.add_mul_mod_self_right, Nat.mod_eq_of_lt ht]
  constructor
  · rw [← hd g t ht, ← hd g' t' ht', h]
  · rw [← hm g t ht, ← hm g' t' ht', h]

theorem nodup_flatMap_range {α : Type} (n : Nat) (f : Nat → List α)
    (h1 : ∀ i, (f i).Nodup) (h2 : ∀ i j x, x ∈ f i → x ∈ f j → i = j) :
    ((List.range n).flatMap f).Nodup := by
  induction n with
  | zero => simp
  | succ n ih =>
    rw [List.range_succ, List.flatMap_append, List.nodup_append]
    refine ⟨ih, by simpa using h1 n, ?_⟩
    intro x hx hx'
    simp only [List.mem_flatMap, List.mem_range, List.mem_singleton] at hx hx'
    obtain ⟨i, hi, hxi⟩ := hx
    obtain ⟨j, rfl, hxj⟩ := hx'
    have := h2 i j x hxi hxj
    omega

theorem dispatchUnits_nodup (N T : Nat) : (dispatchUnits N T).Nodup := by
  unfold dispatchUnits
  apply nodup_flatMap_range
  · intro g0
    apply nodup_flatMap_range
    · intro g1
      apply nodup_flatMap_range
      · intro tx
        apply List.Nodup.map _ (List.nodup_range _)
        intro a b h
        simp only [Prod.mk.injEq, true_and] at h
        exact h
      · intro i j x hi hj
        simp only [List.mem_map, List.mem_range] at hi hj
        obtain ⟨_, _, rfl⟩ := hi
        obtain ⟨_, _, h⟩ := hj
        simp only [Prod.mk.injEq] at h
        exact h.2.2.1.symm
    · intro i j x hi hj
      simp only [List.mem_flatMap, List.mem_map, List.mem_range] at hi hj
      obtain ⟨_, _, _, _, rfl⟩ := hi
      obtain ⟨_, _, _, _, h⟩ := hj
      simp only [Prod.mk.injEq] at h
      exact h.2.1.symm
  · intro i j x hi hj
    simp only [List.mem_flatMap, List.mem_map, List.mem_range] at hi hj
    obtain ⟨_, _, _, _, _, _, rfl⟩ := hi
    obtain ⟨_, _, _, _, _, _, h⟩ := hj
    simp only [Prod.mk.injEq] at h
    exact h.1.symm

theorem unit_coords {N T : Nat} {u : Nat × Nat × Nat × Nat} (hN : N < 4294967296)
    (hu : u ∈ dispatchUnits N T) :
    rowOf T u.1 u.2.2.1 = u.1 * T + u.2.2.1 ∧ colOf T u.2.1 u.2.2.2 = u.2.1 * T + u.2.2.2 ∧
    u.1 * T + u.2.2.1 < N ∧ u.2.1 * T + u.2.2.2 < N := by
  obtain ⟨h0, h1, h2, h3⟩ := mem_dispatchUnits_local hu
  have hr := group_coord_lt h0 h2
  have hc := group_coord_lt h1 h3
  exact ⟨u32_eq_self (by omega), u32_eq_self (by omega), hr, hc⟩

theorem unit_eq_of_coords {N T : Nat} {u v : Nat × Nat × Nat × Nat} (hN : N < 4294967296)
    (hu : u ∈ dispatchUnits N T) (hv : v ∈ dispatchUnits N T)
    (hr : rowOf T u.1 u.2.2.1 = rowOf T v.1 v.2.2.1)
    (hc : colOf T u.2.1 u.2.2.2 = colOf T v.2.1 v.2.2.2) : u = v := by
  obtain ⟨hur, huc, _, _⟩ := unit_coords hN hu
  obtain ⟨hvr, hvc, _, _⟩ := unit_coords hN hv
  obtain ⟨_, _, hu2, hu3⟩ := mem_dispatchUnits_local hu
  obtain ⟨_, _, hv2, hv3⟩ := mem_dispatchUnits_local hv
  rw [hur, hvr] at hr
  rw [huc, hvc] at hc
  obtain ⟨e0, e2⟩ := group_coord_inj hu2 hv2 hr
  obtain ⟨e1, e3⟩ := group_coord_inj hu3 hv3 hc
  obtain ⟨u0, u1, u2, u3⟩ := u
  obtain ⟨v0, v1, v2, v3⟩ := v
  simp only at e0 e1 e2 e3
  rw [e0, e1, e2, e3]

theorem unit_eq_of_index {N T : Nat} {u v : Nat × Nat × Nat × Nat}
    (hNN : N * N ≤ 4294967296) (hu : u ∈ dispatchUnits N T) (hv : v ∈ dispatchUnits N T)
    (h : idxC N (rowOf T u.1 u.2.2.1) (colOf T u.2.1 u.2.2.2)
        = idxC N (rowOf T v.1 v.2.2.1) (colOf T v.2.1 v.2.2.2)) : u = v := by
  have hN : N < 4294967296 := by
    have := le_of_mul_self_le hNN
    omega
  obtain ⟨hur, huc, hur', huc'⟩ := unit_coords hN hu
  obtain ⟨hvr, hvc, hvr', hvc'⟩ := unit_coords hN hv
  apply unit_eq_of_coords hN hu hv
  · rw [hur, huc, hvr, hvc, idxC_eq hNN hur' huc', idxC_eq hNN hvr' hvc'] at h
    rw [hur, hvr]
    exact (group_coord_inj huc' hvc' h).1
  · rw [hur, huc, hvr, hvc, idxC_eq hNN hur' huc', idxC_eq hNN hvr' hvc'] at h
    rw [huc, hvc]
    exact (group_coord_inj huc' hvc' h).2

theorem storeC_comm (C : List Int) (i j : Nat) (a b : Int) (h : i ≠ j) :
    (storeC C i a).bind (fun C1 => storeC C1 j b)
      = (storeC C j b).bind (fun C1 => storeC C1 i a) := by
  unfold storeC
  by_cases hi : i < C.length
  · by_cases hj : j < C.length
    · simp only [hi, hj, if_true, Option.some_bind, List.length_set, List.set_comm a b C h]
    · simp only [hi, hj, if_true, if_false, Option.some_bind, Option.none_bind,
        List.length_set]
  · by_cases hj : j < C.length
    · simp only [hi, hj, if_true, if_false, Option.some_bind, Option.none_bind,
        List.length_set]
    · simp only [hi, hj, if_false, Option.none_bind]

theorem runUnit_comm (A B : List Int) (N T : Nat) (u v : Nat × Nat × Nat × Nat)
    (h : u = v ∨ idxC N (rowOf T u.1 u.2.2.1) (colOf T u.2.1 u.2.2.2)
        ≠ idxC N (rowOf T v.1 v.2.2.1) (colOf T v.2.1 v.2.2.2))
    (z : Option (List Int)) :
    (z.bind fun C => runUnit A B C N T u.1 u.2.1 u.2.2.1 u.2.2.2).bind
        (fun C => runUnit A B C N T v.1 v.2.1 v.2.2.1 v.2.2.2)
      = (z.bind fun C => runUnit A B C N T v.1 v.2.1 v.2.2.1 v.2.2.2).bind
        (fun C => runUnit A B C N T u.1 u.2.1 u.2.2.1 u.2.2.2) := by
  rcases h with rfl | h
  · rfl
  · cases z with
    | none => rfl
    | some C =>
      simp only [Option.some_bind]
      unfold runUnit
      cases unitSum A B N T u.1 u.2.1 u.2.2.1 u.2.2.2 with
      | none =>
        cases unitSum A B N T v.1 v.2.1 v.2.2.1 v.2.2.2 with
        | none => rfl
        | some sv =>
          simp only [Option.none_bind]
          split <;> simp [storeC]
      | some su =>
        cases unitSum A B N T v.1 v.2.1 v.2.2.1 v.2.2.2 with
        | none =>
          simp only [Option.none_bind]
          split <;> simp [storeC]
        | some sv =>
          simp only
          by_cases hu : rowOf T u.1 u.2.2.1 < N ∧ colOf T u.2.1 u.2.2.2 < N
          · by_cases hv : rowOf T v.1 v.2.2.1 < N ∧ colOf T v.2.1 v.2.2.2 < N
            · simp only [if_pos hu, if_pos hv]
              exact storeC_comm C _ _ su sv h
            · simp only [if_pos hu, if_neg hv, Option.some_bind]
              cases storeC C (idxC N (rowOf T u.1 u.2.2.1) (colOf T u.2.1 u.2.2.2)) su <;> rfl
          · by_cases hv : rowOf T v.1 v.2.2.1 < N ∧ colOf T v.2.1 v.2.2.2 < N
            · simp only [if_neg hu, if_pos hv, Option.some_bind]
              cases storeC C (idxC N (rowOf T v.1 v.2.2.1) (colOf T v.2.1 v.2.2.2)) sv <;> rfl
            · simp only [if_neg hu, if_neg hv, Option.some_bind]

theorem foldlM_eq_foldl_bind {σ α : Type} (f : σ → α → Option σ) (l : List α)
    (o : Option σ) :
    o.bind (fun s => l.foldlM f s) = l.foldl (fun o x => o.bind fun s => f s x) o := by
  induction l generalizing o with
  | nil => cases o <;> rfl
  | cons a l ih =>
    rw [List.foldl_cons, ← ih]
    cases o with
    | none => rfl
    | some s => simp only [Option.some_bind, List.foldlM_cons, Option.bind_eq_bind]

theorem runUnits_perm (A B C : List Int) (N T : Nat) (hNN : N * N ≤ 4294967296)
    (order : List (Nat × Nat × Nat × Nat)) (hp : (dispatchUnits N T).Perm order) :
    runUnits A B C N T order = runKernel A B C N T := by
  have h1 := foldlM_eq_foldl_bind
    (fun C (u : Nat × Nat × Nat × Nat) => runUnit A B C N T u.1 u.2.1 u.2.2.1 u.2.2.2)
    order (some C)
  have h2 := foldlM_eq_foldl_bind
    (fun C (u : Nat × Nat × Nat × Nat) => runUnit A B C N T u.1 u.2.1 u.2.2.1 u.2.2.2)
    (dispatchUnits N T) (some C)
  rw [Option.some_bind] at h1 h2
  unfold runUnits runKernel
  rw [h1, h2]
  symm
  apply List.Perm.foldl_eq' hp
  intro x hx y hy z
  apply runUnit_comm
  by_cases hxy : x = y
  · exact Or.inl hxy
  · exact Or.inr (fun h => hxy (unit_eq_of_index hNN hx hy h))

/-- C30 (amended): for `T ≥ 1` dividing `N` (an `unsigned int`), the map
sending the unit `(group0, group1, tx, ty)` of the dispatch, with groups in
`[0, N/T)` and local ids in `[0, T)`, to `(row, col) = (group0*T + tx,
group1*T + ty)` is a bijection onto `[0, N)^2`, and the dispatch lists every
unit once. When `N * N ≤ 2 ^ 32`, so that the index `row * N + col` does not
wrap, every element of `C` is written by exactly one unit, and the result of
the kernel is the same in whatever order the units run. -/
theorem each_element_one_writer (A B C : List Int) (N T : Nat) (hT : 1 ≤ T) (hdvd : T ∣ N)
    (hN : N < 4294967296) :
    (dispatchUnits N T).Nodup ∧
    (∀ u ∈ dispatchUnits N T, rowOf T u.1 u.2.2.1 < N ∧ colOf T u.2.1 u.2.2.2 < N) ∧
    (∀ u ∈ dispatchUnits N T, ∀ v ∈ dispatchUnits N T,
      rowOf T u.1 u.2.2.1 = rowOf T v.1 v.2.2.1 →
      colOf T u.2.1 u.2.2.2 = colOf T v.2.1 v.2.2.2 → u = v) ∧
    (∀ row col, row < N → col < N →
      ∃ u ∈ dispatchUnits N T, rowOf T u.1 u.2.2.1 = row ∧ colOf T u.2.1 u.2.2.2 = col) ∧
    (N * N ≤ 4294967296 →
      (∀ u ∈ dispatchUnits N T, ∀ v ∈ dispatchUnits N T,
        idxC N (rowOf T u.1 u.2.2.1) (colOf T u.2.1 u.2.2.2)
          = idxC N (rowOf T v.1 v.2.2.1) (colOf T v.2.1 v.2.2.2) → u = v) ∧
      (∀ order, (dispatchUnits N T).Perm order →
        runUnits A B C N T order = runKernel A B C N T)) := by
  refine ⟨dispatchUnits_nodup N T, ?_, ?_, ?_, ?_⟩
  · intro u hu
    obtain ⟨hr, hc, hr', hc'⟩ := unit_coords hN hu
    rw [hr, hc]
    exact ⟨hr', hc'⟩
  · intro u hu v hv hr hc
    exact unit_eq_of_coords hN hu hv hr hc
  · intro row col hrow hcol
    have hTpos : 0 < T := hT
    have hu : (row / T, col / T, row % T, col % T) ∈ dispatchUnits N T :=
      mem_dispatchUnits_iff.mpr
        ⟨Nat.div_lt_div_of_lt_of_dvd hdvd hrow, Nat.div_lt_div_of_lt_of_dvd hdvd hcol,
          Nat.mod_lt _ hTpos, Nat.mod_lt _ hTpos⟩
    refine ⟨_, hu, ?_, ?_⟩
    · rw [(unit_coords hN hu).1]
      exact Nat.div_add_mod' row T
    · rw [(unit_coords hN hu).2.1]
      exact Nat.div_add_mod' col T
  · intro hNN
    exact ⟨fun u hu v hv h => unit_eq_of_index hNN hu hv h,
      fun order hp => runUnits_perm A B C N T hNN order hp⟩

/-- Witness of C30 (amended): `N = 4`, `T = 2` on the scenario operands. -/
theorem each_element_one_writer_witness :
    (dispatchUnits 4 2).Nodup ∧
    (∀ u ∈ dispatchUnits 4 2, rowOf 2 u.1 u.2.2.1 < 4 ∧ colOf 2 u.2.1 u.2.2.2 < 4) ∧
    (∀ u ∈ dispatchUnits 4 2, ∀ v ∈ dispatchUnits 4 2,
      rowOf 2 u.1 u.2.2.1 = rowOf 2 v.1 v.2.2.1 →
      colOf 2 u.2.1 u.2.2.2 = colOf 2 v.2.1 v.2.2.2 → u = v) ∧
    (∀ row col, row < 4 → col < 4 →
      ∃ u ∈ dispatchUnits 4 2, rowOf 2 u.1 u.2.2.1 = row ∧ colOf 2 u.2.1 u.2.2.2 = col) ∧
    (4 * 4 ≤ 4294967296 →
      (∀ u ∈ dispatchUnits 4 2, ∀ v ∈ dispatchUnits 4 2,
        idxC 4 (rowOf 2 u.1 u.2.2.1) (colOf 2 u.2.1 u.2.2.2)
          = idxC 4 (rowOf 2 v.1 v.2.2.1) (colOf 2 v.2.1 v.2.2.2) → u = v) ∧
      (∀ order, (dispatchUnits 4 2).Perm order →
        runUnits (hostA 4) (hostB 4) (List.replicate 16 0) 4 2 order
          = runKernel (hostA 4) (hostB 4) (List.replicate 16 0) 4 2)) :=
  each_element_one_writer (hostA 4) (hostB 4) (List.replicate 16 0) 4 2 (by decide)
    (by decide) (by decide)

/-- C30 as stated, for every `N`, fails where `row * N + col` wraps: for
`N = 65537`, `T = 1` the units of `(65536, 65536)` and of `(1, 65535)` are
both in the dispatch and in bounds, and both write `C[131072]`. -/
theorem two_writers_when_index_wraps :
    (65536, 65536, 0, 0) ∈ dispatchUnits 65537 1 ∧ (1, 65535, 0, 0) ∈ dispatchUnits 65537 1 ∧
    rowOf 1 65536 0 < 65537 ∧ colOf 1 65536 0 < 65537 ∧
    rowOf 1 1 0 < 65537 ∧ colOf 1 65535 0 < 65537 ∧
    idxC 65537 (rowOf 1 65536 0) (colOf 1 65536 0) = 131072 ∧
    idxC 65537 (rowOf 1 1 0) (colOf 1 65535 0) = 131072 := by
  refine ⟨mem_dispatchUnits_iff.mpr (by decide), mem_dispatchUnits_iff.mpr (by decide),
    by decide, by decide, by decide, by decide, by decide, by decide⟩

/-! ## Hierarchical kernel -/

theorem tileAt_privateStageA (A : List Int) (N T g0 t : Nat) {i j : Nat} (hi : i < T)
    (hj : j < T) :
    tileAt (privateStageA A N T g0 t) i j
      = privateLoadA A N (rowOf T g0 i) (tileBase T t) j := by
  simp [tileAt, privateStageA, List.getElem?_map, List.getElem?_range, hi, hj]

theorem tileAt_privateStageB (B : List Int) (N T g1 t : Nat) {i j : Nat} (hi : i < T)
    (hj : j < T) :
    tileAt (privateStageB B N T g1 t) i j
      = privateLoadB B N (colOf T g1 j) (tileBase T t) i := by
  simp [tileAt, privateStageB, List.getElem?_map, List.getElem?_range, hi, hj]

theorem private_coords {N T g t : Nat} (hg : g < N / T) (ht : t < T) :
    u32 (g * T + t) < N ∧ u32 (tileBase T g + t) < N := by
  have h := group_coord_lt hg ht
  have h1 := u32_le (g * T + t)
  have h2 := u32_le (tileBase T g + t)
  have h3 : tileBase T g ≤ g * T := u32_le (g * T)
  omega

theorem private_index_lt {N T g0 g1 tx ty t kl : Nat} (hg0 : g0 < N / T) (hg1 : g1 < N / T)
    (htx : tx < T) (hty : ty < T) (ht : t < N / T) (hkl : kl < T) :
    idxA N (rowOf T g0 tx) (tileBase T t) kl < N * N ∧
    idxB N (colOf T g1 ty) (tileBase T t) kl < N * N := by
  exact ⟨idxA_lt (private_coords hg0 htx).1 (private_coords ht hkl).2,
    idxB_lt (private_coords ht hkl).2 (private_coords hg1 hty).1⟩

theorem privateLoopCount_le (N T : Nat) : privateLoopCount N T ≤ N / T := by
  unfold privateLoopCount intLoopCount
  split
  · exact Nat.le_refl _
  · exact Nat.zero_le _

theorem privateUnitSum_eq (A B : List Int) (N T g0 g1 tx ty : Nat)
    (hA : A.length = N * N) (hB : B.length = N * N) (hg0 : g0 < N / T) (hg1 : g1 < N / T)
    (htx : tx < T) (hty : ty < T) :
    privateUnitSum A B N T g0 g1 tx ty
      = some (((List.range (privateLoopCount N T)).map fun t =>
          ((List.range T).map (privateTerm A B N T g0 g1 tx ty t)).sum).sum) := by
  unfold privateUnitSum
  rw [foldlM_add_terms _
    (fun t => ((List.range T).map (privateTerm A B N T g0 g1 tx ty t)).sum)]
  · simp
  · intro t ht r
    have htl : t < N / T :=
      Nat.lt_of_lt_of_le (List.mem_range.mp ht) (privateLoopCount_le N T)
    unfold dotTile
    apply foldlM_add_terms
    intro kl hkl r'
    have hk : kl < T := List.mem_range.mp hkl
    have hi := private_index_lt hg0 hg1 htx hty htl hk
    unfold dotStep
    rw [tileAt_privateStageA A N T g0 t htx hk, tileAt_privateStageB B N T g1 t hk hty]
    unfold privateLoadA privateLoadB
    rw [getElem?_eq_some_getD (hA ▸ hi.1), getElem?_eq_some_getD (hB ▸ hi.2)]
    rfl

theorem privateTerm_eq_productTerm (A B : List Int) {N T g0 g1 tx ty t kl : Nat}
    (hNN : N * N ≤ 4294967296) (hg0 : g0 < N / T) (hg1 : g1 < N / T)
    (htx : tx < T) (hty : ty < T) (ht : t < N / T) (hkl : kl < T) :
    privateTerm A B N T g0 g1 tx ty t kl
      = productTerm A B N (g0 * T + tx) (g1 * T + ty) (t * T + kl) := by
  have hN := le_of_mul_self_le hNN
  have hrow := group_coord_lt hg0 htx
  have hcol := group_coord_lt hg1 hty
  have hk := group_coord_lt ht hkl
  have hr : rowOf T g0 tx = g0 * T + tx := u32_eq_self (by omega)
  have hc : colOf T g1 ty = g1 * T + ty := u32_eq_self (by omega)
  have hb : tileBase T t = t * T := u32_eq_self (by omega)
  have hu : u32 (t * T + kl) = t * T + kl := u32_eq_self (by omega)
  have ha := row_mul_add_lt hrow hk
  have hbb := row_mul_add_lt hk hcol
  have h1 : (g0 * T + tx) * N ≤ (g0 * T + tx) * N + (t * T + kl) := Nat.le_add_right _ _
  have h2 : (t * T + kl) * N ≤ (t * T + kl) * N + (g1 * T + ty) := Nat.le_add_right _ _
  unfold privateTerm productTerm idxA idxB
  rw [hr, hc, hb, hu, u32_eq_self (by omega : (g0 * T + tx) * N < 4294967296),
    u32_eq_self (by omega : (t * T + kl) * N < 4294967296),
    u32_eq_self (by omega : (g0 * T + tx) * N + (t * T + kl) < 4294967296),
    u32_eq_self (by omega : (t * T + kl) * N + (g1 * T + ty) < 4294967296)]

theorem privateUnitSum_eq_product (A B : List Int) (N T g0 g1 tx ty : Nat)
    (hA : A.length = N * N) (hB : B.length = N * N) (hdvd : T ∣ N)
    (hNN : N * N ≤ 4294967296) (hg0 : g0 < N / T) (hg1 : g1 < N / T)
    (htx : tx < T) (hty : ty < T) :
    privateUnitSum A B N T g0 g1 tx ty
      = some (productEntry A B N (g0 * T + tx) (g1 * T + ty)) := by
  have hN := le_of_mul_self_le hNN
  have hcnt : privateLoopCount N T = N / T := by
    unfold privateLoopCount
    apply intLoopCount_eq
    have : N / T ≤ N := Nat.div_le_self _ _
    omega
  rw [privateUnitSum_eq A B N T g0 g1 tx ty hA hB hg0 hg1 htx hty, hcnt]
  have h1 : ((List.range (N / T)).map fun t =>
        ((List.range T).map (privateTerm A B N T g0 g1 tx ty t)).sum)
      = (List.range (N / T)).map fun t =>
        ((List.range T).map fun kl =>
          productTerm A B N (g0 * T + tx) (g1 * T + ty) (t * T + kl)).sum := by
    apply List.map_congr_left
    intro t ht
    congr 1
    apply List.map_congr_left
    intro kl hkl
    exact privateTerm_eq_productTerm A B hNN hg0 hg1 htx hty (List.mem_range.mp ht)
      (List.mem_range.mp hkl)
  rw [h1, sum_tiles_flat (productTerm A B N (g0 * T + tx) (g1 * T + ty)) T (N / T),
    Nat.div_mul_cancel hdvd]
  rfl

theorem sum_map_range_const (f : Nat → Int) (c : Int) (n : Nat)
    (h : ∀ k, k < n → f k = c) : ((List.range n).map f).sum = n * c := by
  induction n with
  | zero => simp
  | succ n ih =>
    rw [List.range_succ, List.map_append, List.sum_append,
      ih (fun k hk => h k (Nat.lt_succ_of_lt hk))]
    simp only [List.map_cons, List.map_nil, List.sum_cons, List.sum_nil, add_zero,
      h n (Nat.lt_succ_self n)]
    push_cast
    ring

theorem getD_replicate_of_lt {n i : Nat} (a d : Int) (h : i < n) :
    (List.replicate n a).getD i d = a := by
  rw [List.getD_eq_getElem?_getD, List.getElem?_replicate_of_lt h]
  rfl

/-- C29 (amended): the hierarchical kernel on operands of length `N * N`, for
`Tile ≥ 1` dividing `N` and a unit of group `(g0, g1)` in `[0, N/Tile)^2` with
local id `(tx, ty)` in `[0, Tile)^2`. Every index at which the unit reads `A`
or `B` or writes `C` is below `N * N`, and the unit runs to its end; when
`N * N ≤ 2 ^ 32`, so that the 32-bit index expressions do not wrap, the value
written to `C[row * N + col]` is the sum over `k` in `[0, N)` of
`A[row * N + k] * B[k * N + col]`. -/
theorem hierarchical_unit_product (A B C : List Int) (N T g0 g1 tx ty : Nat)
    (hA : A.length = N * N) (hB : B.length = N * N) (hC : C.length = N * N)
    (_hT : 1 ≤ T) (hdvd : T ∣ N) (hg0 : g0 < N / T) (hg1 : g1 < N / T)
    (htx : tx < T) (hty : ty < T) :
    (∀ t kl, t < N / T → kl < T →
      idxA N (rowOf T g0 tx) (tileBase T t) kl < N * N ∧
      idxB N (colOf T g1 ty) (tileBase T t) kl < N * N) ∧
    idxC N (rowOf T g0 tx) (colOf T g1 ty) < N * N ∧
    (∃ v, privateRunUnit A B C N T g0 g1 tx ty
      = some (C.set (idxC N (rowOf T g0 tx) (colOf T g1 ty)) v)) ∧
    (N * N ≤ 4294967296 →
      privateRunUnit A B C N T g0 g1 tx ty
        = some (C.set ((g0 * T + tx) * N + (g1 * T + ty))
            (productEntry A B N (g0 * T + tx) (g1 * T + ty)))) := by
  have hr := (private_coords hg0 htx).1
  have hc := (private_coords hg1 hty).1
  have hi : idxC N (rowOf T g0 tx) (colOf T g1 ty) < N * N := idxC_lt hr hc
  refine ⟨fun t kl ht hkl => private_index_lt hg0 hg1 htx hty ht hkl, hi, ?_, ?_⟩
  · refine ⟨((List.range (privateLoopCount N T)).map fun t =>
      ((List.range T).map (privateTerm A B N T g0 g1 tx ty t)).sum).sum, ?_⟩
    unfold privateRunUnit
    rw [privateUnitSum_eq A B N T g0 g1 tx ty hA hB hg0 hg1 htx hty]
    exact storeC_eq_some _ (hC ▸ hi)
  · intro hNN
    have hN := le_of_mul_self_le hNN
    have hrow := group_coord_lt hg0 htx
    have hcol := group_coord_lt hg1 hty
    have hr' : rowOf T g0 tx = g0 * T + tx := u32_eq_self (by omega)
    have hc' : colOf T g1 ty = g1 * T + ty := u32_eq_self (by omega)
    unfold privateRunUnit
    rw [privateUnitSum_eq_product A B N T g0 g1 tx ty hA hB hdvd hNN hg0 hg1 htx hty]
    simp only
    rw [hr', hc', idxC_eq hNN hrow hcol]
    exact storeC_eq_some _ (hC ▸ row_mul_add_lt hrow hcol)

/-- Witness of C29 (amended): `N = 4`, `Tile = 2`, the unit of row 3 and
column 2. -/
theorem hierarchical_unit_product_witness :
    (∀ t kl, t < 4 / 2 → kl < 2 →
      idxA 4 (rowOf 2 1 1) (tileBase 2 t) kl < 4 * 4 ∧
      idxB 4 (colOf 2 1 0) (tileBase 2 t) kl < 4 * 4) ∧
    idxC 4 (rowOf 2 1 1) (colOf 2 1 0) < 4 * 4 ∧
    (∃ v, privateRunUnit (hostA 4) (hostB 4) (List.replicate 16 0) 4 2 1 1 1 0
      = some ((List.replicate 16 0).set (idxC 4 (rowOf 2 1 1) (colOf 2 1 0)) v)) ∧
    (4 * 4 ≤ 4294967296 →
      privateRunUnit (hostA 4) (hostB 4) (List.replicate 16 0) 4 2 1 1 1 0
        = some ((List.replicate 16 0).set ((1 * 2 + 1) * 4 + (1 * 2 + 0))
            (productEntry (hostA 4) (hostB 4) 4 (1 * 2 + 1) (1 * 2 + 0)))) :=
  hierarchical_unit_product (hostA 4) (hostB 4) (List.replicate 16 0) 4 2 1 1 1 0
    (by decide) (by decide) (by decide) (by decide) (by decide) (by decide) (by decide)
    (by decide) (by decide)

/-- C29 as stated, for every `N`, fails where the tile count `N / Tile` does
not fit the kernel's `int`: for `N = 2 ^ 31`, `Tile = 1` and operands of ones
the loop does not run and the unit of `(0, 0)` writes `0` to `C[0]`, while the
product entry is `2 ^ 31`. -/
theorem hierarchical_unit_writes_zero_when_count_negative :
    hugeOnes.length = 2147483648 * 2147483648 ∧ 1 ∣ 2147483648 ∧
    privateRunUnit hugeOnes hugeOnes hugeOnes 2147483648 1 0 0 0 0
      = some (hugeOnes.set 0 0) ∧
    productEntry hugeOnes hugeOnes 2147483648 0 0 = 2147483648 := by
  have hlen : hugeOnes.length = 2147483648 * 2147483648 := by
    unfold hugeOnes
    rw [List.length_replicate]
  refine ⟨hlen, one_dvd _, ?_, ?_⟩
  · have hcnt : privateLoopCount 2147483648 1 = 0 := by decide
    have hidx : idxC 2147483648 (rowOf 1 0 0) (colOf 1 0 0) = 0 := by decide
    unfold privateRunUnit privateUnitSum
    rw [hcnt, hidx]
    simp only [List.range_zero, List.foldlM_nil]
    exact storeC_eq_some _ (by rw [hlen]; norm_num)
  · unfold productEntry
    rw [sum_map_range_const _ 1 2147483648]
    · norm_num
    · intro k hk
      unfold hugeOnes
      rw [getD_replicate_of_lt 1 0 (by omega), getD_replicate_of_lt 1 0 (by omega)]
      rfl

/-! ## Transposed host reference -/

theorem foldlM_nested {σ α β : Type} (l1 : List α) (l2 : List β)
    (f : σ → α → β → Option σ) (s0 : σ) :
    l1.foldlM (fun s a => l2.foldlM (fun s b => f s a b) s) s0
      = (l1.flatMap fun a => l2.map fun b => (a, b)).foldlM (fun s p => f s p.1 p.2) s0 := by
  induction l1 generalizing s0 with
  | nil => rfl
  | cons a l1 ih =>
    rw [List.foldlM_cons, List.flatMap_cons, List.foldlM_append, List.foldlM_map]
    cases l2.foldlM (fun s b => f s a b) s0 with
    | none => rfl
    | some s1 => exact ih s1

theorem mem_indexPairs {N : Nat} {p : Nat × Nat} : p ∈ indexPairs N ↔ p.1 < N ∧ p.2 < N := by
  simp only [indexPairs, List.mem_flatMap, List.mem_map, List.mem_range]
  constructor
  · rintro ⟨i, hi, j, hj, rfl⟩
    exact ⟨hi, hj⟩
  · rintro ⟨hi, hj⟩
    exact ⟨p.1, hi, p.2, hj, rfl⟩

theorem indexPairs_nodup (N : Nat) : (indexPairs N).Nodup := by
  unfold indexPairs
  apply nodup_flatMap_range
  · intro i
    apply List.Nodup.map _ (List.nodup_range _)
    intro a b h
    simp only [Prod.mk.injEq, true_and] at h
    exact h
  · intro i j x hi hj
    simp only [List.mem_map, List.mem_range] at hi hj
    obtain ⟨_, _, rfl⟩ := hi
    obtain ⟨_, _, h⟩ := hj
    simp only [Prod.mk.injEq] at h
    exact h.1.symm

/-- A loop of stores `C[φ x] = v x` at pairwise distinct indices inside the
buffer succeeds; afterwards every `C[φ x]` holds `v x` and the other elements
are unchanged. -/
theorem fold_store_pointwise {α : Type} (φ : α → Nat) (v : α → Int) (l : List α) :
    ∀ (C0 : List Int), l.Nodup → (∀ x ∈ l, ∀ y ∈ l, φ x = φ y → x = y) →
      (∀ x ∈ l, φ x < C0.length) →
      ∃ S, l.foldlM (fun C x => storeC C (φ x) (v x)) C0 = some S ∧
        S.length = C0.length ∧ (∀ x ∈ l, S[φ x]? = some (v x)) ∧
        ∀ p, (∀ x ∈ l, φ x ≠ p) → S[p]? = C0[p]? := by
  induction l with
  | nil =>
    intro C0 _ _ _
    exact ⟨C0, rfl, rfl, fun x hx => absurd hx (List.not_mem_nil x), fun _ _ => rfl⟩
  | cons a l ih =>
    intro C0 hnd hinj hlt
    have ha : φ a < C0.length := hlt a (List.mem_cons_self a l)
    have hnd' := List.nodup_cons.mp hnd
    have hlen1 : (C0.set (φ a) (v a)).length = C0.length := List.length_set _ _ _
    obtain ⟨S, hS, hSlen, hSval, hSframe⟩ := ih (C0.set (φ a) (v a)) hnd'.2
      (fun x hx y hy h => hinj x (List.mem_cons_of_mem a hx) y (List.mem_cons_of_mem a hy) h)
      (fun x hx => by rw [hlen1]; exact hlt x (List.mem_cons_of_mem a hx))
    refine ⟨S, ?_, by rw [hSlen, hlen1], ?_, ?_⟩
    · rw [List.foldlM_cons, storeC_eq_some _ ha]
      exact hS
    · intro x hx
      rcases List.mem_cons.mp hx with rfl | hx'
      · have hne : ∀ y ∈ l, φ y ≠ φ x := by
          intro y hy h
          have := hinj y (List.mem_cons_of_mem x hy) x (List.mem_cons_self x l) h
          exact hnd'.1 (this ▸ hy)
        rw [hSframe (φ x) hne, List.getElem?_set_self ha]
      · exact hSval x hx'
    · intro p hp
      rw [hSframe p (fun x hx => hp x (List.mem_cons_of_mem a hx)),
        List.getElem?_set_ne (hp a (List.mem_cons_self a l))]

theorem indexPairs_inj_row {N : Nat} :
    ∀ x ∈ indexPairs N, ∀ y ∈ indexPairs N, x.1 * N + x.2 = y.1 * N + y.2 → x = y := by
  intro x hx y hy h
  obtain ⟨_, hx2⟩ := mem_indexPairs.mp hx
  obtain ⟨_, hy2⟩ := mem_indexPairs.mp hy
  obtain ⟨h1, h2⟩ := group_coord_inj hx2 hy2 h
  exact Prod.ext h1 h2

theorem indexPairs_inj_col {N : Nat} :
    ∀ x ∈ indexPairs N, ∀ y ∈ indexPairs N, x.2 * N + x.1 = y.2 * N + y.1 → x = y := by
  intro x hx y hy h
  obtain ⟨hx1, _⟩ := mem_indexPairs.mp hx
  obtain ⟨hy1, _⟩ := mem_indexPairs.mp hy
  obtain ⟨h1, h2⟩ := group_coord_inj hx1 hy1 h
  exact Prod.ext h2 h1

theorem transposeFill_spec (B : List Int) (N : Nat) (hB : B.length = N * N)
    (hNN : N * N < 4294967296) :
    ∃ Bt, transposeFill B N = some Bt ∧ Bt.length = N * N ∧
      ∀ i j, i < N → j < N → Bt[j * N + i]? = some (B.getD (i * N + j) 0) := by
  have hle : N * N ≤ 4294967296 := Nat.le_of_lt hNN
  have hlen : (transposeAlloc N).length = N * N := by
    unfold transposeAlloc
    rw [List.length_replicate, u32_eq_self hNN]
  obtain ⟨S, hS, hSlen, hSval, _⟩ := fold_store_pointwise
    (fun p : Nat × Nat => p.2 * N + p.1) (fun p => B.getD (p.1 * N + p.2) 0)
    (indexPairs N) (transposeAlloc N) (indexPairs_nodup N) indexPairs_inj_col
    (fun x hx => by
      rw [hlen]
      exact row_mul_add_lt (mem_indexPairs.mp hx).2 (mem_indexPairs.mp hx).1)
  refine ⟨S, ?_, by rw [hSlen, hlen], ?_⟩
  · unfold transposeFill
    rw [foldlM_nested (List.range N) (List.range N) (fun Bt i j => transposeCell B N i Bt j)]
    rw [← hS]
    apply foldlM_option_congr
    intro x hx s
    obtain ⟨h1, h2⟩ := mem_indexPairs.mp hx
    unfold transposeCell
    rw [idxC_eq hle h1 h2, idxC_eq hle h2 h1,
      getElem?_eq_some_getD (hB ▸ row_mul_add_lt h1 h2)]
  · intro i j hi hj
    exact hSval (i, j) (mem_indexPairs.mpr ⟨hi, hj⟩)

theorem refSum_eq (A B Bt : List Int) (N i j : Nat) (hA : A.length = N * N)
    (hNN : N * N ≤ 4294967296) (hi : i < N) (hj : j < N)
    (hBt : ∀ i j, i < N → j < N → Bt[j * N + i]? = some (B.getD (i * N + j) 0)) :
    (List.range N).foldlM (refStep A Bt N i j) 0 = some (productEntry A B N i j) := by
  rw [foldlM_add_terms _ (fun k => A.getD (i * N + k) 0 * B.getD (k * N + j) 0)]
  · rw [Int.zero_add]
    rfl
  · intro k hk r
    have hk' : k < N := List.mem_range.mp hk
    unfold refStep
    rw [idxC_eq hNN hi hk', idxC_eq hNN hj hk',
      getElem?_eq_some_getD (hA ▸ row_mul_add_lt hi hk'), hBt k j hk' hj]

/-- C23 (amended): for `N * N < 2 ^ 32` and `A`, `B`, `C` of length `N * N`,
`transpose_mult_ref` first builds `Bt` with `Bt[j * N + i] = B[i * N + j]` for
all `i, j < N`, and returns with `C[i * N + j]` equal to the sum over `k` in
`[0, N)` of `A[i * N + k] * B[k * N + j]` for all `i, j < N`. -/
theorem transpose_mult_ref_product (A B C : List Int) (N : Nat)
    (hA : A.length = N * N) (hB : B.length = N * N) (hC : C.length = N * N)
    (hNN : N * N < 4294967296) :
    ∃ Bt C1, transposeFill B N = some Bt ∧
      (∀ i j, i < N → j < N → Bt[j * N + i]? = B[i * N + j]?) ∧
      transpose_mult_ref A B C N = some C1 ∧ C1.length = N * N ∧
      ∀ i j, i < N → j < N → C1[i * N + j]? = some (productEntry A B N i j) := by
  have hle : N * N ≤ 4294967296 := Nat.le_of_lt hNN
  obtain ⟨Bt, hfill, _, hBt⟩ := transposeFill_spec B N hB hNN
  obtain ⟨S, hS, hSlen, hSval, _⟩ := fold_store_pointwise
    (fun p : Nat × Nat => p.1 * N + p.2) (fun p => productEntry A B N p.1 p.2)
    (indexPairs N) C (indexPairs_nodup N) indexPairs_inj_row
    (fun x hx => by
      rw [hC]
      exact row_mul_add_lt (mem_indexPairs.mp hx).1 (mem_indexPairs.mp hx).2)
  refine ⟨Bt, S, hfill, ?_, ?_, by rw [hSlen, hC], ?_⟩
  · intro i j hi hj
    rw [hBt i j hi hj, getElem?_eq_some_getD (hB ▸ row_mul_add_lt hi hj)]
  · unfold transpose_mult_ref
    rw [hfill]
    simp only
    rw [foldlM_nested (List.range N) (List.range N) (fun C i j => refCell A Bt N i C j)]
    rw [← hS]
    apply foldlM_option_congr
    intro x hx s
    obtain ⟨h1, h2⟩ := mem_indexPairs.mp hx
    unfold refCell
    rw [refSum_eq A B Bt N x.1 x.2 hA hle h1 h2 hBt, idxC_eq hle h1 h2]
  · intro i j hi hj
    exact hSval (i, j) (mem_indexPairs.mpr ⟨hi, hj⟩)

/-- Witness of C23 (amended): the scenario operands for `N = 4`. -/
theorem transpose_mult_ref_product_witness :
    ∃ Bt C1, transposeFill (hostB 4) 4 = some Bt ∧
      (∀ i j, i < 4 → j < 4 → Bt[j * 4 + i]? = (hostB 4)[i * 4 + j]?) ∧
      transpose_mult_ref (hostA 4) (hostB 4) (List.replicate 16 7) 4 = some C1 ∧
      C1.length = 4 * 4 ∧
      ∀ i j, i < 4 → j < 4 → C1[i * 4 + j]? = some (productEntry (hostA 4) (hostB 4) 4 i j) :=
  transpose_mult_ref_product (hostA 4) (hostB 4) (List.replicate 16 7) 4 (by decide)
    (by decide) (by decide) (by decide)

theorem foldlM_cons_none {σ α : Type} (f : σ → α → Option σ) (a : α) (l : List α) (s : σ)
    (h : f s a = none) : (a :: l).foldlM f s = none := by
  rw [List.foldlM_cons, h]
  rfl

theorem transposeCell_nil (B : List Int) (N i j : Nat) : transposeCell B N i [] j = none := by
  unfold transposeCell
  cases B[idxC N i j]? with
  | none => rfl
  | some b => simp [storeC]

theorem transpose_mult_ref_of_fill_none (A B C : List Int) (N : Nat)
    (h : transposeFill B N = none) : transpose_mult_ref A B C N = none := by
  unfold transpose_mult_ref
  rw [h]

/-- C23 as stated, for every `N`, fails: for `N = 65536` the element count
`N * N` of `Bt` wraps to 0, so the first store `Bt[0] = B[0]` is outside the
vector and the function does not run to its end. -/
theorem transpose_alloc_wraps :
    wideZeros.length = 65536 * 65536 ∧ transposeAlloc 65536 = [] ∧
    transposeFill wideZeros 65536 = none ∧
    transpose_mult_ref wideZeros wideZeros wideZeros 65536 = none := by
  have hlen : wideZeros.length = 65536 * 65536 := by
    unfold wideZeros
    rw [List.length_replicate]
  have halloc : transposeAlloc 65536 = [] := by decide
  have hr : List.range 65536 = 0 :: (List.range 65535).map Nat.succ :=
    List.range_succ_eq_map 65535
  have hfill : transposeFill wideZeros 65536 = none := by
    unfold transposeFill
    rw [halloc, hr]
    exact foldlM_cons_none _ 0 _ []
      (foldlM_cons_none _ 0 _ [] (transposeCell_nil wideZeros 65536 0 0))
  exact ⟨hlen, halloc, hfill, transpose_mult_ref_of_fill_none _ _ _ _ hfill⟩

/-! ## Host reference `tiled_mult_cpu` -/

theorem foldlM_flatMap {σ α β : Type} (l : List α) (g : α → List β)
    (f : σ → β → Option σ) (s0 : σ) :
    (l.flatMap g).foldlM f s0 = l.foldlM (fun s a => (g a).foldlM f s) s0 := by
  induction l generalizing s0 with
  | nil => rfl
  | cons a l ih =>
    rw [List.flatMap_cons, List.foldlM_append, List.foldlM_cons]
    cases (g a).foldlM f s0 with
    | none => rfl
    | some s1 => exact ih s1

theorem tiled_mult_cpu_flat (A B C : List Int) (N T : Nat) :
    tiled_mult_cpu A B C N T
      = (cpuZero C N).bind fun C0 =>
          (cpuOps N T).foldlM
            (fun C x => cpuCell A B N x.1 x.2.1 (u32 (x.2.2 * T))
              (min (u32 (u32 (x.2.2 * T) + T)) N) C) C0 := by
  unfold tiled_mult_cpu cpuOps
  cases cpuZero C N with
  | none => rfl
  | some C0 =>
    simp only [Option.some_bind, foldlM_flatMap, List.foldlM_map, cpuBlock, blockRange]

theorem mem_loopRange {a b k : Nat} (h : k ∈ loopRange a b) : a ≤ k ∧ k < b := by
  unfold loopRange at h
  rw [List.mem_range'_1] at h
  omega

theorem mem_blockRange_lt {N T t i : Nat} (h : i ∈ blockRange N T t) : i < N := by
  have := (mem_loopRange h).2
  have := Nat.min_le_right (u32 (u32 (t * T) + T)) N
  omega

theorem mem_cpuOps {N T : Nat} {x : Nat × Nat × Nat} (h : x ∈ cpuOps N T) :
    x.1 < N ∧ x.2.1 < N := by
  simp only [cpuOps, List.mem_flatMap, List.mem_map, List.mem_range] at h
  obtain ⟨ti, _, tj, _, tk, _, i, hi, j, hj, rfl⟩ := h
  exact ⟨mem_blockRange_lt hi, mem_blockRange_lt hj⟩

theorem cpuCell_eq (A B C : List Int) (N T i j tk : Nat)
    (hA : A.length = N * N) (hB : B.length = N * N) (hi : i < N) (hj : j < N) :
    cpuCell A B N i j (u32 (tk * T)) (min (u32 (u32 (tk * T) + T)) N) C
      = match C[idxC N i j]? with
        | none => none
        | some s => storeC C (idxC N i j) (s + blockSum A B N T i j tk) := by
  unfold cpuCell
  cases C[idxC N i j]? with
  | none => rfl
  | some s =>
    simp only
    rw [foldlM_add_terms _ (simpleTerm A B N i j)]
    · rfl
    · intro k hk r
      have hk' : k < N := mem_blockRange_lt hk
      have ha : u32 (u32 (i * N) + k) < A.length := by
        have h1 := u32_le (u32 (i * N) + k)
        have h2 := u32_le (i * N)
        have h3 := row_mul_add_lt hi hk'
        omega
      have hb : u32 (u32 (k * N) + j) < B.length := by
        have h1 := u32_le (u32 (k * N) + j)
        have h2 := u32_le (k * N)
        have h3 := row_mul_add_lt hk' hj
        omega
      unfold simpleStep simpleTerm
      rw [getElem?_eq_some_getD ha, getElem?_eq_some_getD hb]

/-- A loop of updates `C[φ x] += w x` at indices inside the buffer succeeds;
afterwards every element holds its old value plus the increments made at its
index. -/
theorem fold_accumulate_pointwise {α : Type} (φ : α → Nat) (w : α → Int) (l : List α) :
    ∀ (C0 : List Int), (∀ x ∈ l, φ x < C0.length) →
      ∃ S, l.foldlM (fun C x =>
            match C[φ x]? with
            | none => none
            | some s => storeC C (φ x) (s + w x)) C0 = some S ∧
        S.length = C0.length ∧
        ∀ p, p < C0.length →
          S[p]? = some (C0.getD p 0 + (l.map fun x => if φ x = p then w x else 0).sum) := by
  induction l with
  | nil =>
    intro C0 _
    refine ⟨C0, rfl, rfl, fun p hp => ?_⟩
    rw [getElem?_eq_some_getD hp]
    simp
  | cons a l ih =>
    intro C0 hlt
    have ha : φ a < C0.length := hlt a (List.mem_cons_self a l)
    have hlen1 : (C0.set (φ a) (C0.getD (φ a) 0 + w a)).length = C0.length :=
      List.length_set _ _ _
    obtain ⟨S, hS, hSlen, hSval⟩ := ih (C0.set (φ a) (C0.getD (φ a) 0 + w a))
      (fun x hx => by rw [hlen1]; exact hlt x (List.mem_cons_of_mem a hx))
    refine ⟨S, ?_, by rw [hSlen, hlen1], ?_⟩
    · rw [List.foldlM_cons, getElem?_eq_some_getD ha]
      simp only
      rw [storeC_eq_some _ ha]
      exact hS
    · intro p hp
      rw [hSval p (by rw [hlen1]; exact hp), List.map_cons, List.sum_cons]
      congr 1
      rw [List.getD_eq_getElem?_getD, List.getElem?_set]
      by_cases hpa : φ a = p
      · subst hpa
        rw [if_pos rfl, if_pos ha, if_pos rfl]
        simp only [Option.getD_some]
        ring
      · rw [if_neg hpa, if_neg hpa, ← List.getD_eq_getElem?_getD]
        ring

theorem sum_map_flatMap {α β : Type} (l : List α) (g : α → List β) (h : β → Int) :
    ((l.flatMap g).map h).sum = (l.map fun a => ((g a).map h).sum).sum := by
  induction l with
  | nil => rfl
  | cons a l ih =>
    rw [List.flatMap_cons, List.map_append, List.sum_append, ih, List.map_cons, List.sum_cons]

theorem blockRange_eq {N T t : Nat} (hT : 0 < T) (hNT : N + T ≤ 4294967296)
    (ht : t < numTiles N T) :
    blockRange N T t = List.range' (t * T) (min T (N - t * T)) := by
  have hnt := numTiles_eq_of_le hT hNT
  rw [hnt] at ht
  have h1 : (t + 1) * T ≤ (N + T - 1) / T * T := Nat.mul_le_mul_right T ht
  have h2 : (t + 1) * T = t * T + T := Nat.succ_mul t T
  have h3 : (N + T - 1) / T * T ≤ N + T - 1 := div_mul_le
  unfold blockRange loopRange
  rw [u32_eq_self (by omega : t * T < 4294967296),
    u32_eq_self (by omega : t * T + T < 4294967296)]
  congr 1
  omega

theorem sum_blockRange (h : Nat → Int) {N T t : Nat} (hT : 0 < T)
    (hNT : N + T ≤ 4294967296) (ht : t < numTiles N T) :
    ((blockRange N T t).map h).sum
      = ((List.range T).map fun kl => if t * T + kl < N then h (t * T + kl) else 0).sum := by
  rw [blockRange_eq hT hNT ht, List.range'_eq_map_range, List.map_map]
  have e : ((List.range T).map fun kl => if t * T + kl < N then h (t * T + kl) else 0)
      = (List.range T).map fun kl =>
          if kl < min T (N - t * T) then (fun kl => h (t * T + kl)) kl else 0 := by
    apply List.map_congr_left
    intro kl hkl
    have hk : kl < T := List.mem_range.mp hkl
    by_cases hc : t * T + kl < N
    · rw [if_pos hc, if_pos (by omega)]
    · rw [if_neg hc, if_neg (by omega)]
  rw [e, sum_range_padded (fun kl => h (t * T + kl)) (min T (N - t * T)) T
    (Nat.min_le_left _ _)]
  rfl

/-- The blocks partition `[0, N)`: summing over the blocks and inside each
block is summing over `[0, N)`. -/
theorem sum_blocks (h : Nat → Int) {N T : Nat} (hT : 0 < T) (hNT : N + T ≤ 4294967296) :
    ((List.range (numTiles N T)).map fun t => ((blockRange N T t).map h).sum).sum
      = ((List.range N).map h).sum := by
  have e : ((List.range (numTiles N T)).map fun t => ((blockRange N T t).map h).sum)
      = (List.range (numTiles N T)).map fun t =>
          ((List.range T).map fun kl => if t * T + kl < N then h (t * T + kl) else 0).sum := by
    apply List.map_congr_left
    intro t ht
    exact sum_blockRange h hT hNT (List.mem_range.mp ht)
  rw [e]
  apply sum_tiles_padded
  rw [numTiles_eq_of_le hT hNT]
  exact div_mul_ge hT

theorem sum_indicator (g : Nat → Int) {N i0 : Nat} (h0 : i0 < N) :
    ((List.range N).map fun i => if i = i0 then g i else 0).sum = g i0 := by
  induction N with
  | zero => omega
  | succ n ih =>
    rw [List.range_succ, List.map_append, List.sum_append]
    simp only [List.map_cons, List.map_nil, List.sum_cons, List.sum_nil, add_zero]
    by_cases h : i0 < n
    · rw [ih h, if_neg (by omega), add_zero]
    · have e : i0 = n := by omega
      subst e
      rw [if_pos rfl]
      have hz : ((List.range i0).map fun i => if i = i0 then g i else 0) 
          = (List.range i0).map fun _ => (0 : Int) := by
        apply List.map_congr_left
        intro i hi
        have := List.mem_range.mp hi
        rw [if_neg (by omega)]
      rw [hz, List.sum_map_zero, zero_add]

theorem sum_cpuOps_product (a b c : Nat → Int) (N T : Nat) :
    ((cpuOps N T).map fun x => a x.1 * (b x.2.1 * c x.2.2)).sum
      = ((List.range (numTiles N T)).map fun t => ((blockRange N T t).map a).sum).sum
        * (((List.range (numTiles N T)).map fun t => ((blockRange N T t).map b).sum).sum
          * ((List.range (numTiles N T)).map c).sum) := by
  unfold cpuOps
  simp only [sum_map_flatMap, List.map_map, Function.comp_def, List.sum_map_mul_left,
    List.sum_map_mul_right]

theorem sum_cpuOps_at (A B : List Int) (N T i0 j0 : Nat) (hT : 0 < T)
    (hNN : N * N ≤ 4294967296) (hNT : N + T ≤ 4294967296) (hi : i0 < N) (hj : j0 < N) :
    ((cpuOps N T).map fun x =>
        if idxC N x.1 x.2.1 = i0 * N + j0 then blockSum A B N T x.1 x.2.1 x.2.2 else 0).sum
      = productEntry A B N i0 j0 := by
  have e : ((cpuOps N T).map fun x =>
        if idxC N x.1 x.2.1 = i0 * N + j0 then blockSum A B N T x.1 x.2.1 x.2.2 else 0)
      = (cpuOps N T).map fun x =>
          (fun i => if i = i0 then (1 : Int) else 0) x.1
            * ((fun j => if j = j0 then (1 : Int) else 0) x.2.1
              * (fun tk => blockSum A B N T i0 j0 tk) x.2.2) := by
    apply List.map_congr_left
    intro x hx
    obtain ⟨h1, h2⟩ := mem_cpuOps hx
    rw [idxC_eq hNN h1 h2]
    by_cases hp : x.1 * N + x.2.1 = i0 * N + j0
    · obtain ⟨e1, e2⟩ := group_coord_inj h2 hj hp
      simp only [if_pos hp, e1, e2, if_true, one_mul]
    · rw [if_neg hp]
      by_cases e1 : x.1 = i0
      · have e2 : ¬ x.2.1 = j0 := fun e2 => hp (by rw [e1, e2])
        simp only [if_neg e2, zero_mul, mul_zero]
      · simp only [if_neg e1, zero_mul]
  rw [e, sum_cpuOps_product (fun i => if i = i0 then (1 : Int) else 0)
      (fun j => if j = j0 then (1 : Int) else 0) (fun tk => blockSum A B N T i0 j0 tk) N T,
    sum_blocks _ hT hNT, sum_blocks _ hT hNT,
    sum_indicator (fun _ => (1 : Int)) hi, sum_indicator (fun _ => (1 : Int)) hj, one_mul,
    one_mul]
  unfold blockSum
  rw [sum_blocks (simpleTerm A B N i0 j0) hT hNT]
  unfold productEntry
  congr 1
  apply List.map_congr_left
  intro k hk
  exact simpleTerm_eq_productTerm A B hNN hi hj (List.mem_range.mp hk)

theorem cpuZero_eq (C : List Int) (N : Nat) (hC : C.length = N * N)
    (hNN : N * N < 4294967296) :
    cpuZero C N = some ((List.range (N * N)).map fun _ => (0 : Int)) := by
  unfold cpuZero
  rw [u32_eq_self hNN, fold_store_range (fun _ => 0) C (N * N) (Nat.le_of_eq hC.symm),
    ← hC, List.drop_length, List.append_nil]

/-- Closed form of `tiled_mult_cpu`: when the 32-bit arithmetic does not wrap
it returns, and leaves the matrix product in `C`. -/
theorem tiled_mult_cpu_product (A B C : List Int) (N T : Nat)
    (hA : A.length = N * N) (hB : B.length = N * N) (hC : C.length = N * N)
    (hT : 0 < T) (hNN : N * N < 4294967296) (hNT : N + T ≤ 4294967296) :
    ∃ S, tiled_mult_cpu A B C N T = some S ∧ S.length = N * N ∧
      ∀ i j, i < N → j < N → S[i * N + j]? = some (productEntry A B N i j) := by
  have hle : N * N ≤ 4294967296 := Nat.le_of_lt hNN
  have hlen0 : ((List.range (N * N)).map fun _ => (0 : Int)).length = N * N := by simp
  obtain ⟨S, hS, hSlen, hSval⟩ := fold_accumulate_pointwise
    (fun x : Nat × Nat × Nat => idxC N x.1 x.2.1)
    (fun x => blockSum A B N T x.1 x.2.1 x.2.2) (cpuOps N T)
    ((List.range (N * N)).map fun _ => (0 : Int))
    (fun x hx => by
      rw [hlen0]
      exact idxC_lt (mem_cpuOps hx).1 (mem_cpuOps hx).2)
  refine ⟨S, ?_, by rw [hSlen, hlen0], ?_⟩
  · rw [tiled_mult_cpu_flat, cpuZero_eq C N hC hNN, Option.some_bind, ← hS]
    apply foldlM_option_congr
    intro x hx s
    exact cpuCell_eq A B s N T x.1 x.2.1 x.2.2 hA hB (mem_cpuOps hx).1 (mem_cpuOps hx).2
  · intro i j hi hj
    have hp : i * N + j < N * N := row_mul_add_lt hi hj
    rw [hSval (i * N + j) (by rw [hlen0]; exact hp),
      sum_cpuOps_at A B N T i j hT hle hNT hi hj]
    have hz : ((List.range (N * N)).map fun _ => (0 : Int)).getD (i * N + j) 0 = 0 := by
      rw [List.getD_eq_getElem?_getD, List.getElem?_map, List.getElem?_range hp]
      rfl
    rw [hz, zero_add]

theorem tiled_mult_cpu_of_zero_counts (A B C : List Int) (N T : Nat)
    (h1 : u32 (N * N) = 0) (h2 : numTiles N T = 0) : tiled_mult_cpu A B C N T = some C := by
  unfold tiled_mult_cpu cpuZero
  rw [h1, h2]
  rfl

theorem runUnit_of_zero_count (A B C : List Int) (N T g0 g1 tx ty : Nat)
    (h : numTiles N T = 0) (hr : rowOf T g0 tx < N ∧ colOf T g1 ty < N)
    (hi : idxC N (rowOf T g0 tx) (colOf T g1 ty) < C.length) :
    runUnit A B C N T g0 g1 tx ty
      = some (C.set (idxC N (rowOf T g0 tx) (colOf T g1 ty)) 0) := by
  have hs : unitSum A B N T g0 g1 tx ty = some 0 := by
    unfold unitSum
    rw [h]
    rfl
  unfold runUnit
  rw [hs]
  simp only [if_pos hr]
  exact storeC_eq_some _ hi

/-- C9 (amended): when the 32-bit arithmetic does not wrap (`N * N < 2 ^ 32`,
`N + Tile ≤ 2 ^ 31`), for operands and result buffers of length `N * N` and
every unit with `(row, col) = (g0 * T + tx, g1 * T + ty)` in `[0, N)^2`: the
element the tiled kernel writes to `C[row * N + col]` is the element
`tiled_mult_cpu` leaves in `C[row * N + col]`, namely the sum over `k` in
`[0, N)` of `A[row * N + k] * B[k * N + col]`. -/
theorem tiled_kernel_matches_host_reference (A B C Ccpu : List Int)
    (N T g0 g1 tx ty : Nat)
    (hA : A.length = N * N) (hB : B.length = N * N) (hC : C.length = N * N)
    (hCcpu : Ccpu.length = N * N) (hT : 1 ≤ T)
    (hNN : N * N < 4294967296) (hNT : N + T ≤ 2147483648)
    (htx : tx < T) (hty : ty < T) (hrow : g0 * T + tx < N) (hcol : g1 * T + ty < N) :
    ∃ v S, runUnit A B C N T g0 g1 tx ty
        = some (C.set ((g0 * T + tx) * N + (g1 * T + ty)) v) ∧
      tiled_mult_cpu A B Ccpu N T = some S ∧
      S[(g0 * T + tx) * N + (g1 * T + ty)]? = some v ∧
      v = productEntry A B N (g0 * T + tx) (g1 * T + ty) := by
  have hle : N * N ≤ 4294967296 := Nat.le_of_lt hNN
  have hN := le_of_mul_self_le hle
  obtain ⟨S, hS, _, hSval⟩ := tiled_mult_cpu_product A B Ccpu N T hA hB hCcpu hT hNN
    (by omega)
  have hr : rowOf T g0 tx = g0 * T + tx := u32_eq_self (by omega)
  have hc : colOf T g1 ty = g1 * T + ty := u32_eq_self (by omega)
  refine ⟨productEntry A B N (g0 * T + tx) (g1 * T + ty), S, ?_, hS,
    hSval _ _ hrow hcol, rfl⟩
  unfold runUnit
  rw [unitSum_eq_product A B N T g0 g1 tx ty hA hB hT hle hNT htx hty hrow hcol, hr, hc]
  simp only [hrow, hcol, and_self, if_true, idxC_eq hle hrow hcol]
  exact storeC_eq_some _ (hC ▸ row_mul_add_lt hrow hcol)

/-- Witness of C9 (amended): the scenario operands for `N = 4`, `Tile = 2`,
the unit of row 3 and column 2. -/
theorem tiled_kernel_matches_host_reference_witness :
    ∃ v S, runUnit (hostA 4) (hostB 4) (List.replicate 16 0) 4 2 1 1 1 0
        = some ((List.replicate 16 0).set ((1 * 2 + 1) * 4 + (1 * 2 + 0)) v) ∧
      tiled_mult_cpu (hostA 4) (hostB 4) (List.replicate 16 7) 4 2 = some S ∧
      S[(1 * 2 + 1) * 4 + (1 * 2 + 0)]? = some v ∧
      v = productEntry (hostA 4) (hostB 4) 4 (1 * 2 + 1) (1 * 2 + 0) :=
  tiled_kernel_matches_host_reference (hostA 4) (hostB 4) (List.replicate 16 0)
    (List.replicate 16 7) 4 2 1 1 1 0 (by decide) (by decide) (by decide) (by decide)
    (by decide) (by decide) (by decide) (by decide) (by decide) (by decide) (by decide)

/-- C9 as stated, for every `N` and `Tile`, fails: for `N = 65536` and
`Tile = 4294967295` both the count `N * N` of the zeroing loop and the tile
count wrap to 0, so `tiled_mult_cpu` leaves `C` as it found it (here sevens),
while the unit of `(0, 0)` of the tiled kernel writes `0` to `C[0]`. -/
theorem host_reference_keeps_stale_values :
    wideZeros.length = 65536 * 65536 ∧ wideSevens.length = 65536 * 65536 ∧
    runUnit wideZeros wideZeros wideSevens 65536 4294967295 0 0 0 0
      = some (wideSevens.set 0 0) ∧
    tiled_mult_cpu wideZeros wideZeros wideSevens 65536 4294967295 = some wideSevens ∧
    (wideSevens.set 0 0)[0]? = some 0 ∧ wideSevens[0]? = some 7 := by
  have hz : wideZeros.length = 65536 * 65536 := by
    unfold wideZeros
    rw [List.length_replicate]
  have hs : wideSevens.length = 4294967296 := by
    unfold wideSevens
    rw [List.length_replicate]
  have hnt : numTiles 65536 4294967295 = 0 := by decide
  have hidx : idxC 65536 (rowOf 4294967295 0 0) (colOf 4294967295 0 0) = 0 := by decide
  have hrun := runUnit_of_zero_count wideZeros wideZeros wideSevens 65536 4294967295 0 0 0 0
    hnt (by decide) (by rw [hidx, hs]; omega)
  rw [hidx] at hrun
  refine ⟨hz, hs, hrun,
    tiled_mult_cpu_of_zero_counts _ _ _ 65536 4294967295 (by decide) hnt,
    List.getElem?_set_self (by rw [hs]; omega), ?_⟩
  unfold wideSevens
  exact List.getElem?_replicate_of_lt (by omega)

end CpuGpuCompute
